import Mathlib

/-!
# Sound manager of omnispeak (`src/id_sd.c`): shallow embedding and properties

The C globals of `id_sd.c` become the fields of one `State` record and every C
function becomes a function on that record.  Conventions of the embedding:

* machine integers are `Nat`; arithmetic that can leave the range of its C type
  is reduced explicitly (`% 4294967296` for 32 bits, `% 65536` for 16 bits);
* a C pointer into a read-only buffer is a pair of the buffer and a position
  (`BytePtr`), the null pointer is `none`;
* `Quit` ends the run: it is the outcome `Stop.quit`, carrying the message and
  the state in which it was called; a read outside an object or a division by
  zero is the outcome `Stop.fault`; a loop that can spin for ever is given fuel
  and the outcome `Stop.spin` stands for its divergence;
* the FM core (dbopl) is external: a register write and a request for a block of
  samples are recorded in `State.trace`, in the order issued.  The trace also
  records the entry into each service routine and the audio lock;
* the host is little-endian (x86), as the project assumes; `decodeEvent` alone
  describes the loads of the sequencer on a host of either byte order.

The token reader of `src/ck_act.c` (`CK_ACT_SkipWhitespace`, `CK_ACT_GetToken`)
is embedded in the same way, on its own parser state.
-/

namespace IdSd

/-! ## Data model -/

/-- Effects device, `SDMode` of `id_sd.h`. -/
inductive SDMode where
  | sdm_Off
  | sdm_PC
  | sdm_AdLib
deriving DecidableEq, Repr

/-- Music device, `SMMode` of `id_sd.h`. -/
inductive SMMode where
  | smm_Off
  | smm_AdLib
deriving DecidableEq, Repr

/-- Numeric value of an `SDMode` enumerator. -/
def SDMode.toNat : SDMode → Nat
  | .sdm_Off => 0
  | .sdm_PC => 1
  | .sdm_AdLib => 2

/-- Numeric value of an `SMMode` enumerator. -/
def SMMode.toNat : SMMode → Nat
  | .smm_Off => 0
  | .smm_AdLib => 1

/-- The fields of `Instrument` that `SDL_AlSetFXInst` and `SDL_ALPlaySound_Low` read. -/
structure Instrument where
  mChar : Nat
  cChar : Nat
  mScale : Nat
  cScale : Nat
  mAttack : Nat
  cAttack : Nat
  mSus : Nat
  cSus : Nat
  mWave : Nat
  cWave : Nat
deriving DecidableEq, Repr

/-- The global `alZeroInst`: static storage, all fields zero. -/
def alZeroInst : Instrument := ⟨0, 0, 0, 0, 0, 0, 0, 0, 0, 0⟩

/-- One slot of the sound table.  `addr` is the numeric value of the pointer
stored in `SoundTable[sound]` (0 is the null pointer); the other fields are what
that pointer points at, read as a `PCSound` or an `AdLibSound`: `length` and
`priority` are `common.length` and `common.priority` after the little-endian
swap, `inst` and `block` exist for FM effects only, `data` is the sample
array. -/
structure SoundEntry where
  addr : Nat
  length : Nat
  priority : Nat
  inst : Instrument
  block : Nat
  data : List Nat
deriving DecidableEq, Repr

/-- A `uint8_t *` (or `uint16_t *`) into a read-only buffer: the buffer and the
position reached in it, counted in elements of the pointer type. -/
structure BytePtr where
  buf : List Nat
  pos : Nat
deriving DecidableEq, Repr

/-- A `MusicGroup`: the declared byte length and the event bytes of `values`. -/
structure MusicGroup where
  length : Nat
  values : List Nat
deriving DecidableEq, Repr

/-- What the sound manager does to the outside world, in the order it does it. -/
inductive Event where
  | regWrite (reg val : Nat)
  | lockAudio
  | unlockAudio
  | callT0Service
  | callALService
  | callPCService
  | callALSoundService
  | oplUpdate (pos len : Nat)
  | pcUpdate (pos len : Nat)
deriving DecidableEq, Repr

/-- The globals of `id_sd.c` (and the `static count` of `SDL_t0Service`). -/
structure State where
  AdLibPresent : Bool
  NeedsMusic : Bool
  SoundMode : SDMode
  MusicMode : SMMode
  SoundPriority : Nat
  SoundNumber : Nat
  CA_audio : List SoundEntry
  SoundTable : List SoundEntry
  NeedsDigitized : Int
  pcLastSample : Nat
  pcSound : Option BytePtr
  pcLengthLeft : Nat
  pcSoundLookup : List Nat
  SD_PC_Speaker_On : Bool
  SD_SDL_CurrentBeepSample : Int
  SD_SDL_BeepHalfCycleCounter : Nat
  SD_SDL_BeepHalfCycleCounterUpperBound : Nat
  alSound : Option BytePtr
  alBlock : Nat
  alLengthLeft : Nat
  alTimeCount : Nat
  quiet_sfx : Bool
  sqActive : Bool
  alFXReg : Nat
  sqHack : Option BytePtr
  sqHackPtr : Option BytePtr
  sqHackLen : Nat
  sqHackSeqLen : Nat
  sqHackTime : Nat
  freq : Int
  SD_SDL_AudioSubsystem_Up : Bool
  SD_SDL_SampleOffsetInSound : Nat
  SD_SDL_SamplesPerPart : Nat
  count : Nat
  trace : List Event
deriving DecidableEq, Repr

/-- How a run ends when it does not return. -/
inductive Stop where
  | quit (msg : String) (s : State)
  | fault
  | spin
deriving DecidableEq, Repr

/-! ## Constants of `id_sd.h` and of `id_sd.c` -/

/-- Register numbers of `id_sd.h`, which is not among the sources: the AdLib
register map.  No property below depends on the numbers. -/
def alChar : Nat := 0x20

/-- See `alChar`. -/
def alScale : Nat := 0x40

/-- See `alChar`. -/
def alAttack : Nat := 0x60

/-- See `alChar`. -/
def alSus : Nat := 0x80

/-- See `alChar`. -/
def alWave : Nat := 0xE0

/-- See `alChar`. -/
def alFreqL : Nat := 0xA0

/-- See `alChar`. -/
def alFreqH : Nat := 0xB0

/-- See `alChar`. -/
def alEffects : Nat := 0xBD

/-- Number of sequencer tracks, `sqMaxTracks` of `id_sd.h` (not among the sources). -/
def sqMaxTracks : Nat := 1

/-- The macro `PC_PIT_RATE`. -/
def PC_PIT_RATE : Nat := 1193182

/-- The macro `SD_SFX_PART_RATE`. -/
def SD_SFX_PART_RATE : Int := 140

/-- The macro `SD_SOUND_PART_RATE_BASE`. -/
def SD_SOUND_PART_RATE_BASE : Int := 1192030

/-- Op cell of the modulator of channel 0, `modifiers[0]`. -/
def modifiers0 : Nat := 0

/-- Op cell of the carrier of channel 0, `carriers[0]`. -/
def carriers0 : Nat := 3

/-! ## Chip register interface and audio lock -/

/-- Append an event to the trace. -/
def emit (s : State) (e : Event) : State :=
  { s with trace := s.trace ++ [e] }

/-- The macro `alOut(n,b)`, that is `YM3812Write(&oplChip, n, b)`; the value is a `Bit8u`. -/
def alOut (s : State) (n b : Nat) : State :=
  emit s (.regWrite n (b % 256))

/-- Model of `SDL_LockAudio`. -/
def SDL_LockAudio (s : State) : State :=
  emit s .lockAudio

/-- Model of `SDL_UnlockAudio`. -/
def SDL_UnlockAudio (s : State) : State :=
  emit s .unlockAudio

/-- The pattern `if (SD_SDL_AudioSubsystem_Up) SDL_LockAudio();`. -/
def lockIfUp (s : State) : State :=
  if s.SD_SDL_AudioSubsystem_Up then SDL_LockAudio s else s

/-- The pattern `if (SD_SDL_AudioSubsystem_Up) SDL_UnlockAudio();`. -/
def unlockIfUp (s : State) : State :=
  if s.SD_SDL_AudioSubsystem_Up then SDL_UnlockAudio s else s

/-! ## PC speaker effects -/

/-- Model of `SDL_PCPlaySound_Low`. -/
def SDL_PCPlaySound_Low (s : State) (sound : SoundEntry) : State :=
  { s with pcLastSample := 255, pcLengthLeft := sound.length, pcSound := some ⟨sound.data, 0⟩ }

/-- Model of `SDL_PCPlaySound`. -/
def SDL_PCPlaySound (s : State) (sound : SoundEntry) : State :=
  unlockIfUp (SDL_PCPlaySound_Low (lockIfUp s) sound)

/-- Model of `SDL_PCStopSound_Low`. -/
def SDL_PCStopSound_Low (s : State) : State :=
  { s with pcSound := none, SD_PC_Speaker_On := false }

/-- Model of `SDL_PCStopSound`. -/
def SDL_PCStopSound (s : State) : State :=
  unlockIfUp (SDL_PCStopSound_Low (lockIfUp s))

/-- The block `if (s != pcLastSample) { ... }` of `SDL_PCService`: the table
lookup `pcSoundLookup[s]` (a fault outside the table) and the product
`SD_SDL_AudioSpec.freq * t` stored in a `uint32_t`. -/
def pcNewSample (s1 : State) (smp : Nat) : Except Stop State :=
  if smp ≠ s1.pcLastSample then
    let s2 : State := { s1 with pcLastSample := smp }
    if smp ≠ 0 then
      match s2.pcSoundLookup[smp]? with
      | none => .error .fault
      | some t =>
        .ok { s2 with
              SD_PC_Speaker_On := true
              SD_SDL_CurrentBeepSample := 0
              SD_SDL_BeepHalfCycleCounter := 0
              SD_SDL_BeepHalfCycleCounterUpperBound := ((s2.freq * (t : Int)) % 4294967296).toNat }
    else
      .ok { s2 with SD_PC_Speaker_On := false }
  else .ok s1

/-- The block `if (!(--pcLengthLeft)) { ... }` of `SDL_PCService`; `pcLengthLeft`
is a `uint32_t`. -/
def pcCountDown (s3 : State) : State :=
  let s4 : State := { s3 with pcLengthLeft := (s3.pcLengthLeft + 4294967295) % 4294967296 }
  if s4.pcLengthLeft = 0 then
    let s5 := SDL_PCStopSound s4
    { s5 with SoundNumber := 0, SoundPriority := 0 }
  else s4

/-- Model of `SDL_PCService`: read `*pcSound++`, then the two blocks above. -/
def SDL_PCService (s0 : State) : Except Stop State :=
  let s := emit s0 .callPCService
  match s.pcSound with
  | none => .ok s
  | some p =>
    match p.buf[p.pos]? with
    | none => .error .fault
    | some smp =>
      match pcNewSample { s with pcSound := some ⟨p.buf, p.pos + 1⟩ } smp with
      | .error e => .error e
      | .ok s3 => .ok (pcCountDown s3)

/-- Model of `SDL_ShutPC_Low`. -/
def SDL_ShutPC_Low (s : State) : State :=
  { s with pcSound := none, SD_PC_Speaker_On := false }

/-- Model of `SDL_ShutPC`. -/
def SDL_ShutPC (s : State) : State :=
  unlockIfUp (SDL_ShutPC_Low (lockIfUp s))

/-! ## FM effects -/

/-- Model of `SDL_ALStopSound_Low`. -/
def SDL_ALStopSound_Low (s : State) : State :=
  alOut { s with alSound := none } (alFreqH + 0) 0

/-- Model of `SDL_ALStopSound`. -/
def SDL_ALStopSound (s : State) : State :=
  unlockIfUp (SDL_ALStopSound_Low (lockIfUp s))

/-- The carrier scale written by `SDL_AlSetFXInst`: `inst->cScale`, attenuated
in `uint8_t` arithmetic when `quiet_sfx` is set. -/
def fxCarrierScale (quiet : Bool) (cScale : Nat) : Nat :=
  if quiet then
    let c1 := (0x3F + 256 - cScale % 256) % 256
    let c2 := ((c1 >>> 1) % 256 + (c1 >>> 2) % 256) % 256
    (0x3F + 256 - c2) % 256
  else cScale

/-- Model of `SDL_AlSetFXInst`: ten register writes, in the order of the source. -/
def SDL_AlSetFXInst (s : State) (inst : Instrument) : State :=
  let m := modifiers0
  let c := carriers0
  let s := alOut s (m + alChar) inst.mChar
  let s := alOut s (m + alScale) inst.mScale
  let s := alOut s (m + alAttack) inst.mAttack
  let s := alOut s (m + alSus) inst.mSus
  let s := alOut s (m + alWave) inst.mWave
  let s := alOut s (c + alChar) inst.cChar
  let s := alOut s (c + alScale) (fxCarrierScale s.quiet_sfx inst.cScale)
  let s := alOut s (c + alAttack) inst.cAttack
  let s := alOut s (c + alSus) inst.cSus
  alOut s (c + alWave) inst.cWave

/-- Model of `SDL_ALPlaySound_Low`: stop, load length, cursor and block, then
`Quit` on an instrument with `mSus | cSus` zero, else program the instrument. -/
def SDL_ALPlaySound_Low (s : State) (sound : SoundEntry) : Except Stop State :=
  let s1 := SDL_ALStopSound_Low s
  let s2 : State :=
    { s1 with
      alLengthLeft := sound.length
      alSound := some ⟨sound.data, 0⟩
      alBlock := (((sound.block &&& 7) <<< 2) ||| 0x20) }
  if (sound.inst.mSus ||| sound.inst.cSus) = 0 then
    .error (.quit "SDL_ALPlaySound() - Bad instrument" s2)
  else
    .ok (SDL_AlSetFXInst s2 sound.inst)

/-- Model of `SDL_ALPlaySound`. -/
def SDL_ALPlaySound (s : State) (sound : SoundEntry) : Except Stop State :=
  match SDL_ALPlaySound_Low (lockIfUp s) sound with
  | .error e => .error e
  | .ok s1 => .ok (unlockIfUp s1)

/-- Model of `SDL_ALSoundService`. -/
def SDL_ALSoundService (s0 : State) : Except Stop State :=
  let s := emit s0 .callALSoundService
  match s.alSound with
  | none => .ok s
  | some p =>
    match p.buf[p.pos]? with
    | none => .error .fault
    | some smp =>
      let s1 : State := { s with alSound := some ⟨p.buf, p.pos + 1⟩ }
      let s2 : State :=
        if smp = 0 then alOut s1 (alFreqH + 0) 0
        else alOut (alOut s1 (alFreqL + 0) smp) (alFreqH + 0) s1.alBlock
      let s3 : State := { s2 with alLengthLeft := (s2.alLengthLeft + 4294967295) % 4294967296 }
      if s3.alLengthLeft = 0 then
        let s4 := alOut { s3 with alSound := none } (alFreqH + 0) 0
        .ok { s4 with SoundNumber := 0, SoundPriority := 0 }
      else .ok s3

/-- Model of `SDL_ShutAL_Low`. -/
def SDL_ShutAL_Low (s : State) : State :=
  let s := alOut s alEffects 0
  let s := alOut s (alFreqH + 0) 0
  let s := SDL_AlSetFXInst s alZeroInst
  { s with alSound := none }

/-- Model of `SDL_ShutAL`. -/
def SDL_ShutAL (s : State) : State :=
  unlockIfUp (SDL_ShutAL_Low (lockIfUp s))

/-! ## The control surface for effects -/

/-- The value `length` that `SD_PlaySound` tests against zero:
`SDL_SwapLE32(*(uint32_t *)(&SoundTable[sound]))`, the first four bytes of the
table slot itself, which on a little-endian host are the low 32 bits of the
pointer stored there. -/
def playLength (e : SoundEntry) : Nat :=
  e.addr % 4294967296

/-- Model of `SD_PlaySound`.  An index outside the table is a fault. -/
def SD_PlaySound (s : State) (sound : Nat) : Except Stop State :=
  if s.SoundMode = .sdm_Off then .ok s
  else
    match s.SoundTable[sound]? with
    | none => .error .fault
    | some e =>
      if e.addr = 0 then .error (.quit "SD_PlaySound() - Uncached sound" s)
      else
        let length := playLength e
        if length = 0 then .error (.quit "SD_PlaySound() - Zero length sound" s)
        else
          let priority := e.priority
          if priority < s.SoundPriority then .ok s
          else
            let r : Except Stop State :=
              match s.SoundMode with
              | .sdm_PC => .ok (SDL_PCPlaySound s e)
              | .sdm_AdLib => SDL_ALPlaySound s e
              | .sdm_Off => .ok s
            match r with
            | .error x => .error x
            | .ok s1 => .ok { s1 with SoundNumber := sound, SoundPriority := priority }

/-- Model of `SD_SoundPlaying`; the result is a `uint16_t`. -/
def SD_SoundPlaying (s : State) : Nat :=
  match s.SoundMode with
  | .sdm_PC => if s.pcSound.isSome then s.SoundNumber % 65536 else 0
  | .sdm_AdLib => if s.alSound.isSome then s.SoundNumber % 65536 else 0
  | .sdm_Off => 0

/-- Model of `SD_StopSound`. -/
def SD_StopSound (s : State) : State :=
  let s1 : State :=
    match s.SoundMode with
    | .sdm_PC => SDL_PCStopSound s
    | .sdm_AdLib => SDL_ALStopSound s
    | .sdm_Off => s
  { s1 with SoundPriority := 0, SoundNumber := 0 }

/-! ## Music sequencer -/

/-- A `uint16_t` load at element `i` of a buffer of bytes, on the little-endian host. -/
def readU16 (buf : List Nat) (i : Nat) : Option Nat :=
  match buf[2 * i]?, buf[2 * i + 1]? with
  | some lo, some hi => some (lo + 256 * hi)
  | _, _ => none

/-- The `while` loop of `SDL_ALService`.  `sqHackTime` is kept as the 32-bit
pattern that the comparison with the `uint32_t alTimeCount` reads; `a` and `v`
are the first and second byte of `w` in memory; `sqHackLen` is a `uint16_t`.
Every pass moves the read pointer two elements on, so the fuel, the size of
the buffer, runs out only where the next read is outside the buffer. -/
def SDL_ALService_loop : Nat → State → Except Stop State
  | 0, s =>
    if s.sqHackLen ≠ 0 ∧ s.sqHackTime ≤ s.alTimeCount then .error .fault else .ok s
  | fuel + 1, s =>
    if s.sqHackLen ≠ 0 ∧ s.sqHackTime ≤ s.alTimeCount then
      match s.sqHackPtr with
      | none => .error .fault
      | some p =>
        match readU16 p.buf p.pos, readU16 p.buf (p.pos + 1) with
        | some w, some d =>
          let s1 : State :=
            { s with
              sqHackPtr := some ⟨p.buf, p.pos + 2⟩
              sqHackTime := (s.alTimeCount + d) % 4294967296 }
          let a := w % 256
          let v := w / 256
          let s2 := alOut s1 a v
          SDL_ALService_loop fuel { s2 with sqHackLen := (s2.sqHackLen + 65532) % 65536 }
        | _, _ => .error .fault
    else .ok s

/-- Model of `SDL_ALService`. -/
def SDL_ALService (s0 : State) : Except Stop State :=
  let s := emit s0 .callALService
  if s.sqActive = false then .ok s
  else
    let fuel := match s.sqHackPtr with
      | some p => p.buf.length
      | none => 0
    match SDL_ALService_loop fuel s with
    | .error x => .error x
    | .ok s1 =>
      let s2 : State := { s1 with alTimeCount := (s1.alTimeCount + 1) % 4294967296 }
      if s2.sqHackLen = 0 then
        .ok { s2 with
              sqHackPtr := s2.sqHack
              sqHackLen := s2.sqHackSeqLen
              alTimeCount := 0
              sqHackTime := 0 }
      else .ok s2

/-- Model of `SD_MusicOn`. -/
def SD_MusicOn (s : State) : State :=
  { s with sqActive := true }

/-- Model of `SD_MusicOff`. -/
def SD_MusicOff (s : State) : State :=
  let s1 : State :=
    if s.MusicMode = .smm_AdLib then
      let s := alOut { s with alFXReg := 0 } alEffects 0
      (List.range sqMaxTracks).foldl (fun st i => alOut st (alFreqH + i + 1) 0) s
    else s
  { s1 with sqActive := false }

/-- Model of `SD_StartMusic`; `sqHackLen` and `sqHackSeqLen` are `uint16_t`. -/
def SD_StartMusic (s : State) (music : MusicGroup) : State :=
  let s1 := SD_MusicOff s
  if s1.MusicMode = .smm_AdLib then
    SD_MusicOn
      { s1 with
        sqHackPtr := some ⟨music.values, 0⟩
        sqHack := some ⟨music.values, 0⟩
        sqHackSeqLen := music.length % 65536
        sqHackLen := music.length % 65536
        sqHackTime := 0
        alTimeCount := 0 }
  else s1

/-- Model of `SD_FadeOutMusic`. -/
def SD_FadeOutMusic (s : State) : State :=
  if s.MusicMode = .smm_AdLib then SD_MusicOff s else s

/-- Model of `SD_MusicPlaying`: `return false`. -/
def SD_MusicPlaying (_s : State) : Bool := false

/-! ## Timer -/

/-- The service routine of the selected effects device, the `switch (SoundMode)`
of `SDL_t0Service`. -/
def effectsService (s : State) : Except Stop State :=
  match s.SoundMode with
  | .sdm_PC => SDL_PCService s
  | .sdm_AdLib => SDL_ALSoundService s
  | .sdm_Off => .ok s

/-- Model of `SDL_t0Service`; `State.count` is its `static uint16_t count`. -/
def SDL_t0Service (s0 : State) : Except Stop State :=
  let s := emit s0 .callT0Service
  if s.MusicMode = .smm_AdLib then
    match SDL_ALService s with
    | .error x => .error x
    | .ok s1 =>
      let s2 : State := { s1 with count := (s1.count + 1) % 65536 }
      if s2.count &&& 3 = 0 then effectsService s2 else .ok s2
  else effectsService s

/-- Conversion of an `int` to `int16_t`. -/
def toInt16 (x : Int) : Int :=
  let y := x % 65536
  if 32768 ≤ y then y - 65536 else y

/-- A 32-bit `int` result, wrapped as the x86 does. -/
def wrapInt32 (x : Int) : Int :=
  let y := x % 4294967296
  if 2147483648 ≤ y then y - 4294967296 else y

/-- Model of `SDL_SetTimer0`: `(int32_t)int_8_divisor * freq / PC_PIT_RATE`, a
truncating `int` division, stored in the `uint32_t SD_SDL_SamplesPerPart`. -/
def SDL_SetTimer0 (s : State) (int_8_divisor : Int) : State :=
  { s with
    SD_SDL_SamplesPerPart :=
      ((Int.tdiv (wrapInt32 (int_8_divisor * s.freq)) (PC_PIT_RATE : Int)) % 4294967296).toNat }

/-- Model of `SDL_SetIntsPerSecond`; `& 0xFFFF` keeps the low 16 bits and the
argument of `SDL_SetTimer0` is an `int16_t`.  Called with 140 or 560 only. -/
def SDL_SetIntsPerSecond (s : State) (tickrate : Int) : State :=
  SDL_SetTimer0 s (toInt16 ((Int.tdiv SD_SOUND_PART_RATE_BASE tickrate) % 65536))

/-- Model of `SDL_SetTimerSpeed`. -/
def SDL_SetTimerSpeed (s : State) : State :=
  SDL_SetIntsPerSecond s
    (toInt16 (SD_SFX_PART_RATE * (if s.MusicMode = .smm_AdLib then 4 else 1)))

/-! ## Device selection -/

/-- Model of `SDL_StartAL`. -/
def SDL_StartAL (s : State) : State :=
  let s1 : State := { s with alFXReg := 0 }
  SDL_AlSetFXInst (alOut s1 alEffects s1.alFXReg) alZeroInst

/-- Model of `SDL_ShutDevice`. -/
def SDL_ShutDevice (s : State) : State :=
  let s1 : State :=
    match s.SoundMode with
    | .sdm_PC => SDL_ShutPC s
    | .sdm_AdLib => SDL_ShutAL s
    | .sdm_Off => s
  { s1 with SoundMode := .sdm_Off }

/-- Model of `SDL_StartDevice`. -/
def SDL_StartDevice (s : State) : State :=
  let s1 : State := if s.SoundMode = .sdm_AdLib then SDL_StartAL s else s
  { s1 with SoundNumber := 0, SoundPriority := 0 }

/-- The pointer `CA_audio + offset` as a table; a negative offset leaves no slot
that may be read. -/
def tableAt (audio : List SoundEntry) (offset : Int) : List SoundEntry :=
  if 0 ≤ offset then audio.drop offset.toNat else []

/-- Model of `SD_SetSoundMode`.  The locals `any_sound` and `offset` are not
initialised in the source: the values they hold on entry are the parameters
`any_sound0` and `offset0`.  `NUMSOUNDS` is a constant of `id_ca.h`, which is
not among the sources. -/
def SD_SetSoundMode (NUMSOUNDS : Nat) (any_sound0 : Bool) (offset0 : Int)
    (s0 : State) (mode : SDMode) : Bool × State :=
  let s := SD_StopSound s0
  let r : Bool × Int × State :=
    match mode with
    | .sdm_Off => (true, offset0, { s with NeedsDigitized := 0 })
    | .sdm_PC => (true, 0, { s with NeedsDigitized := 0 })
    | .sdm_AdLib =>
      if s.AdLibPresent = false then (any_sound0, offset0, s)
      else (true, (NUMSOUNDS : Int), { s with NeedsDigitized := 0 })
  let any_sound := r.1
  let offset := r.2.1
  let s1 := r.2.2
  let s2 : State :=
    if any_sound = true ∧ mode ≠ s1.SoundMode then
      let s := SDL_ShutDevice s1
      SDL_StartDevice { s with SoundMode := mode, SoundTable := tableAt s.CA_audio offset }
    else s1
  (any_sound, SDL_SetTimerSpeed s2)

/-- Model of `SD_SetMusicMode`.  The local `result` is not initialised in the
source: `result0` is the value it holds on entry.  The loop on
`SD_MusicPlaying()` never runs. -/
def SD_SetMusicMode (result0 : Bool) (s0 : State) (mode : SMMode) : Bool × State :=
  let s := SD_FadeOutMusic s0
  let r : Bool × State :=
    match mode with
    | .smm_Off => (true, { s with NeedsMusic := false })
    | .smm_AdLib =>
      if s.AdLibPresent then (true, { s with NeedsMusic := true }) else (result0, s)
  let result := r.1
  let s1 := r.2
  let s2 : State := if result then { s1 with MusicMode := mode } else s1
  (result, SDL_SetTimerSpeed s2)

/-- Model of `SD_Default(gotit, sd, sm)`.  The first four parameters are the
constant and the uninitialised locals of `SD_SetSoundMode` and
`SD_SetMusicMode`.  The `switch (sm)` of the music half has the single label
`case sdm_AdLib`, an enumerator of `SDMode`: it is taken when the numeric value
of `sm` is that of `sdm_AdLib`. -/
def SD_Default (NUMSOUNDS : Nat) (any_sound0 : Bool) (offset0 : Int) (result0 : Bool)
    (s : State) (gotit : Bool) (sd : SDMode) (sm : SMMode) : State :=
  let gotsd := gotit
  let gotsm := gotit
  let gotsd : Bool :=
    if gotsd then
      match sd with
      | .sdm_AdLib => s.AdLibPresent
      | _ => gotsd
    else gotsd
  let sd : SDMode :=
    if !gotsd then (if s.AdLibPresent then .sdm_AdLib else .sdm_PC) else sd
  let s1 : State :=
    if sd ≠ s.SoundMode then (SD_SetSoundMode NUMSOUNDS any_sound0 offset0 s sd).2 else s
  let gotsm : Bool :=
    if gotsm then
      (if sm.toNat = SDMode.sdm_AdLib.toNat then s1.AdLibPresent else gotsm)
    else gotsm
  let sm : SMMode :=
    if !gotsm then (if s1.AdLibPresent then .smm_AdLib else sm) else sm
  if sm ≠ s1.MusicMode then (SD_SetMusicMode result0 s1 sm).2 else s1

/-- The period table as the loop of `SD_Startup` fills it:
`pcSoundLookup[loopvar] = loopvar*60` for `loopvar` from 0 to 254. -/
def SD_Startup_pcSoundLookup : List Nat :=
  (List.range 255).map (fun loopvar => loopvar * 60)

/-! ## Audio callback -/

/-- Model of `YM3812UpdateOne`: a request to the FM core for `length` samples
(at most 512) at `stream + pos`. -/
def YM3812UpdateOne (s : State) (pos length : Nat) : State :=
  emit s (.oplUpdate pos (if length > 512 then 512 else length))

/-- One pass of the loop of `PCSpeakerUpdateOne`, as far as the globals go: the
half-cycle counter is a `uint32_t`, the beep sample an `int16_t`; a remainder by
an upper bound of zero is a fault. -/
def PCSpeakerStep (s : State) : Except Stop State :=
  let c := (s.SD_SDL_BeepHalfCycleCounter + 2 * PC_PIT_RATE) % 4294967296
  if s.SD_SDL_BeepHalfCycleCounterUpperBound ≤ c then
    if s.SD_SDL_BeepHalfCycleCounterUpperBound = 0 then .error .fault
    else
      .ok { s with
            SD_SDL_BeepHalfCycleCounter := c % s.SD_SDL_BeepHalfCycleCounterUpperBound
            SD_SDL_CurrentBeepSample := toInt16 (8191 - s.SD_SDL_CurrentBeepSample) }
  else .ok { s with SD_SDL_BeepHalfCycleCounter := c }

/-- The loop of `PCSpeakerUpdateOne` run `n` times. -/
def PCSpeakerSteps : Nat → State → Except Stop State
  | 0, s => .ok s
  | n + 1, s =>
    match PCSpeakerStep s with
    | .error x => .error x
    | .ok s1 => PCSpeakerSteps n s1

/-- Model of `PCSpeakerUpdateOne(stream + pos, length)` on the globals. -/
def PCSpeakerUpdateOne (s : State) (pos length : Nat) : Except Stop State :=
  PCSpeakerSteps length (emit s (.pcUpdate pos length))

/-- The "AdLib" and "PC Speaker" steps shared by both branches of the callback. -/
def generate (s : State) (pos length : Nat) : Except Stop State :=
  let s1 := YM3812UpdateOne s pos length
  if s1.SD_PC_Speaker_On then PCSpeakerUpdateOne s1 pos length else .ok s1

/-- The "End of part" test of the callback. -/
def endOfPart (s : State) : State :=
  if s.SD_SDL_SamplesPerPart ≤ s.SD_SDL_SampleOffsetInSound then
    { s with SD_SDL_SampleOffsetInSound := 0 }
  else s

/-- The `while (len)` loop of `SD_SDL_CallBack`: `len` is the number of bytes
still requested, `pos` the distance of `currSamplePtr` from `stream` in
samples.  The difference `SD_SDL_SamplesPerPart-SD_SDL_SampleOffsetInSound` is
a `uint32_t`; one that does not fit an `int` is a fault, as the FM core is then
asked for a negative number of samples.  In the second branch `len` is set to
0 before `SD_SDL_SampleOffsetInSound += len/2` is evaluated. -/
def SD_SDL_CallBack_loop : Nat → State → Nat → Nat → Except Stop State
  | 0, s, len, _ => if len = 0 then .ok s else .error .spin
  | fuel + 1, s, len, pos =>
    if len = 0 then .ok s
    else
      match (if s.SD_SDL_SampleOffsetInSound = 0 then SDL_t0Service s else .ok s) with
      | .error x => .error x
      | .ok s1 =>
        let d := (s1.SD_SDL_SamplesPerPart + 4294967296 - s1.SD_SDL_SampleOffsetInSound % 4294967296) % 4294967296
        if (2 * d) % 4294967296 ≤ len then
          if 2147483648 ≤ d then .error .fault
          else
            match generate s1 pos d with
            | .error x => .error x
            | .ok s2 =>
              let len1 := len - (2 * d) % 4294967296
              let s3 : State := { s2 with SD_SDL_SampleOffsetInSound := s2.SD_SDL_SamplesPerPart }
              SD_SDL_CallBack_loop fuel (endOfPart s3) len1 (pos + d)
        else
          match generate s1 pos (len / 2) with
          | .error x => .error x
          | .ok s2 =>
            let len1 := 0
            let s3 : State :=
              { s2 with
                SD_SDL_SampleOffsetInSound := (s2.SD_SDL_SampleOffsetInSound + len1 / 2) % 4294967296 }
            SD_SDL_CallBack_loop fuel (endOfPart s3) len1 (pos + len / 2)

/-- Model of `SD_SDL_CallBack(unused, stream, len)` for a byte count `len` that
is not negative.  With `SD_SDL_SamplesPerPart` at least 1 the loop ends within
`len + 2` passes. -/
def SD_SDL_CallBack (s : State) (len : Nat) : Except Stop State :=
  SD_SDL_CallBack_loop (len + 2) s len 0

/-- `n` calls of `SDL_t0Service` in a row. -/
def runT0 : Nat → State → Except Stop State
  | 0, s => .ok s
  | n + 1, s =>
    match SDL_t0Service s with
    | .error x => .error x
    | .ok s1 => runT0 n s1

/-- `n` calls in a row of a service routine. -/
def runService (f : State → Except Stop State) : Nat → State → Except Stop State
  | 0, s => .ok s
  | n + 1, s =>
    match f s with
    | .error x => .error x
    | .ok s1 => runService f n s1

/-! ## Well-formed states and the shape of a trace -/

/-- Events that are neither the entry into a service routine nor a request for
samples: register writes and the audio lock. -/
def Event.minor : Event → Bool
  | .regWrite _ _ => true
  | .lockAudio => true
  | .unlockAudio => true
  | _ => false

/-- The calls of a trace: what is left when register writes and the audio lock
are dropped. -/
def calls (tr : List Event) : List Event :=
  tr.filter (fun e => !e.minor)

/-- The run from `s` to `s1` has appended events to the trace, and the calls
among them are `sk`. -/
def Extends (s s1 : State) (sk : List Event) : Prop :=
  ∃ evs, s1.trace = s.trace ++ evs ∧ calls evs = sk

/-- The tone cursor stays inside its effect: at least one sample is left, the
samples left are in the buffer, and every sample is an index of the period
table. -/
def PcOK (s : State) : Prop :=
  ∀ p, s.pcSound = some p →
    1 ≤ s.pcLengthLeft ∧ s.pcLengthLeft < 4294967296 ∧
      p.pos + s.pcLengthLeft ≤ p.buf.length ∧ ∀ b ∈ p.buf, b < 255

/-- The FM cursor stays inside its effect. -/
def AlOK (s : State) : Prop :=
  ∀ p, s.alSound = some p →
    1 ≤ s.alLengthLeft ∧ s.alLengthLeft < 4294967296 ∧ p.pos + s.alLengthLeft ≤ p.buf.length

/-- The tone generator is set up: the period table is the one `SD_Startup`
fills, the output rate is positive and its product with the largest period
fits 32 bits, and a speaker that is on has a positive half-cycle bound. -/
def BeepOK (s : State) : Prop :=
  s.pcSoundLookup = SD_Startup_pcSoundLookup ∧
    0 < s.freq ∧ s.freq * 15240 < 4294967296 ∧
    (s.SD_PC_Speaker_On = true → 0 < s.SD_SDL_BeepHalfCycleCounterUpperBound)

/-- The sequencer stays inside its track: the lengths are 16-bit multiples of
4 and the events still to be read, and those of a whole pass, are in the
buffer. -/
def SeqOK (s : State) : Prop :=
  s.sqHackLen % 4 = 0 ∧ s.sqHackLen < 65536 ∧
    s.sqHackSeqLen % 4 = 0 ∧ s.sqHackSeqLen < 65536 ∧
    (s.sqHackLen ≠ 0 → ∃ p, s.sqHackPtr = some p ∧ 2 * p.pos + s.sqHackLen ≤ p.buf.length) ∧
    (s.sqHackSeqLen ≠ 0 → ∃ p, s.sqHack = some p ∧ 2 * p.pos + s.sqHackSeqLen ≤ p.buf.length)

/-- States from which the service routines run without a fault. -/
def WF (s : State) : Prop :=
  PcOK s ∧ AlOK s ∧ BeepOK s ∧ SeqOK s

/-- What no service routine changes: the devices, the part size and the
sample offset in the part. -/
def SameSetup (s s1 : State) : Prop :=
  s1.MusicMode = s.MusicMode ∧ s1.SoundMode = s.SoundMode ∧
    s1.SD_SDL_SamplesPerPart = s.SD_SDL_SamplesPerPart ∧
    s1.SD_SDL_SampleOffsetInSound = s.SD_SDL_SampleOffsetInSound

/-- The cursor of the selected effects device. -/
def effectCursor (s : State) : Option BytePtr :=
  match s.SoundMode with
  | .sdm_PC => s.pcSound
  | .sdm_AdLib => s.alSound
  | .sdm_Off => none

/-- The remaining length of the selected effects device. -/
def effectLengthLeft (s : State) : Nat :=
  match s.SoundMode with
  | .sdm_PC => s.pcLengthLeft
  | .sdm_AdLib => s.alLengthLeft
  | .sdm_Off => 0

/-- The register writes of `SDL_ALSoundService` for the sample `smp`. -/
def alSampleWrites (alBlock smp : Nat) : List Event :=
  if smp = 0 then [.regWrite (alFreqH + 0) 0]
  else [.regWrite (alFreqL + 0) (smp % 256), .regWrite (alFreqH + 0) (alBlock % 256)]

/-- Between `s` and `s1` only the read pointer of the sequencer, the time of its
next event, its remaining length and the trace differ. -/
def SeqStep (s s1 : State) : Prop :=
  s1 = { s with
         sqHackPtr := s1.sqHackPtr
         sqHackTime := s1.sqHackTime
         sqHackLen := s1.sqHackLen
         trace := s1.trace }

/-- The service call that the `switch (SoundMode)` of `SDL_t0Service` makes. -/
def effectsCall : SDMode → List Event
  | .sdm_PC => [.callPCService]
  | .sdm_AdLib => [.callALSoundService]
  | .sdm_Off => []

/-- The calls of one `SDL_t0Service` entered with the devices `music` and `mode`
and the tick counter `count`. -/
def t0Calls (music : SMMode) (mode : SDMode) (count : Nat) : List Event :=
  [.callT0Service] ++
    (if music = .smm_AdLib then
      [.callALService] ++ (if ((count + 1) % 65536) % 4 = 0 then effectsCall mode else [])
    else effectsCall mode)

/-- The calls of `n` calls of `SDL_t0Service` in a row. -/
def runCalls (music : SMMode) (mode : SDMode) : Nat → Nat → List Event
  | 0, _ => []
  | n + 1, count =>
    t0Calls music mode count ++
      runCalls music mode n (if music = .smm_AdLib then (count + 1) % 65536 else count)

/-- The part size that `SDL_SetTimer0` stores for a divisor `d` of the emulated
timer and an output rate `freq`, when the 32-bit product does not overflow. -/
def partSize (d freq : Int) : Int :=
  d * freq / 1193182

/-- The divisor `SDL_SetIntsPerSecond` derives from a tick rate. -/
def timerDivisor (tickrate : Int) : Int :=
  1192030 / tickrate

/-- The requests for FM samples among the events: position in the output buffer
and number of samples, in the order issued. -/
def chunksOf : List Event → List (Nat × Nat)
  | [] => []
  | .oplUpdate pos len :: rest => (pos, len) :: chunksOf rest
  | _ :: rest => chunksOf rest

/-- The chunks of one callback as section 4.4 of the specification words them,
for the part size `S`: `off` is the sample offset in the part, `n` the number
of samples still requested and `pos` the position reached in the output
buffer.  Every chunk starts where the previous one ended, its length is
`min n (S - off)`, and when the chunks end no sample is left to produce. -/
def ChunksOK (S : Nat) : Nat → Nat → Nat → List (Nat × Nat) → Prop
  | _, n, _, [] => n = 0
  | off, n, pos, (p, l) :: rest =>
    p = pos ∧ l = min n (S - off) ∧ ChunksOK S ((off + l) % S) (n - l) (pos + l) rest

/-- Between `s` and `s1` only the half-cycle counter and the beep sample of the
tone generator differ. -/
def BeepStep (s s1 : State) : Prop :=
  s1 = { s with
         SD_SDL_BeepHalfCycleCounter := s1.SD_SDL_BeepHalfCycleCounter
         SD_SDL_CurrentBeepSample := s1.SD_SDL_CurrentBeepSample }

/-- The register writes among the events: register and value, in the order
issued. -/
def writesOf : List Event → List (Nat × Nat)
  | [] => []
  | .regWrite reg val :: rest => (reg, val) :: writesOf rest
  | _ :: rest => writesOf rest

/-- The contents of register `r` of the FM chip after the events `tr`: the last
value written to it, `none` if it was never written. -/
def regValue (tr : List Event) (r : Nat) : Option Nat :=
  ((writesOf tr).reverse.find? (fun w => decide (w.1 = r))).map (fun w => w.2)

/-- The register writes of `SD_MusicOff` on the music device `mode`. -/
def musicOffWrites (mode : SMMode) : List Event :=
  if mode = .smm_AdLib then
    Event.regWrite alEffects 0 ::
      (List.range sqMaxTracks).map (fun i => Event.regWrite (alFreqH + i + 1) 0)
  else []

/-! ## Decoding one music event, on either host -/

/-- A `uint16_t` load (`*sqHackPtr`) of the two bytes `b0`, `b1`, in memory
order, on a little-endian or a big-endian host.  The source applies no byte
swap to the loaded word. -/
def loadU16 (bigEndian : Bool) (b0 b1 : Nat) : Nat :=
  if bigEndian then 256 * b0 + b1 else b0 + 256 * b1

/-- The byte `*((uint8_t *)&w + i)` of a `uint16_t w`, for `i` 0 or 1, on
either host. -/
def byteOfU16 (bigEndian : Bool) (w i : Nat) : Nat :=
  if bigEndian then (if i = 0 then w / 256 else w % 256)
  else (if i = 0 then w % 256 else w / 256)

/-- What one pass of the loop of `SDL_ALService` decodes from the four bytes
`b0 b1 b2 b3` of an event: `w = *sqHackPtr++`, the delta `*sqHackPtr++` added to
`alTimeCount`, `a = *((uint8_t *)&w)`, `v = *((uint8_t *)&w + 1)`.  The result
is register, value, delta. -/
def decodeEvent (bigEndian : Bool) (b0 b1 b2 b3 : Nat) : Nat × Nat × Nat :=
  let w := loadU16 bigEndian b0 b1
  let d := loadU16 bigEndian b2 b3
  (byteOfU16 bigEndian w 0, byteOfU16 bigEndian w 1, d)

/-! ## Music tracks as lists of events -/

/-- One event of a music track: register, value, and the 16-bit delta. -/
structure MusEvent where
  reg : Nat
  val : Nat
  delta : Nat
deriving DecidableEq, Repr

/-- The bytes of a track: four per event, register, value, and the delta with
its low byte first. -/
def encodeEvents : List MusEvent → List Nat
  | [] => []
  | e :: es => e.reg :: e.val :: e.delta % 256 :: e.delta / 256 :: encodeEvents es

/-- The `MusicGroup` of a list of events: the length is four bytes per event. -/
def trackOf (events : List MusEvent) : MusicGroup :=
  ⟨4 * events.length, encodeEvents events⟩

/-- Registers and values are bytes, deltas are 16-bit, and the length of the
track fits the `uint16_t` of `MusicGroup`. -/
def EventsOK (events : List MusEvent) : Prop :=
  (∀ e ∈ events, e.reg < 256 ∧ e.val < 256 ∧ e.delta < 65536) ∧ 4 * events.length < 65536

instance (events : List MusEvent) : Decidable (EventsOK events) := by
  unfold EventsOK
  infer_instance

/-- Sum of the deltas of a list of events. -/
def sumD : List MusEvent → Nat
  | [] => 0
  | e :: es => e.delta + sumD es

/-- The scheduled times of the events of a list whose first event is scheduled
at `base`: every event is scheduled at `base` plus the deltas of the events
before it. -/
def sched : Nat → List MusEvent → List Nat
  | _, [] => []
  | base, e :: es => base :: sched (base + e.delta) es

/-- The events of a list, first event scheduled at `base`, whose scheduled time
is `t`, in the order of the list. -/
def dueAt (t : Nat) : Nat → List MusEvent → List MusEvent
  | _, [] => []
  | base, e :: es => (if base = t then [e] else []) ++ dueAt t (base + e.delta) es

/-- The number of ticks of one pass over a track: one more than the scheduled
time of its last event. -/
def passLength (events : List MusEvent) : Nat :=
  1 + sumD events.dropLast

/-- One register write per event. -/
def writesOfEvents (es : List MusEvent) : List Event :=
  es.map (fun e => Event.regWrite e.reg e.val)

/-- The loop of `SDL_ALService` on lists: at the tick `tick`, with the next
event due at `time` and the events `rest` still to be read, the events it
consumes, the time of the next event when it ends, and the events left. -/
def seqLoop (tick : Nat) : Nat → List MusEvent → List MusEvent × Nat × List MusEvent
  | time, [] => ([], time, [])
  | time, e :: es =>
    if time ≤ tick then
      let r := seqLoop tick (tick + e.delta) es
      (e :: r.1, r.2.1, r.2.2)
    else ([], time, e :: es)

/-- The sequencer is active on the track `events`, has read `done`, has `rest`
to read, expects the next event at `time`, and the tick accumulator is
`tick`. -/
def SeqAt (events done rest : List MusEvent) (time tick : Nat) (s : State) : Prop :=
  s.sqActive = true ∧ s.sqHack = some ⟨encodeEvents events, 0⟩ ∧
    s.sqHackSeqLen = 4 * events.length ∧
    s.sqHackPtr = some ⟨encodeEvents events, 2 * done.length⟩ ∧
    s.sqHackLen = 4 * rest.length ∧ s.sqHackTime = time ∧ s.alTimeCount = tick

/-! ## Register writes of an FM effect, as lists -/

/-- The register writes that section 4.2 of the specification lists for one
unit `smp` of an FM effect of block value `b`. -/
def alUnitWrites (b smp : Nat) : List (Nat × Nat) :=
  if smp = 0 then [(alFreqH, 0)]
  else [(alFreqL, smp), (alFreqH, ((b &&& 7) <<< 2) ||| 0x20)]

/-- The ten register writes of `SDL_AlSetFXInst`, in the order issued. -/
def fxInstWrites (quiet : Bool) (inst : Instrument) : List (Nat × Nat) :=
  [ (modifiers0 + alChar, inst.mChar % 256),
    (modifiers0 + alScale, inst.mScale % 256),
    (modifiers0 + alAttack, inst.mAttack % 256),
    (modifiers0 + alSus, inst.mSus % 256),
    (modifiers0 + alWave, inst.mWave % 256),
    (carriers0 + alChar, inst.cChar % 256),
    (carriers0 + alScale, fxCarrierScale quiet inst.cScale % 256),
    (carriers0 + alAttack, inst.cAttack % 256),
    (carriers0 + alSus, inst.cSus % 256),
    (carriers0 + alWave, inst.cWave % 256) ]

/-! ## The sequencer on a track of bytes -/

/-- The sequencer is active on a track of `L` bytes in `buf`: its remaining
length is a multiple of 4 and, with the bytes before the read pointer, makes
up the length of the track. -/
def SeqIn (buf : List Nat) (L : Nat) (s : State) : Prop :=
  s.sqActive = true ∧ s.sqHack = some ⟨buf, 0⟩ ∧ s.sqHackSeqLen = L ∧
    s.sqHackLen % 4 = 0 ∧
    ∃ pos, s.sqHackPtr = some ⟨buf, pos⟩ ∧ 2 * pos + s.sqHackLen = L

/-! ## The token reader of `ck_act.c` -/

/-- The struct `CK_ACT_ParserState` of `ck_act.c`: the file as bytes, the read
position, the size of the file and the line count. -/
structure CK_ACT_ParserState where
  data : List Nat
  dataindex : Nat
  datasize : Nat
  linecount : Nat
deriving DecidableEq, Repr

/-- The function `isspace` of the C library in the "C" locale, on a byte. -/
def isspace (c : Nat) : Bool :=
  decide (c = 32 ∨ (9 ≤ c ∧ c ≤ 13))

/-- The macro `CK_ACT_MAX_TOKEN_LENGTH`. -/
def CK_ACT_MAX_TOKEN_LENGTH : Nat := 64

/-- Model of `CK_ACT_PeekCharacter`: the byte 0 at or after the end of the data;
a read outside the buffer is a fault. -/
def CK_ACT_PeekCharacter (ps : CK_ACT_ParserState) : Except Stop Nat :=
  if ps.datasize ≤ ps.dataindex then .ok 0
  else
    match ps.data[ps.dataindex]? with
    | none => .error .fault
    | some c => .ok c

/-- Model of `CK_ACT_GetCharacter`: at or after the end of the data it returns
the byte 0 and leaves the read position where it is. -/
def CK_ACT_GetCharacter (ps : CK_ACT_ParserState) : Except Stop (Nat × CK_ACT_ParserState) :=
  if ps.datasize ≤ ps.dataindex then .ok (0, ps)
  else
    match ps.data[ps.dataindex]? with
    | none => .error .fault
    | some c =>
      let ps1 : CK_ACT_ParserState := { ps with dataindex := ps.dataindex + 1 }
      .ok (c, if c = 10 then { ps1 with linecount := ps1.linecount + 1 } else ps1)

/-- The loop `while (CK_ACT_PeekCharacter(ps) != '\n') c = CK_ACT_GetCharacter(ps);`
of `CK_ACT_SkipWhitespace`, with fuel: the outcome is `Stop.spin` when the fuel
is used up and the condition of the loop still holds. -/
def CK_ACT_SkipComment : Nat → CK_ACT_ParserState → Except Stop CK_ACT_ParserState
  | 0, ps =>
    match CK_ACT_PeekCharacter ps with
    | .error e => .error e
    | .ok c => if c ≠ 10 then .error .spin else .ok ps
  | fuel + 1, ps =>
    match CK_ACT_PeekCharacter ps with
    | .error e => .error e
    | .ok c =>
      if c ≠ 10 then
        match CK_ACT_GetCharacter ps with
        | .error e => .error e
        | .ok r => CK_ACT_SkipComment fuel r.2
      else .ok ps

/-- The `do ... while (c && isspace(c))` loop of `CK_ACT_SkipWhitespace`: `inner`
is the fuel of the comment loop, the first argument the number of passes
allowed. -/
def CK_ACT_SkipWhitespace_loop (inner : Nat) :
    Nat → CK_ACT_ParserState → Except Stop CK_ACT_ParserState
  | 0, _ => .error .spin
  | fuel + 1, ps =>
    match CK_ACT_PeekCharacter ps with
    | .error e => .error e
    | .ok c0 =>
      let r : Except Stop (Nat × CK_ACT_ParserState) :=
        if c0 = 35 then
          match CK_ACT_SkipComment inner ps with
          | .error e => .error e
          | .ok ps1 => .ok (10, ps1)
        else if isspace c0 then
          match CK_ACT_GetCharacter ps with
          | .error e => .error e
          | .ok g => .ok (c0, g.2)
        else .ok (c0, ps)
      match r with
      | .error e => .error e
      | .ok x =>
        if x.1 ≠ 0 ∧ isspace x.1 = true then CK_ACT_SkipWhitespace_loop inner fuel x.2
        else .ok x.2

/-- Model of `CK_ACT_SkipWhitespace`, both loops on the fuel `fuel`. -/
def CK_ACT_SkipWhitespace (fuel : Nat) (ps : CK_ACT_ParserState) :
    Except Stop CK_ACT_ParserState :=
  CK_ACT_SkipWhitespace_loop fuel fuel ps

/-- The loop of `CK_ACT_GetToken` that fills `tokenbuf`; a write at or after
index `CK_ACT_MAX_TOKEN_LENGTH` is a fault. -/
def CK_ACT_GetToken_loop :
    Nat → CK_ACT_ParserState → List Nat → Except Stop (List Nat × CK_ACT_ParserState)
  | 0, ps, tok =>
    match CK_ACT_PeekCharacter ps with
    | .error e => .error e
    | .ok c => if c ≠ 0 ∧ isspace c = false then .error .spin else .ok (tok, ps)
  | fuel + 1, ps, tok =>
    match CK_ACT_PeekCharacter ps with
    | .error e => .error e
    | .ok c =>
      if c ≠ 0 ∧ isspace c = false then
        if CK_ACT_MAX_TOKEN_LENGTH ≤ tok.length then .error .fault
        else
          match CK_ACT_GetCharacter ps with
          | .error e => .error e
          | .ok g => CK_ACT_GetToken_loop fuel g.2 (tok ++ [g.1])
      else .ok (tok, ps)

/-- Model of `CK_ACT_GetToken`: the token, which `MM_ArenaStrDup` copies, and
the parser state. -/
def CK_ACT_GetToken (fuel : Nat) (ps : CK_ACT_ParserState) :
    Except Stop (List Nat × CK_ACT_ParserState) :=
  match CK_ACT_SkipWhitespace fuel ps with
  | .error e => .error e
  | .ok ps1 =>
    match CK_ACT_GetToken_loop fuel ps1 [] with
    | .error e => .error e
    | .ok r =>
      if CK_ACT_MAX_TOKEN_LENGTH ≤ r.1.length then .error .fault else .ok r

/-! ## The tone generator with its stream -/

/-- The statement `*stream = (*stream + SD_SDL_CurrentBeepSample) / 2;`: the sum
and the truncating division are done in `int`, the result is stored in an
`int16_t`. -/
def mixSample (x level : Int) : Int :=
  toInt16 (Int.tdiv (x + level) 2)

/-- Model of `PCSpeakerUpdateOne` with the stream: the incoming samples in, the
globals and the mixed samples out.  On the globals it is `PCSpeakerSteps`. -/
def PCSpeakerMix : State → List Int → Except Stop (State × List Int)
  | s, [] => .ok (s, [])
  | s, x :: xs =>
    match PCSpeakerStep s with
    | .error e => .error e
    | .ok s1 =>
      match PCSpeakerMix s1 xs with
      | .error e => .error e
      | .ok r => .ok (r.1, mixSample x s.SD_SDL_CurrentBeepSample :: r.2)

/-- The number of passes, among the first `n` of `PCSpeakerUpdateOne`, that take
the branch `SD_SDL_CurrentBeepSample = 8191-SD_SDL_CurrentBeepSample`. -/
def PCSpeakerToggles : Nat → State → Nat
  | 0, _ => 0
  | n + 1, s =>
    match PCSpeakerStep s with
    | .error _ => 0
    | .ok s1 =>
      (if s.SD_SDL_BeepHalfCycleCounterUpperBound ≤
          (s.SD_SDL_BeepHalfCycleCounter + 2 * PC_PIT_RATE) % 4294967296 then 1 else 0) +
        PCSpeakerToggles n s1

/-- The beep level after `k` samples of a tone of half-cycle bound `U` that
started at level 0: it has toggled `k * 2386364 / U` times between 0 and
8191. -/
def beepLevelAt (U k : Nat) : Int :=
  if (k * 2386364 / U) % 2 = 0 then 0 else 8191

/-! ## The callback with the operands of its unsigned difference -/

/-- The loop `SD_SDL_CallBack_loop` with a record, for every pass, of the two
operands of the unsigned difference
`SD_SDL_SamplesPerPart-SD_SDL_SampleOffsetInSound`, offset first, as they are
when the pass evaluates it; nothing between the evaluations of one pass
changes them.  The record is kept also when the run stops. -/
def SD_SDL_CallBack_loop_obs :
    Nat → State → Nat → Nat → List (Nat × Nat) × Except Stop State
  | 0, s, len, _ => ([], if len = 0 then .ok s else .error .spin)
  | fuel + 1, s, len, pos =>
    if len = 0 then ([], .ok s)
    else
      match (if s.SD_SDL_SampleOffsetInSound = 0 then SDL_t0Service s else .ok s) with
      | .error x => ([], .error x)
      | .ok s1 =>
        let o := (s1.SD_SDL_SampleOffsetInSound, s1.SD_SDL_SamplesPerPart)
        let d := (s1.SD_SDL_SamplesPerPart + 4294967296 - s1.SD_SDL_SampleOffsetInSound % 4294967296) % 4294967296
        if (2 * d) % 4294967296 ≤ len then
          if 2147483648 ≤ d then ([o], .error .fault)
          else
            match generate s1 pos d with
            | .error x => ([o], .error x)
            | .ok s2 =>
              let len1 := len - (2 * d) % 4294967296
              let s3 : State := { s2 with SD_SDL_SampleOffsetInSound := s2.SD_SDL_SamplesPerPart }
              let r := SD_SDL_CallBack_loop_obs fuel (endOfPart s3) len1 (pos + d)
              (o :: r.1, r.2)
        else
          match generate s1 pos (len / 2) with
          | .error x => ([o], .error x)
          | .ok s2 =>
            let len1 := 0
            let s3 : State :=
              { s2 with
                SD_SDL_SampleOffsetInSound := (s2.SD_SDL_SampleOffsetInSound + len1 / 2) % 4294967296 }
            let r := SD_SDL_CallBack_loop_obs fuel (endOfPart s3) len1 (pos + len / 2)
            (o :: r.1, r.2)

/-- The callback `SD_SDL_CallBack` with the record of `SD_SDL_CallBack_loop_obs`. -/
def SD_SDL_CallBack_obs (s : State) (len : Nat) : List (Nat × Nat) × Except Stop State :=
  SD_SDL_CallBack_loop_obs (len + 2) s len 0

/-- A callback of `len` bytes, or one of the two calls that change the timer
speed, with the values of their uninitialised locals. -/
inductive TimerOp where
  | callback (len : Nat)
  | setMusicMode (result0 : Bool) (mode : SMMode)
  | setSoundMode (NUMSOUNDS : Nat) (any_sound0 : Bool) (offset0 : Int) (mode : SDMode)
deriving DecidableEq, Repr

/-- A sequence of callbacks and timer-speed changes, one after the other: the
operands recorded by its callbacks and the outcome. -/
def runTimerOps : State → List TimerOp → List (Nat × Nat) × Except Stop State
  | s, [] => ([], .ok s)
  | s, .callback len :: rest =>
    match SD_SDL_CallBack_obs s len with
    | (obs, .error e) => (obs, .error e)
    | (obs, .ok s1) => (obs ++ (runTimerOps s1 rest).1, (runTimerOps s1 rest).2)
  | s, .setMusicMode result0 mode :: rest =>
    runTimerOps (SD_SetMusicMode result0 s mode).2 rest
  | s, .setSoundMode n a o mode :: rest =>
    runTimerOps (SD_SetSoundMode n a o s mode).2 rest

/-! ## Request sequences -/

/-- A run of `SD_PlaySound` requests, one after the other, nothing in between. -/
def playAll (s : State) : List Nat → Except Stop State
  | [] => .ok s
  | r :: rs =>
    match SD_PlaySound s r with
    | .error x => .error x
    | .ok s1 => playAll s1 rs

/-- Priority of the effect in slot `r` of a sound table (0 for a slot outside it). -/
def prioOf (table : List SoundEntry) (r : Nat) : Nat :=
  match table[r]? with
  | some e => e.priority
  | none => 0

/-- The highest priority among the requests `reqs` (0 for no request). -/
def maxPrio (table : List SoundEntry) (reqs : List Nat) : Nat :=
  (reqs.map (prioOf table)).foldr max 0

/-- The most recent request of `reqs` whose priority is the highest of `reqs`. -/
def lastMax (table : List SoundEntry) (reqs : List Nat) : Option Nat :=
  reqs.reverse.find? (fun r => decide (prioOf table r = maxPrio table reqs))

/-- A slot that `SD_PlaySound` plays without a `Quit` on the device `mode`: the
pointer is not null, the word tested as length is not zero and, on the FM
device, the instrument passes the test of `SDL_ALPlaySound_Low`. -/
def Playable (mode : SDMode) (e : SoundEntry) : Prop :=
  e.addr ≠ 0 ∧ playLength e ≠ 0 ∧
    (mode = .sdm_AdLib → (e.inst.mSus ||| e.inst.cSus) ≠ 0)

instance (mode : SDMode) (e : SoundEntry) : Decidable (Playable mode e) := by
  unfold Playable
  infer_instance

/-! ## Sample states -/

/-- The state at program start: static storage is zero, the tick counter of
`SDL_t0Service` starts at 1. -/
def startState : State where
  AdLibPresent := false
  NeedsMusic := false
  SoundMode := .sdm_Off
  MusicMode := .smm_Off
  SoundPriority := 0
  SoundNumber := 0
  CA_audio := []
  SoundTable := []
  NeedsDigitized := 0
  pcLastSample := 0
  pcSound := none
  pcLengthLeft := 0
  pcSoundLookup := List.replicate 255 0
  SD_PC_Speaker_On := false
  SD_SDL_CurrentBeepSample := 0
  SD_SDL_BeepHalfCycleCounter := 0
  SD_SDL_BeepHalfCycleCounterUpperBound := 0
  alSound := none
  alBlock := 0
  alLengthLeft := 0
  alTimeCount := 0
  quiet_sfx := false
  sqActive := false
  alFXReg := 0
  sqHack := none
  sqHackPtr := none
  sqHackLen := 0
  sqHackSeqLen := 0
  sqHackTime := 0
  freq := 0
  SD_SDL_AudioSubsystem_Up := false
  SD_SDL_SampleOffsetInSound := 0
  SD_SDL_SamplesPerPart := 0
  count := 1
  trace := []

/-- An instrument that passes the test of `SDL_ALPlaySound_Low`. -/
def demoInst : Instrument := ⟨1, 2, 3, 4, 5, 6, 7, 8, 1, 0⟩

/-- Three effects: slot 0 of priority 5, slot 1 of priority 3, slot 2 of priority 5. -/
def demoTable : List SoundEntry :=
  [ ⟨0x1000, 4, 5, demoInst, 3, [10, 10, 0, 20]⟩,
    ⟨0x2000, 2, 3, demoInst, 2, [7, 9]⟩,
    ⟨0x3000, 3, 5, demoInst, 1, [1, 2, 3]⟩ ]

/-- The tone device selected, the audio device open, the period table filled as
by `SD_Startup`, nothing playing. -/
def demoPC : State :=
  { startState with
    SoundMode := .sdm_PC
    SoundTable := demoTable
    CA_audio := demoTable
    pcSoundLookup := (List.range 255).map (fun i => i * 60)
    freq := 49716
    SD_SDL_AudioSubsystem_Up := true
    SD_SDL_SamplesPerPart := 354 }

/-- The FM device selected for effects, nothing playing. -/
def demoAL : State :=
  { demoPC with SoundMode := .sdm_AdLib, AdLibPresent := true }

/-- The tone device playing effect 0 of the sample table (priority 5). -/
def demoPCPlaying : State :=
  { demoPC with
    SoundNumber := 0
    SoundPriority := 5
    pcLastSample := 255
    pcLengthLeft := 4
    pcSound := some ⟨[10, 10, 0, 20], 0⟩
    trace := [.lockAudio, .unlockAudio] }

/-- Music and effects both on the FM device, the tick counter two calls before
its wrap-around. -/
def demoMusic : State :=
  { demoAL with MusicMode := .smm_AdLib, count := 65534, SD_SDL_SamplesPerPart := 88 }

/-- A track of two events: register 0xA0 gets 0x57, one tick later register
0xB0 gets 0x2A, two ticks to the end of the pass. -/
def demoTrack : MusicGroup :=
  ⟨8, [0xA0, 0x57, 1, 0, 0xB0, 0x2A, 2, 0]⟩

/-- The tone device one sample before the end of effect 0 of the sample table,
the audio device open. -/
def demoPCLast : State :=
  { demoPC with
    SoundNumber := 0
    SoundPriority := 5
    pcLastSample := 0
    pcLengthLeft := 1
    pcSound := some ⟨[10, 10, 0, 20], 3⟩ }

/-- The tone device with a table whose slot 0 is loaded at address 0x1000 with
a header length of 0, and whose slot 1 is a null pointer. -/
def demoZeroLength : State :=
  { demoPC with
    SoundTable := [⟨0x1000, 0, 5, demoInst, 3, [10, 10]⟩, ⟨0, 0, 0, alZeroInst, 0, []⟩] }

/-- The events of `demoTrack`. -/
def demoEvents : List MusEvent := [⟨0xA0, 0x57, 1⟩, ⟨0xB0, 0x2A, 2⟩]

/-- Music and effects on the FM device: `demoTrack` has just been started and
effect 0 of the sample table, whose first two samples are equal, is active. -/
def demoALPlaying : State :=
  { SD_StartMusic demoMusic demoTrack with
    SoundNumber := 0
    SoundPriority := 5
    alSound := some ⟨[10, 10, 0, 20], 0⟩
    alLengthLeft := 4
    alBlock := 0x2C }

/-- The tone device with a table whose slot 0 holds the two samples 10 and 255. -/
def demoSample255 : State :=
  { demoPC with SoundTable := [⟨0x1000, 2, 5, demoInst, 3, [10, 255]⟩] }

/-- A file of the nine bytes `%a # note`: a token, a blank, and a comment that
the end of the file cuts short, no newline after it. -/
def demoComment : CK_ACT_ParserState :=
  ⟨[37, 97, 32, 35, 32, 110, 111, 116, 101], 2, 9, 0⟩

/-- The same file with a newline and a second token after the comment. -/
def demoCommentLine : CK_ACT_ParserState :=
  ⟨[37, 97, 32, 35, 32, 110, 111, 116, 101, 10, 120], 2, 11, 0⟩

/-- The tone generator as `SDL_PCService` sets it for the table period 60 at
49716 Hz: level 0, counter 0, bound `49716 * 60`. -/
def demoBeep : State :=
  { demoPC with SD_PC_Speaker_On := true, SD_SDL_BeepHalfCycleCounterUpperBound := 2982960 }

/-- The first two effects of the sample table loaded above the 4 GiB line of a
64-bit host: slot 0 at address 0x100000000 and slot 1 at 0x200000000, so the
low 32 bits of both pointers are zero; the header lengths are 4 and 2. -/
def demoHighTable : List SoundEntry :=
  [ ⟨0x100000000, 4, 5, demoInst, 3, [10, 10, 0, 20]⟩,
    ⟨0x200000000, 2, 3, demoInst, 2, [7, 9]⟩ ]

/-- The tone device, nothing playing, with the table `demoHighTable`. -/
def demoPCHigh : State :=
  { demoPC with SoundTable := demoHighTable }

/-- The tone device playing effect 0 (priority 5), with the table
`demoHighTable`. -/
def demoPCPlayingHigh : State :=
  { demoPCPlaying with SoundTable := demoHighTable }

/-- The FM device, nothing playing, with a table whose slot 0 is loaded at
address 0x1000, has header length 2 and an instrument whose two sustain bytes
are zero. -/
def demoALBadInst : State :=
  { demoAL with SoundTable := [⟨0x1000, 2, 5, alZeroInst, 3, [10, 10]⟩] }

/-! ## Properties of the effects control surface -/

theorem lockIfUp_eq (s : State) :
    lockIfUp s = { s with trace := s.trace ++ (if s.SD_SDL_AudioSubsystem_Up then [.lockAudio] else []) } := by
  cases s
  simp only [lockIfUp, SDL_LockAudio, emit]
  split <;> simp

theorem unlockIfUp_eq (s : State) :
    unlockIfUp s = { s with trace := s.trace ++ (if s.SD_SDL_AudioSubsystem_Up then [.unlockAudio] else []) } := by
  cases s
  simp only [unlockIfUp, SDL_UnlockAudio, emit]
  split <;> simp

theorem SD_PlaySound_reject (s : State) (sound : Nat) (e : SoundEntry)
    (he : s.SoundTable[sound]? = some e) (hl : e.addr ≠ 0) (hn : playLength e ≠ 0)
    (hp : e.priority < s.SoundPriority) : SD_PlaySound s sound = .ok s := by
  simp [SD_PlaySound, he, hl, hn, hp]

theorem SD_PlaySound_accept_PC (s : State) (sound : Nat) (e : SoundEntry)
    (hm : s.SoundMode = .sdm_PC)
    (he : s.SoundTable[sound]? = some e) (hl : e.addr ≠ 0) (hn : playLength e ≠ 0)
    (hp : s.SoundPriority ≤ e.priority) :
    SD_PlaySound s sound =
      .ok { SDL_PCPlaySound s e with SoundNumber := sound, SoundPriority := e.priority } := by
  simp [SD_PlaySound, he, hl, hn, not_lt.mpr hp, hm]

theorem SD_PlaySound_accept_AL (s : State) (sound : Nat) (e : SoundEntry)
    (hm : s.SoundMode = .sdm_AdLib)
    (he : s.SoundTable[sound]? = some e) (hl : e.addr ≠ 0) (hn : playLength e ≠ 0)
    (hi : (e.inst.mSus ||| e.inst.cSus) ≠ 0)
    (hp : s.SoundPriority ≤ e.priority) :
    SD_PlaySound s sound =
      .ok { unlockIfUp (SDL_AlSetFXInst
              { SDL_ALStopSound_Low (lockIfUp s) with
                alLengthLeft := e.length
                alSound := some ⟨e.data, 0⟩
                alBlock := (((e.block &&& 7) <<< 2) ||| 0x20) } e.inst) with
            SoundNumber := sound, SoundPriority := e.priority } := by
  simp [SD_PlaySound, he, hl, hn, not_lt.mpr hp, hm, SDL_ALPlaySound, SDL_ALPlaySound_Low, hi]

/-- The priority rule of `SD_PlaySound` for a slot that passes its two tests
(the pointer is not null and the word read as length, `playLength`, is not zero)
and, on FM, has a valid instrument: on the tone or FM device a request of
priority below `SoundPriority` returns with the state untouched, and a request
of priority at least `SoundPriority` is accepted: `SoundNumber` is the request,
`SoundPriority` the priority of the effect, the cursor of the device is at the
first sample of the data and the remaining length is the length of the header. -/
theorem SD_PlaySound_priority_rule (s : State) (sound : Nat) (e : SoundEntry)
    (hmode : s.SoundMode ≠ .sdm_Off)
    (he : s.SoundTable[sound]? = some e)
    (hplay : Playable s.SoundMode e) :
    (e.priority < s.SoundPriority → SD_PlaySound s sound = .ok s) ∧
    (s.SoundPriority ≤ e.priority →
      ∃ s1, SD_PlaySound s sound = .ok s1 ∧
        s1.SoundNumber = sound ∧ s1.SoundPriority = e.priority ∧
        (s.SoundMode = .sdm_PC →
          s1.pcSound = some ⟨e.data, 0⟩ ∧ s1.pcLengthLeft = e.length) ∧
        (s.SoundMode = .sdm_AdLib →
          s1.alSound = some ⟨e.data, 0⟩ ∧ s1.alLengthLeft = e.length)) := by
  obtain ⟨hl, hn, hi⟩ := hplay
  refine ⟨fun hp => SD_PlaySound_reject s sound e he hl hn hp, fun hp => ?_⟩
  cases hm : s.SoundMode with
  | sdm_Off => exact absurd hm hmode
  | sdm_PC =>
    refine ⟨_, SD_PlaySound_accept_PC s sound e hm he hl hn hp, rfl, rfl, ?_, ?_⟩
    · intro _
      simp [SDL_PCPlaySound, SDL_PCPlaySound_Low, unlockIfUp_eq]
    · intro h; cases h
  | sdm_AdLib =>
    refine ⟨_, SD_PlaySound_accept_AL s sound e hm he hl hn (hi hm) hp, rfl, rfl, ?_, ?_⟩
    · intro h; cases h
    · intro _
      simp [unlockIfUp_eq, SDL_AlSetFXInst, alOut, emit]

/-- The priority rule on the tone device with nothing playing: effect 0 of the
sample table, loaded at address 0x1000, is accepted. -/
theorem SD_PlaySound_priority_rule_witness :
    ∃ s1, SD_PlaySound demoPC 0 = .ok s1 ∧
      s1.SoundNumber = 0 ∧ s1.SoundPriority = 5 ∧
      s1.pcSound = some ⟨[10, 10, 0, 20], 0⟩ ∧ s1.pcLengthLeft = 4 := by
  obtain ⟨s1, h1, h2, h3, h4, _⟩ :=
    (SD_PlaySound_priority_rule demoPC 0 ⟨0x1000, 4, 5, demoInst, 3, [10, 10, 0, 20]⟩
      (by decide) rfl (by decide)).2 (by decide)
  exact ⟨s1, h1, h2, h3, (h4 rfl).1, (h4 rfl).2⟩

/-- A request of priority below `SoundPriority`, for a slot that passes the two
tests of `SD_PlaySound` (pointer not null, `playLength` not zero), returns the
state it was given: no field of the playback state changes and the trace, hence
the list of FM register writes, is the same. -/
theorem SD_PlaySound_lower_priority_ignored (s : State) (sound : Nat) (e : SoundEntry)
    (he : s.SoundTable[sound]? = some e)
    (hl : e.addr ≠ 0) (hn : playLength e ≠ 0)
    (hp : e.priority < s.SoundPriority) :
    SD_PlaySound s sound = .ok s ∧
      ∀ s1, SD_PlaySound s sound = .ok s1 → s1.trace = s.trace := by
  have h := SD_PlaySound_reject s sound e he hl hn hp
  refine ⟨h, fun s1 h1 => ?_⟩
  rw [h] at h1
  cases h1
  rfl

/-- While effect 0 of the sample table (priority 5) plays, a request for effect
1 (priority 3, loaded at address 0x2000) changes nothing. -/
theorem SD_PlaySound_lower_priority_ignored_witness :
    SD_PlaySound demoPCPlaying 1 = .ok demoPCPlaying :=
  (SD_PlaySound_lower_priority_ignored demoPCPlaying 1 ⟨0x2000, 2, 3, demoInst, 2, [7, 9]⟩
    rfl (by decide) (by decide) (by decide)).1

theorem SD_PlaySound_playable (s : State) (sound : Nat) (e : SoundEntry)
    (hmode : s.SoundMode ≠ .sdm_Off)
    (he : s.SoundTable[sound]? = some e)
    (hplay : Playable s.SoundMode e) :
    ∃ s1, SD_PlaySound s sound = .ok s1 ∧
      s1.SoundTable = s.SoundTable ∧ s1.SoundMode = s.SoundMode ∧
      (e.priority < s.SoundPriority →
        s1.SoundPriority = s.SoundPriority ∧ s1.SoundNumber = s.SoundNumber) ∧
      (s.SoundPriority ≤ e.priority →
        s1.SoundPriority = e.priority ∧ s1.SoundNumber = sound) := by
  obtain ⟨hl, hn, hi⟩ := hplay
  rcases Nat.lt_or_ge e.priority s.SoundPriority with hp | hp
  · exact ⟨s, SD_PlaySound_reject s sound e he hl hn hp, rfl, rfl, fun _ => ⟨rfl, rfl⟩,
      fun h => absurd hp (not_lt.mpr h)⟩
  · cases hm : s.SoundMode with
    | sdm_Off => exact absurd hm hmode
    | sdm_PC =>
      refine ⟨_, SD_PlaySound_accept_PC s sound e hm he hl hn hp, ?_, ?_,
        fun h => absurd h (not_lt.mpr hp), fun _ => ⟨rfl, rfl⟩⟩
      · simp [SDL_PCPlaySound, SDL_PCPlaySound_Low, unlockIfUp_eq, lockIfUp_eq]
      · simp [SDL_PCPlaySound, SDL_PCPlaySound_Low, unlockIfUp_eq, lockIfUp_eq, hm]
    | sdm_AdLib =>
      refine ⟨_, SD_PlaySound_accept_AL s sound e hm he hl hn (hi hm) hp, ?_, ?_,
        fun h => absurd h (not_lt.mpr hp), fun _ => ⟨rfl, rfl⟩⟩
      · simp [unlockIfUp_eq, lockIfUp_eq, SDL_AlSetFXInst, SDL_ALStopSound_Low, alOut, emit]
      · simp [unlockIfUp_eq, lockIfUp_eq, SDL_AlSetFXInst, SDL_ALStopSound_Low, alOut, emit, hm]

theorem playAll_append (s : State) (l : List Nat) (r : Nat) :
    playAll s (l ++ [r]) =
      match playAll s l with
      | .error x => .error x
      | .ok s1 => SD_PlaySound s1 r := by
  induction l generalizing s with
  | nil =>
    simp only [List.nil_append, playAll]
    cases SD_PlaySound s r <;> rfl
  | cons a l ih =>
    simp only [List.cons_append, playAll]
    cases SD_PlaySound s a with
    | error x => rfl
    | ok s1 => exact ih s1

theorem maxPrio_append (table : List SoundEntry) (l : List Nat) (r : Nat) :
    maxPrio table (l ++ [r]) = max (maxPrio table l) (prioOf table r) := by
  induction l with
  | nil => simp [maxPrio]
  | cons a l ih =>
    simp only [maxPrio, List.cons_append, List.map_cons, List.foldr_cons] at ih ⊢
    rw [ih]
    omega

theorem prioOf_eq (table : List SoundEntry) (r : Nat) (e : SoundEntry)
    (he : table[r]? = some e) : prioOf table r = e.priority := by
  simp [prioOf, he]

theorem playAll_spec (s : State) (reqs : List Nat)
    (hmode : s.SoundMode ≠ .sdm_Off) (hidle : s.SoundPriority = 0)
    (hreqs : ∀ r ∈ reqs, ∃ e, s.SoundTable[r]? = some e ∧ Playable s.SoundMode e) :
    ∃ s1, playAll s reqs = .ok s1 ∧
      s1.SoundTable = s.SoundTable ∧ s1.SoundMode = s.SoundMode ∧
      s1.SoundPriority = maxPrio s.SoundTable reqs ∧
      (reqs ≠ [] → lastMax s.SoundTable reqs = some s1.SoundNumber) := by
  induction reqs using List.reverseRecOn with
  | nil => exact ⟨s, rfl, rfl, rfl, by simp [maxPrio, hidle], fun h => absurd rfl h⟩
  | append_singleton l r ih =>
    obtain ⟨s1, hrun, htab, hmd, hprio, hnum⟩ :=
      ih (fun x hx => hreqs x (List.mem_append_left _ hx))
    obtain ⟨e, he, hplay⟩ := hreqs r (by simp)
    obtain ⟨s2, h2, htab2, hmd2, hrej, hacc⟩ :=
      SD_PlaySound_playable s1 r e (by rw [hmd]; exact hmode) (by rw [htab]; exact he)
        (by rw [hmd]; exact hplay)
    have hpr : prioOf s.SoundTable r = e.priority := prioOf_eq _ _ _ he
    refine ⟨s2, ?_, htab2.trans htab, hmd2.trans hmd, ?_, fun _ => ?_⟩
    · rw [playAll_append, hrun]; exact h2
    · rw [maxPrio_append, hpr]
      rcases Nat.lt_or_ge e.priority s1.SoundPriority with hp | hp
      · rw [(hrej hp).1, hprio]; rw [hprio] at hp; omega
      · rw [(hacc hp).1]; rw [hprio] at hp; omega
    · rcases Nat.lt_or_ge e.priority s1.SoundPriority with hp | hp
      · have hl : l ≠ [] := by
          rintro rfl
          simp [maxPrio] at hprio
          omega
        have hmax : maxPrio s.SoundTable (l ++ [r]) = maxPrio s.SoundTable l := by
          rw [maxPrio_append, hpr]; rw [hprio] at hp; omega
        have hne : prioOf s.SoundTable r ≠ maxPrio s.SoundTable l := by
          rw [hpr]; rw [hprio] at hp; omega
        rw [(hrej hp).2, ← hnum hl]
        simp [lastMax, hmax, hne]
      · have hmax : maxPrio s.SoundTable (l ++ [r]) = prioOf s.SoundTable r := by
          rw [maxPrio_append, hpr]; rw [hprio] at hp; omega
        rw [(hacc hp).2]
        simp [lastMax, hmax]

/-- C3, amended: requests issued one after the other from the idle state, on
the tone or FM device, every requested effect loaded, of non-zero header
length, with a table pointer whose low 32 bits (the word `SD_PlaySound` tests
as length) are not zero, and, on FM, with a valid instrument: after each
request, that is after every non-empty initial part of the sequence,
`SoundPriority` is the highest priority requested so far and `SoundNumber` is
the most recent request of that priority. -/
theorem playAll_arbitration (s : State) (reqs : List Nat)
    (hmode : s.SoundMode ≠ .sdm_Off) (hidle : s.SoundPriority = 0)
    (hreqs : ∀ r ∈ reqs, ∃ e, s.SoundTable[r]? = some e ∧ e.length ≠ 0 ∧
      Playable s.SoundMode e) :
    ∀ k, 0 < k → k ≤ reqs.length →
      ∃ s1, playAll s (reqs.take k) = .ok s1 ∧
        s1.SoundPriority = maxPrio s.SoundTable (reqs.take k) ∧
        lastMax s.SoundTable (reqs.take k) = some s1.SoundNumber := by
  intro k hk hkl
  obtain ⟨s1, h1, _, _, h2, h3⟩ :=
    playAll_spec s (reqs.take k) hmode hidle (fun r hr => by
      obtain ⟨e, he, _, hp⟩ := hreqs r (List.mem_of_mem_take hr)
      exact ⟨e, he, hp⟩)
  refine ⟨s1, h1, h2, h3 ?_⟩
  intro h
  have hlen : (reqs.take k).length = min k reqs.length := List.length_take _ _
  rw [h] at hlen
  simp only [List.length_nil] at hlen
  omega

/-- Witness of C3, amended: the requests 1, 0, 2, 1 (priorities 3, 5, 5, 3) on
the tone device end with effect 2 active at priority 5. -/
theorem playAll_arbitration_witness :
    ∃ s1, playAll demoPC [1, 0, 2, 1] = .ok s1 ∧ s1.SoundPriority = 5 ∧ s1.SoundNumber = 2 := by
  obtain ⟨s1, h1, h2, h3⟩ :=
    playAll_arbitration demoPC [1, 0, 2, 1] (by decide) rfl (by decide) 4 (by decide) (by decide)
  refine ⟨s1, h1, h2, ?_⟩
  have h4 : lastMax demoPC.SoundTable (List.take 4 [1, 0, 2, 1]) = some 2 := by decide
  rw [h4] at h3
  exact (Option.some.inj h3).symm

theorem SD_StopSound_then_not_playing_aux (s : State) :
    SD_SoundPlaying (SD_StopSound s) = 0 := by
  cases hm : s.SoundMode <;>
    simp [SD_StopSound, SD_SoundPlaying, hm, SDL_PCStopSound, SDL_PCStopSound_Low,
      SDL_ALStopSound, SDL_ALStopSound_Low, unlockIfUp_eq, lockIfUp_eq, alOut, emit]

/-- C4: after `SD_StopSound`, from any state and on any effects device,
`SD_SoundPlaying` returns 0 and `SoundPriority` and `SoundNumber` are 0. -/
theorem SD_StopSound_then_not_playing (s : State) :
    SD_SoundPlaying (SD_StopSound s) = 0 ∧
      (SD_StopSound s).SoundPriority = 0 ∧ (SD_StopSound s).SoundNumber = 0 :=
  ⟨SD_StopSound_then_not_playing_aux s, rfl, rfl⟩

/-! ## The service routines on well-formed states -/

theorem calls_append (a b : List Event) : calls (a ++ b) = calls a ++ calls b := by
  simp [calls]

theorem Extends_refl (s : State) : Extends s s [] :=
  ⟨[], by simp, rfl⟩

theorem Extends_trans {s s1 s2 : State} {a b : List Event}
    (h1 : Extends s s1 a) (h2 : Extends s1 s2 b) : Extends s s2 (a ++ b) := by
  obtain ⟨e1, ht1, hc1⟩ := h1
  obtain ⟨e2, ht2, hc2⟩ := h2
  exact ⟨e1 ++ e2, by rw [ht2, ht1, List.append_assoc], by rw [calls_append, hc1, hc2]⟩

theorem SameSetup_refl (s : State) : SameSetup s s :=
  ⟨rfl, rfl, rfl, rfl⟩

theorem SameSetup_trans {s s1 s2 : State} (h1 : SameSetup s s1) (h2 : SameSetup s1 s2) :
    SameSetup s s2 :=
  ⟨h2.1.trans h1.1, h2.2.1.trans h1.2.1, h2.2.2.1.trans h1.2.2.1, h2.2.2.2.trans h1.2.2.2⟩

theorem lookup_get (smp : Nat) (h : smp < 255) :
    SD_Startup_pcSoundLookup[smp]? = some (smp * 60) := by
  simp [SD_Startup_pcSoundLookup, List.getElem?_range h]

theorem pcNewSample_ok (s : State) (smp : Nat) (hb : BeepOK s) (hs : smp < 255) :
    ∃ a b c d e, pcNewSample s smp =
        .ok { s with
              pcLastSample := a
              SD_PC_Speaker_On := b
              SD_SDL_CurrentBeepSample := c
              SD_SDL_BeepHalfCycleCounter := d
              SD_SDL_BeepHalfCycleCounterUpperBound := e } ∧
      (b = true → 0 < e) := by
  obtain ⟨hl, hf0, hf1, hon⟩ := hb
  unfold pcNewSample
  by_cases h1 : smp = s.pcLastSample
  · exact ⟨s.pcLastSample, s.SD_PC_Speaker_On, s.SD_SDL_CurrentBeepSample,
      s.SD_SDL_BeepHalfCycleCounter, s.SD_SDL_BeepHalfCycleCounterUpperBound,
      by simp [h1], hon⟩
  · by_cases h0 : smp = 0
    · subst h0
      exact ⟨0, false, s.SD_SDL_CurrentBeepSample, s.SD_SDL_BeepHalfCycleCounter,
        s.SD_SDL_BeepHalfCycleCounterUpperBound, by simp [h1], by simp⟩
    · refine ⟨smp, true, 0, 0, ((s.freq * ((smp * 60 : Nat) : Int)) % 4294967296).toNat,
        by simp [h1, h0, hl, lookup_get smp hs], fun _ => ?_⟩
      have hpos : 0 < s.freq * ((smp * 60 : Nat) : Int) := by
        apply Int.mul_pos hf0
        omega
      have hlt : s.freq * ((smp * 60 : Nat) : Int) < 4294967296 := by
        have : ((smp * 60 : Nat) : Int) ≤ 15240 := by omega
        nlinarith
      rw [Int.emod_eq_of_lt (le_of_lt hpos) hlt]
      omega

theorem SDL_PCService_idle (s : State) (hp : s.pcSound = none) :
    SDL_PCService s = .ok (emit s .callPCService) := by
  simp [SDL_PCService, emit, hp]

theorem SDL_PCService_step (s : State) (p : BytePtr) (hp : s.pcSound = some p)
    (hb : BeepOK s) (hpos : p.pos < p.buf.length) (hs : ∀ b ∈ p.buf, b < 255) :
    ∃ s3 a b c d e, SDL_PCService s = .ok (pcCountDown s3) ∧
      s3 = { s with
              pcSound := some ⟨p.buf, p.pos + 1⟩
              trace := s.trace ++ [.callPCService]
              pcLastSample := a
              SD_PC_Speaker_On := b
              SD_SDL_CurrentBeepSample := c
              SD_SDL_BeepHalfCycleCounter := d
              SD_SDL_BeepHalfCycleCounterUpperBound := e } ∧
      (b = true → 0 < e) := by
  have hget : p.buf[p.pos]? = some p.buf[p.pos] := List.getElem?_eq_getElem hpos
  have hsmp : p.buf[p.pos] < 255 := hs _ (List.getElem_mem hpos)
  obtain ⟨a, b, c, d, e, hr, hbe⟩ :=
    pcNewSample_ok { s with pcSound := some ⟨p.buf, p.pos + 1⟩, trace := s.trace ++ [.callPCService] }
      p.buf[p.pos] hb hsmp
  refine ⟨_, a, b, c, d, e, ?_, rfl, hbe⟩
  simp only [SDL_PCService, emit, hp, hget]
  rw [hr]

theorem pcCountDown_last (s : State) (h : s.pcLengthLeft = 1) :
    pcCountDown s =
      { s with
        pcLengthLeft := 0
        pcSound := none
        SD_PC_Speaker_On := false
        SoundNumber := 0
        SoundPriority := 0
        trace := (s.trace ++ (if s.SD_SDL_AudioSubsystem_Up then [.lockAudio] else [])) ++
          (if s.SD_SDL_AudioSubsystem_Up then [.unlockAudio] else []) } := by
  simp [pcCountDown, h, SDL_PCStopSound, SDL_PCStopSound_Low, lockIfUp_eq, unlockIfUp_eq]

theorem pcCountDown_more (s : State) (h1 : 2 ≤ s.pcLengthLeft) (h2 : s.pcLengthLeft < 4294967296) :
    pcCountDown s = { s with pcLengthLeft := s.pcLengthLeft - 1 } := by
  have e : (s.pcLengthLeft + 4294967295) % 4294967296 = s.pcLengthLeft - 1 := by omega
  have e2 : s.pcLengthLeft - 1 ≠ 0 := by omega
  simp only [pcCountDown, e, if_neg e2]

theorem calls_locks (up : Bool) :
    calls ([Event.callPCService] ++ (if up then [Event.lockAudio] else []) ++
      (if up then [Event.unlockAudio] else [])) = [Event.callPCService] := by
  cases up <;> rfl

theorem SDL_PCService_ok (s : State) (h : WF s) :
    ∃ s1, SDL_PCService s = .ok s1 ∧ WF s1 ∧ SameSetup s s1 ∧ s1.count = s.count ∧
      Extends s s1 [.callPCService] := by
  obtain ⟨hpc, hal, hbeep, hseq⟩ := h
  cases hp : s.pcSound with
  | none =>
    refine ⟨_, SDL_PCService_idle s hp, ⟨?_, hal, hbeep, hseq⟩, SameSetup_refl _, rfl,
      ⟨[.callPCService], rfl, rfl⟩⟩
    intro p hp2
    simp [emit, hp] at hp2
  | some p =>
    obtain ⟨h1, h2, h3, h4⟩ := hpc p hp
    obtain ⟨s3, a, b, c, d, e, hr, hs3, hbe⟩ := SDL_PCService_step s p hp hbeep (by omega) h4
    have hlen : s3.pcLengthLeft = s.pcLengthLeft := by rw [hs3]
    by_cases hlast : s.pcLengthLeft = 1
    · rw [pcCountDown_last s3 (hlen.trans hlast)] at hr
      subst hs3
      refine ⟨_, hr, ⟨?_, hal, ⟨hbeep.1, hbeep.2.1, hbeep.2.2.1, ?_⟩, hseq⟩, ⟨rfl, rfl, rfl, rfl⟩,
        rfl, ⟨_, ?_, calls_locks s.SD_SDL_AudioSubsystem_Up⟩⟩
      · intro q hq
        simp at hq
      · intro hq
        simp at hq
      · simp
    · rw [pcCountDown_more s3 (by omega) (by omega)] at hr
      subst hs3
      refine ⟨_, hr, ⟨?_, hal, ⟨hbeep.1, hbeep.2.1, hbeep.2.2.1, hbe⟩, hseq⟩, ⟨rfl, rfl, rfl, rfl⟩,
        rfl, ⟨[.callPCService], rfl, rfl⟩⟩
      intro q hq
      simp only [Option.some.injEq] at hq
      subst hq
      refine ⟨?_, ?_, ?_, h4⟩
      · show 1 ≤ s.pcLengthLeft - 1
        omega
      · show s.pcLengthLeft - 1 < 4294967296
        omega
      · show p.pos + 1 + (s.pcLengthLeft - 1) ≤ p.buf.length
        omega

theorem SDL_ALSoundService_idle (s : State) (hp : s.alSound = none) :
    SDL_ALSoundService s = .ok (emit s .callALSoundService) := by
  simp [SDL_ALSoundService, emit, hp]

theorem SDL_ALSoundService_last (s : State) (p : BytePtr) (hp : s.alSound = some p)
    (hpos : p.pos < p.buf.length) (hl : s.alLengthLeft = 1) :
    SDL_ALSoundService s =
      .ok { s with
            alSound := none
            alLengthLeft := 0
            SoundNumber := 0
            SoundPriority := 0
            trace := s.trace ++ [.callALSoundService] ++ alSampleWrites s.alBlock p.buf[p.pos] ++
              [.regWrite (alFreqH + 0) 0] } := by
  have hget : p.buf[p.pos]? = some p.buf[p.pos] := List.getElem?_eq_getElem hpos
  have e : (s.alLengthLeft + 4294967295) % 4294967296 = 0 := by omega
  by_cases h0 : p.buf[p.pos] = 0 <;>
    simp [SDL_ALSoundService, emit, alOut, hp, hget, h0, alSampleWrites, e]

theorem SDL_ALSoundService_more (s : State) (p : BytePtr) (hp : s.alSound = some p)
    (hpos : p.pos < p.buf.length) (h2 : 2 ≤ s.alLengthLeft) (h3 : s.alLengthLeft < 4294967296) :
    SDL_ALSoundService s =
      .ok { s with
            alSound := some ⟨p.buf, p.pos + 1⟩
            alLengthLeft := s.alLengthLeft - 1
            trace := s.trace ++ [.callALSoundService] ++ alSampleWrites s.alBlock p.buf[p.pos] } := by
  have hget : p.buf[p.pos]? = some p.buf[p.pos] := List.getElem?_eq_getElem hpos
  have e : (s.alLengthLeft + 4294967295) % 4294967296 = s.alLengthLeft - 1 := by omega
  have e2 : s.alLengthLeft - 1 ≠ 0 := by omega
  by_cases h0 : p.buf[p.pos] = 0 <;>
    simp [SDL_ALSoundService, emit, alOut, hp, hget, h0, alSampleWrites, e, e2]

theorem calls_alSampleWrites (b smp : Nat) : calls (alSampleWrites b smp) = [] := by
  unfold alSampleWrites
  split <;> rfl

theorem SDL_ALSoundService_ok (s : State) (h : WF s) :
    ∃ s1, SDL_ALSoundService s = .ok s1 ∧ WF s1 ∧ SameSetup s s1 ∧ s1.count = s.count ∧
      Extends s s1 [.callALSoundService] := by
  obtain ⟨hpc, hal, hbeep, hseq⟩ := h
  cases hp : s.alSound with
  | none =>
    refine ⟨_, SDL_ALSoundService_idle s hp, ⟨hpc, ?_, hbeep, hseq⟩, SameSetup_refl _, rfl,
      ⟨[.callALSoundService], rfl, rfl⟩⟩
    intro p hp2
    simp [emit, hp] at hp2
  | some p =>
    obtain ⟨h1, h2, h3⟩ := hal p hp
    by_cases hlast : s.alLengthLeft = 1
    · refine ⟨_, SDL_ALSoundService_last s p hp (by omega) hlast, ⟨hpc, ?_, hbeep, hseq⟩,
        ⟨rfl, rfl, rfl, rfl⟩, rfl,
        ⟨[.callALSoundService] ++ alSampleWrites s.alBlock p.buf[p.pos] ++
          [.regWrite (alFreqH + 0) 0], ?_, ?_⟩⟩
      · intro q hq
        simp at hq
      · simp only [List.append_assoc]
      · simp only [calls_append, calls_alSampleWrites]
        rfl
    · refine ⟨_, SDL_ALSoundService_more s p hp (by omega) (by omega) h2, ⟨hpc, ?_, hbeep, hseq⟩,
        ⟨rfl, rfl, rfl, rfl⟩, rfl,
        ⟨[.callALSoundService] ++ alSampleWrites s.alBlock p.buf[p.pos], ?_, ?_⟩⟩
      · intro q hq
        simp only [Option.some.injEq] at hq
        subst hq
        refine ⟨?_, ?_, ?_⟩
        · show 1 ≤ s.alLengthLeft - 1
          omega
        · show s.alLengthLeft - 1 < 4294967296
          omega
        · show p.pos + 1 + (s.alLengthLeft - 1) ≤ p.buf.length
          omega
      · simp only [List.append_assoc]
      · simp only [calls_append, calls_alSampleWrites]
        rfl

theorem readU16_some (buf : List Nat) (i : Nat) (h : 2 * i + 1 < buf.length) :
    ∃ w, readU16 buf i = some w := by
  have h0 : buf[2 * i]? = some buf[2 * i] := List.getElem?_eq_getElem (by omega)
  have h1 : buf[2 * i + 1]? = some buf[2 * i + 1] := List.getElem?_eq_getElem h
  exact ⟨buf[2 * i] + 256 * buf[2 * i + 1], by simp only [readU16, h0, h1]⟩

theorem SDL_ALService_loop_ok (fuel : Nat) : ∀ s : State, SeqOK s → s.sqHackLen ≤ 4 * fuel →
    ∃ s1, SDL_ALService_loop fuel s = .ok s1 ∧ SeqOK s1 ∧ SeqStep s s1 ∧ Extends s s1 [] := by
  induction fuel with
  | zero =>
    intro s hq hf
    have h0 : s.sqHackLen = 0 := by omega
    refine ⟨s, by simp [SDL_ALService_loop, h0], hq, ?_, Extends_refl s⟩
    cases s
    rfl
  | succ fuel ih =>
    intro s hq hf
    by_cases hc : s.sqHackLen ≠ 0 ∧ s.sqHackTime ≤ s.alTimeCount
    · have q1 := hq.1
      have q2 := hq.2.1
      have q3 := hq.2.2.1
      have q4 := hq.2.2.2.1
      have q6 := hq.2.2.2.2.2
      obtain ⟨p, hp, hfit⟩ := hq.2.2.2.2.1 hc.1
      clear hq
      have hc1 := hc.1
      have g1 : (s.sqHackLen - 4) % 4 = 0 := by omega
      have g2 : s.sqHackLen - 4 < 65536 := by omega
      have g3 : 2 * (p.pos + 2) + (s.sqHackLen - 4) ≤ p.buf.length := by omega
      have g4 : s.sqHackLen - 4 ≤ 4 * fuel := by omega
      have g5 : 2 * p.pos + 1 < p.buf.length := by omega
      have g6 : 2 * (p.pos + 1) + 1 < p.buf.length := by omega
      have hlen : (s.sqHackLen + 65532) % 65536 = s.sqHackLen - 4 := by omega
      obtain ⟨w, hw⟩ := readU16_some p.buf p.pos g5
      obtain ⟨d, hd⟩ := readU16_some p.buf (p.pos + 1) g6
      obtain ⟨s1, r1, r2, r3, r4⟩ :=
        ih { s with
             sqHackPtr := some ⟨p.buf, p.pos + 2⟩
             sqHackTime := (s.alTimeCount + d) % 4294967296
             trace := s.trace ++ [.regWrite (w % 256) (w / 256 % 256)]
             sqHackLen := s.sqHackLen - 4 }
          ⟨g1, g2, q3, q4, fun _ => ⟨_, rfl, g3⟩, q6⟩ g4
      refine ⟨s1, ?_, r2, r3, ?_⟩
      · rw [SDL_ALService_loop, if_pos hc]
        simp only [hp, hw, hd, alOut, emit, hlen]
        exact r1
      · have hx : Extends s
            { s with
              sqHackPtr := some ⟨p.buf, p.pos + 2⟩
              sqHackTime := (s.alTimeCount + d) % 4294967296
              trace := s.trace ++ [.regWrite (w % 256) (w / 256 % 256)]
              sqHackLen := s.sqHackLen - 4 } [] :=
          ⟨[.regWrite (w % 256) (w / 256 % 256)], rfl, rfl⟩
        have := Extends_trans hx r4
        simpa using this
    · refine ⟨s, by rw [SDL_ALService_loop, if_neg hc], hq, ?_, Extends_refl s⟩
      cases s
      rfl

theorem SeqStep_frame {s s1 : State} (h : SeqStep s s1) :
    (PcOK s → PcOK s1) ∧ (AlOK s → AlOK s1) ∧ (BeepOK s → BeepOK s1) ∧ SameSetup s s1 ∧
      s1.count = s.count ∧ s1.sqHack = s.sqHack ∧ s1.sqHackSeqLen = s.sqHackSeqLen ∧
      s1.sqActive = s.sqActive ∧ s1.alTimeCount = s.alTimeCount := by
  unfold SeqStep at h
  rw [h]
  exact ⟨fun x => x, fun x => x, fun x => x, ⟨rfl, rfl, rfl, rfl⟩, rfl, rfl, rfl, rfl, rfl⟩

theorem SDL_ALService_ok (s : State) (h : WF s) :
    ∃ s1, SDL_ALService s = .ok s1 ∧ WF s1 ∧ SameSetup s s1 ∧ s1.count = s.count ∧
      Extends s s1 [.callALService] := by
  obtain ⟨hpc, hal, hbeep, hseq⟩ := h
  unfold SDL_ALService
  by_cases ha : s.sqActive = false
  · simp only [emit, ha, if_true]
    exact ⟨_, rfl, ⟨hpc, hal, hbeep, hseq⟩, SameSetup_refl _, rfl, ⟨[.callALService], rfl, rfl⟩⟩
  · have hfuel : (emit s .callALService).sqHackLen ≤
        4 * (match (emit s .callALService).sqHackPtr with
              | some p => p.buf.length
              | none => 0) := by
      show s.sqHackLen ≤ 4 * (match s.sqHackPtr with
              | some p => p.buf.length
              | none => 0)
      by_cases h0 : s.sqHackLen = 0
      · omega
      · obtain ⟨p, hp, hfit⟩ := hseq.2.2.2.2.1 h0
        rw [hp]
        show s.sqHackLen ≤ 4 * p.buf.length
        omega
    obtain ⟨s1, r1, r2, r3, r4⟩ :=
      SDL_ALService_loop_ok _ (emit s .callALService) hseq hfuel
    obtain ⟨f1, f2, f3, f4, f5, f6, f7, _, _⟩ := SeqStep_frame r3
    have hext : Extends s s1 [.callALService] := by
      have hx : Extends s (emit s .callALService) [.callALService] :=
        ⟨[.callALService], rfl, rfl⟩
      have := Extends_trans hx r4
      simpa using this
    have ha2 : (emit s .callALService).sqActive = false ↔ False := by
      show s.sqActive = false ↔ False
      simp [ha]
    simp only [ha2, if_false, r1]
    by_cases hz : s1.sqHackLen = 0
    · simp only [hz, if_true]
      refine ⟨_, rfl, ⟨f1 hpc, f2 hal, f3 hbeep, ?_⟩, f4, f5, hext⟩
      exact ⟨r2.2.2.1, r2.2.2.2.1, r2.2.2.1, r2.2.2.2.1, r2.2.2.2.2.2, r2.2.2.2.2.2⟩
    · simp only [hz, if_false]
      exact ⟨_, rfl, ⟨f1 hpc, f2 hal, f3 hbeep, r2⟩, f4, f5, hext⟩

theorem effectsService_ok (s : State) (h : WF s) :
    ∃ s1, effectsService s = .ok s1 ∧ WF s1 ∧ SameSetup s s1 ∧ s1.count = s.count ∧
      Extends s s1 (effectsCall s.SoundMode) := by
  unfold effectsService
  cases hm : s.SoundMode with
  | sdm_Off => exact ⟨s, rfl, h, SameSetup_refl s, rfl, Extends_refl s⟩
  | sdm_PC => exact SDL_PCService_ok s h
  | sdm_AdLib => exact SDL_ALSoundService_ok s h

theorem and3_eq_mod4 (x : Nat) : x &&& 3 = x % 4 :=
  Nat.and_pow_two_sub_one_eq_mod x 2

theorem SDL_t0Service_ok (s : State) (h : WF s) :
    ∃ s1, SDL_t0Service s = .ok s1 ∧ WF s1 ∧ SameSetup s s1 ∧
      s1.count = (if s.MusicMode = .smm_AdLib then (s.count + 1) % 65536 else s.count) ∧
      Extends s s1 (t0Calls s.MusicMode s.SoundMode s.count) := by
  have hx0 : Extends s (emit s .callT0Service) [.callT0Service] := ⟨[.callT0Service], rfl, rfl⟩
  unfold SDL_t0Service
  by_cases hmu : s.MusicMode = .smm_AdLib
  · have hmu2 : (emit s .callT0Service).MusicMode = .smm_AdLib := hmu
    obtain ⟨s1, r1, r2, r3, r4, r5⟩ := SDL_ALService_ok (emit s .callT0Service) h
    simp only [hmu2, if_true, r1, and3_eq_mod4]
    have hc : s1.count = s.count := r4
    have hw2 : WF { s1 with count := (s1.count + 1) % 65536 } := r2
    have hs2 : SameSetup s { s1 with count := (s1.count + 1) % 65536 } := r3
    have hx2 : Extends s { s1 with count := (s1.count + 1) % 65536 }
        [.callT0Service, .callALService] := Extends_trans hx0 r5
    by_cases hq : ((s.count + 1) % 65536) % 4 = 0
    · have hq2 : ({ s1 with count := (s1.count + 1) % 65536 } : State).count % 4 = 0 := by
        show ((s1.count + 1) % 65536) % 4 = 0
        rw [hc]
        exact hq
      rw [if_pos hq2]
      obtain ⟨s3, t1, t2, t3, t4, t5⟩ := effectsService_ok _ hw2
      refine ⟨s3, t1, t2, SameSetup_trans hs2 t3, ?_, ?_⟩
      · rw [t4, if_pos hmu]
        show (s1.count + 1) % 65536 = (s.count + 1) % 65536
        rw [hc]
      · have := Extends_trans hx2 t5
        have hm : ({ s1 with count := (s1.count + 1) % 65536 } : State).SoundMode = s.SoundMode :=
          r3.2.1
        rw [hm] at this
        simpa [t0Calls, hmu, hq] using this
    · have hq2 : ¬ ({ s1 with count := (s1.count + 1) % 65536 } : State).count % 4 = 0 := by
        show ¬ ((s1.count + 1) % 65536) % 4 = 0
        rw [hc]
        exact hq
      rw [if_neg hq2]
      refine ⟨_, rfl, hw2, hs2, ?_, ?_⟩
      · rw [if_pos hmu]
        show (s1.count + 1) % 65536 = (s.count + 1) % 65536
        rw [hc]
      · simpa [t0Calls, hmu, hq] using hx2
  · have hmu2 : ¬ (emit s .callT0Service).MusicMode = .smm_AdLib := hmu
    rw [if_neg hmu2]
    obtain ⟨s3, t1, t2, t3, t4, t5⟩ := effectsService_ok (emit s .callT0Service) h
    refine ⟨s3, t1, t2, t3, ?_, ?_⟩
    · rw [t4, if_neg hmu]
      rfl
    · have := Extends_trans hx0 t5
      simpa [t0Calls, hmu] using this

theorem runT0_ok (n : Nat) : ∀ s : State, WF s →
    ∃ sn, runT0 n s = .ok sn ∧ WF sn ∧ SameSetup s sn ∧
      Extends s sn (runCalls s.MusicMode s.SoundMode n s.count) := by
  induction n with
  | zero =>
    intro s h
    exact ⟨s, rfl, h, SameSetup_refl s, Extends_refl s⟩
  | succ n ih =>
    intro s h
    obtain ⟨s1, r1, r2, r3, r4, r5⟩ := SDL_t0Service_ok s h
    obtain ⟨sn, t1, t2, t3, t4⟩ := ih s1 r2
    refine ⟨sn, ?_, t2, SameSetup_trans r3 t3, ?_⟩
    · rw [runT0, r1]
      exact t1
    · rw [r3.1, r3.2.1, r4] at t4
      exact Extends_trans r5 t4

theorem count_calls (e : Event) (he : e.minor = false) (evs : List Event) :
    (calls evs).count e = evs.count e := by
  unfold calls
  exact List.count_filter (by simp [he])

theorem window_counts (mode : SDMode) (c : Nat) :
    (runCalls .smm_AdLib mode 4 c).count .callALService = 4 ∧
      (runCalls .smm_AdLib mode 4 c).count .callPCService = (if mode = .sdm_PC then 1 else 0) ∧
      (runCalls .smm_AdLib mode 4 c).count .callALSoundService =
        (if mode = .sdm_AdLib then 1 else 0) := by
  have hc : c % 4 = 0 ∨ c % 4 = 1 ∨ c % 4 = 2 ∨ c % 4 = 3 := by omega
  rcases hc with hc | hc | hc | hc
  · have h1 : ¬ ((c + 1) % 65536) % 4 = 0 := by omega
    have h2 : ¬ (((c + 1) % 65536 + 1) % 65536) % 4 = 0 := by omega
    have h3 : ¬ ((((c + 1) % 65536 + 1) % 65536 + 1) % 65536) % 4 = 0 := by omega
    have h4 : (((((c + 1) % 65536 + 1) % 65536 + 1) % 65536 + 1) % 65536) % 4 = 0 := by omega
    cases mode <;>
      simp only [runCalls, t0Calls, effectsCall, if_true, h1, h2, h3, h4, if_false] <;> decide
  · have h1 : ¬ ((c + 1) % 65536) % 4 = 0 := by omega
    have h2 : ¬ (((c + 1) % 65536 + 1) % 65536) % 4 = 0 := by omega
    have h3 : ((((c + 1) % 65536 + 1) % 65536 + 1) % 65536) % 4 = 0 := by omega
    have h4 : ¬ (((((c + 1) % 65536 + 1) % 65536 + 1) % 65536 + 1) % 65536) % 4 = 0 := by omega
    cases mode <;>
      simp only [runCalls, t0Calls, effectsCall, if_true, h1, h2, h3, h4, if_false] <;> decide
  · have h1 : ¬ ((c + 1) % 65536) % 4 = 0 := by omega
    have h2 : (((c + 1) % 65536 + 1) % 65536) % 4 = 0 := by omega
    have h3 : ¬ ((((c + 1) % 65536 + 1) % 65536 + 1) % 65536) % 4 = 0 := by omega
    have h4 : ¬ (((((c + 1) % 65536 + 1) % 65536 + 1) % 65536 + 1) % 65536) % 4 = 0 := by omega
    cases mode <;>
      simp only [runCalls, t0Calls, effectsCall, if_true, h1, h2, h3, h4, if_false] <;> decide
  · have h1 : ((c + 1) % 65536) % 4 = 0 := by omega
    have h2 : ¬ (((c + 1) % 65536 + 1) % 65536) % 4 = 0 := by omega
    have h3 : ¬ ((((c + 1) % 65536 + 1) % 65536 + 1) % 65536) % 4 = 0 := by omega
    have h4 : ¬ (((((c + 1) % 65536 + 1) % 65536 + 1) % 65536 + 1) % 65536) % 4 = 0 := by omega
    cases mode <;>
      simp only [runCalls, t0Calls, effectsCall, if_true, h1, h2, h3, h4, if_false] <;> decide

theorem single_counts (mode : SDMode) (c : Nat) :
    (t0Calls .smm_Off mode c).count .callALService = 0 ∧
      (t0Calls .smm_Off mode c).count .callPCService = (if mode = .sdm_PC then 1 else 0) ∧
      (t0Calls .smm_Off mode c).count .callALSoundService =
        (if mode = .sdm_AdLib then 1 else 0) := by
  cases mode <;> exact ⟨rfl, rfl, rfl⟩

theorem demoMusic_WF : WF demoMusic := by
  refine ⟨?_, ?_, ?_, ?_⟩
  · intro p hp
    cases hp
  · intro p hp
    cases hp
  · exact ⟨rfl, by decide, by decide, by decide⟩
  · exact ⟨by decide, by decide, by decide, by decide, fun h => absurd rfl h,
      fun h => absurd rfl h⟩

/-- C7: from a well-formed state with the effects device on tone or FM.  With
the music device on FM, four calls of `SDL_t0Service` in a row, whatever the
value of the 16-bit tick counter at the start, enter `SDL_ALService` four times
and the service routine of the effects device once (and not the routine of the
other device).  With the music device off, one call of `SDL_t0Service` enters
the service routine of the effects device once and `SDL_ALService` not at
all. -/
theorem SDL_t0Service_tick_ratio (s : State) (h : WF s) (hmode : s.SoundMode ≠ .sdm_Off) :
    (s.MusicMode = .smm_AdLib →
      ∃ s4 evs, runT0 4 s = .ok s4 ∧ s4.trace = s.trace ++ evs ∧
        evs.count .callALService = 4 ∧
        evs.count .callPCService + evs.count .callALSoundService = 1 ∧
        evs.count .callPCService = (if s.SoundMode = .sdm_PC then 1 else 0) ∧
        evs.count .callALSoundService = (if s.SoundMode = .sdm_AdLib then 1 else 0)) ∧
    (s.MusicMode = .smm_Off →
      ∃ s1 evs, SDL_t0Service s = .ok s1 ∧ s1.trace = s.trace ++ evs ∧
        evs.count .callALService = 0 ∧
        evs.count .callPCService + evs.count .callALSoundService = 1 ∧
        evs.count .callPCService = (if s.SoundMode = .sdm_PC then 1 else 0) ∧
        evs.count .callALSoundService = (if s.SoundMode = .sdm_AdLib then 1 else 0)) := by
  have hsum : (if s.SoundMode = .sdm_PC then 1 else 0) +
      (if s.SoundMode = .sdm_AdLib then 1 else 0) = 1 := by
    cases hm : s.SoundMode
    · exact absurd hm hmode
    · rfl
    · rfl
  constructor
  · intro hmu
    obtain ⟨s4, r1, _, _, evs, r4, r5⟩ := runT0_ok 4 s h
    obtain ⟨w1, w2, w3⟩ := window_counts s.SoundMode s.count
    rw [hmu] at r5
    rw [← r5, count_calls .callALService rfl] at w1
    rw [← r5, count_calls .callPCService rfl] at w2
    rw [← r5, count_calls .callALSoundService rfl] at w3
    exact ⟨s4, evs, r1, r4, w1, by rw [w2, w3]; exact hsum, w2, w3⟩
  · intro hmu
    obtain ⟨s1, r1, _, _, _, evs, r4, r5⟩ := SDL_t0Service_ok s h
    obtain ⟨w1, w2, w3⟩ := single_counts s.SoundMode s.count
    rw [hmu] at r5
    rw [← r5, count_calls .callALService rfl] at w1
    rw [← r5, count_calls .callPCService rfl] at w2
    rw [← r5, count_calls .callALSoundService rfl] at w3
    exact ⟨s1, evs, r1, r4, w1, by rw [w2, w3]; exact hsum, w2, w3⟩

/-- Witness of C7: music and effects on FM, the tick counter at 65534, so that
the window of four calls crosses the wrap-around. -/
theorem SDL_t0Service_tick_ratio_witness :
    ∃ s4 evs, runT0 4 demoMusic = .ok s4 ∧ s4.trace = demoMusic.trace ++ evs ∧
      evs.count .callALService = 4 ∧ evs.count .callALSoundService = 1 := by
  obtain ⟨s4, evs, h1, h2, h3, _, _, h6⟩ :=
    (SDL_t0Service_tick_ratio demoMusic demoMusic_WF (by decide)).1 rfl
  exact ⟨s4, evs, h1, h2, h3, h6⟩

/-! ## Timer speed -/

theorem SDL_SetTimerSpeed_eq (s : State) :
    SDL_SetTimerSpeed s =
      { s with
        SD_SDL_SamplesPerPart :=
          ((Int.tdiv (wrapInt32 ((if s.MusicMode = .smm_AdLib then 2128 else 8514) * s.freq))
            1193182) % 4294967296).toNat } := by
  unfold SDL_SetTimerSpeed SDL_SetIntsPerSecond SDL_SetTimer0
  by_cases hm : s.MusicMode = .smm_AdLib
  · have e : toInt16 (Int.tdiv SD_SOUND_PART_RATE_BASE (toInt16 (SD_SFX_PART_RATE * 4)) % 65536)
        = 2128 := by decide
    simp only [hm, if_true, e, PC_PIT_RATE]
    rfl
  · have e : toInt16 (Int.tdiv SD_SOUND_PART_RATE_BASE (toInt16 (SD_SFX_PART_RATE * 1)) % 65536)
        = 8514 := by decide
    simp only [hm, if_false, e, PC_PIT_RATE]
    rfl

theorem SDL_SetTimerSpeed_value (s : State) (h0 : 0 ≤ s.freq)
    (h1 : s.freq * 8514 < 2147483648) :
    ((SDL_SetTimerSpeed s).SD_SDL_SamplesPerPart : Int) =
      partSize (timerDivisor (if s.MusicMode = .smm_AdLib then 560 else 140)) s.freq := by
  rw [SDL_SetTimerSpeed_eq]
  show (((Int.tdiv (wrapInt32 ((if s.MusicMode = .smm_AdLib then 2128 else 8514) * s.freq))
            1193182) % 4294967296).toNat : Int) = _
  have hd : timerDivisor (if s.MusicMode = .smm_AdLib then 560 else 140) =
      (if s.MusicMode = .smm_AdLib then 2128 else 8514) := by
    split <;> decide
  rw [hd]
  unfold partSize
  have hp0 : 0 ≤ (if s.MusicMode = .smm_AdLib then (2128 : Int) else 8514) * s.freq := by
    split <;> omega
  have hp1 : (if s.MusicMode = .smm_AdLib then (2128 : Int) else 8514) * s.freq < 2147483648 := by
    split <;> omega
  generalize (if s.MusicMode = .smm_AdLib then (2128 : Int) else 8514) * s.freq = x at hp0 hp1
  have hw : wrapInt32 x = x := by
    unfold wrapInt32
    have : x % 4294967296 = x := by omega
    simp only [this]
    rw [if_neg (by omega)]
  rw [hw, Int.tdiv_eq_ediv hp0 (by decide)]
  have hq0 : 0 ≤ x / 1193182 := by omega
  have hq1 : x / 1193182 < 4294967296 := by omega
  have hm : x / 1193182 % 4294967296 = x / 1193182 := by omega
  rw [hm, Int.toNat_of_nonneg hq0]

theorem SD_StopSound_keeps (s : State) :
    (SD_StopSound s).freq = s.freq ∧ (SD_StopSound s).MusicMode = s.MusicMode ∧
      (SD_StopSound s).SD_SDL_SamplesPerPart = s.SD_SDL_SamplesPerPart := by
  cases hm : s.SoundMode <;>
    simp [SD_StopSound, hm, SDL_PCStopSound, SDL_PCStopSound_Low,
      SDL_ALStopSound, SDL_ALStopSound_Low, unlockIfUp_eq, lockIfUp_eq, alOut, emit]

theorem SDL_ShutDevice_keeps (s : State) :
    (SDL_ShutDevice s).freq = s.freq ∧ (SDL_ShutDevice s).MusicMode = s.MusicMode ∧
      (SDL_ShutDevice s).SD_SDL_SamplesPerPart = s.SD_SDL_SamplesPerPart := by
  cases hm : s.SoundMode <;>
    simp [SDL_ShutDevice, hm, SDL_ShutPC, SDL_ShutPC_Low, SDL_ShutAL, SDL_ShutAL_Low,
      SDL_AlSetFXInst, unlockIfUp_eq, lockIfUp_eq, alOut, emit]

theorem SDL_StartDevice_keeps (s : State) :
    (SDL_StartDevice s).freq = s.freq ∧ (SDL_StartDevice s).MusicMode = s.MusicMode ∧
      (SDL_StartDevice s).SD_SDL_SamplesPerPart = s.SD_SDL_SamplesPerPart := by
  by_cases hm : s.SoundMode = .sdm_AdLib <;>
    simp [SDL_StartDevice, hm, SDL_StartAL, SDL_AlSetFXInst, alOut, emit]

theorem SD_SetSoundMode_timer (NUMSOUNDS : Nat) (any_sound0 : Bool) (offset0 : Int)
    (s : State) (mode : SDMode) :
    ∃ s2, (SD_SetSoundMode NUMSOUNDS any_sound0 offset0 s mode).2 = SDL_SetTimerSpeed s2 ∧
      s2.freq = s.freq ∧ s2.MusicMode = s.MusicMode := by
  obtain ⟨k1, k2, _⟩ := SD_StopSound_keeps s
  have hr : ∀ (r : Bool × Int × State),
      r.2.2.freq = s.freq ∧ r.2.2.MusicMode = s.MusicMode →
      ∀ x : State, x = (if r.1 = true ∧ mode ≠ r.2.2.SoundMode then
        SDL_StartDevice
          { SDL_ShutDevice r.2.2 with
            SoundMode := mode, SoundTable := tableAt (SDL_ShutDevice r.2.2).CA_audio r.2.1 }
        else r.2.2) → x.freq = s.freq ∧ x.MusicMode = s.MusicMode := by
    intro r hr x hx
    split at hx
    · rw [hx, (SDL_StartDevice_keeps _).1, (SDL_StartDevice_keeps _).2.1]
      simp only []
      rw [(SDL_ShutDevice_keeps _).1, (SDL_ShutDevice_keeps _).2.1]
      exact hr
    · rw [hx]
      exact hr
  unfold SD_SetSoundMode
  refine ⟨_, rfl, ?_⟩
  refine hr _ ?_ _ rfl
  cases mode
  · exact ⟨k1, k2⟩
  · exact ⟨k1, k2⟩
  · by_cases ha : (SD_StopSound s).AdLibPresent = false
    · simp only [ha, if_true]
      exact ⟨k1, k2⟩
    · simp only [ha, if_false]
      exact ⟨k1, k2⟩

theorem foldl_alOut_eq (f : Nat → Nat) (l : List Nat) : ∀ s : State,
    l.foldl (fun st i => alOut st (f i) 0) s =
      { s with trace := s.trace ++ l.map (fun i => Event.regWrite (f i) 0) } := by
  induction l with
  | nil =>
    intro s
    simp
  | cons a l ih =>
    intro s
    rw [List.foldl_cons, ih]
    simp [alOut, emit]

theorem SD_MusicOff_keeps (s : State) :
    (SD_MusicOff s).freq = s.freq ∧ (SD_MusicOff s).MusicMode = s.MusicMode ∧
      (SD_MusicOff s).SD_SDL_SamplesPerPart = s.SD_SDL_SamplesPerPart ∧
      (SD_MusicOff s).AdLibPresent = s.AdLibPresent := by
  by_cases hm : s.MusicMode = .smm_AdLib
  · simp only [SD_MusicOff, hm, if_true, foldl_alOut_eq (fun i => alFreqH + i + 1)]
    simp [alOut, emit]
  · simp [SD_MusicOff, hm]

theorem SD_StartMusic_keeps (s : State) (music : MusicGroup) :
    (SD_StartMusic s music).freq = s.freq ∧ (SD_StartMusic s music).MusicMode = s.MusicMode ∧
      (SD_StartMusic s music).SD_SDL_SamplesPerPart = s.SD_SDL_SamplesPerPart := by
  obtain ⟨k1, k2, k3, _⟩ := SD_MusicOff_keeps s
  unfold SD_StartMusic
  simp only []
  split
  · exact ⟨k1, k2, k3⟩
  · exact ⟨k1, k2, k3⟩

theorem SD_FadeOutMusic_keeps (s : State) :
    (SD_FadeOutMusic s).freq = s.freq ∧ (SD_FadeOutMusic s).MusicMode = s.MusicMode ∧
      (SD_FadeOutMusic s).AdLibPresent = s.AdLibPresent := by
  obtain ⟨k1, k2, _, k4⟩ := SD_MusicOff_keeps s
  unfold SD_FadeOutMusic
  split
  · exact ⟨k1, k2, k4⟩
  · exact ⟨rfl, rfl, rfl⟩

theorem SD_SetMusicMode_timer (result0 : Bool) (s : State) (mode : SMMode) :
    ∃ s2, (SD_SetMusicMode result0 s mode).2 = SDL_SetTimerSpeed s2 ∧
      s2.freq = s.freq ∧
      s2.MusicMode = (if (SD_SetMusicMode result0 s mode).1 = true then mode else s.MusicMode) := by
  obtain ⟨k1, k2, _⟩ := SD_FadeOutMusic_keeps s
  unfold SD_SetMusicMode
  refine ⟨_, rfl, ?_⟩
  cases mode
  · exact ⟨k1, rfl⟩
  · by_cases ha : (SD_FadeOutMusic s).AdLibPresent = true
    · simp only [ha, if_true]
      exact ⟨k1, trivial⟩
    · simp only [ha]
      cases result0 <;>
        first
        | exact ⟨k1, k2⟩
        | exact ⟨k1, rfl⟩

theorem SD_SetMusicMode_result (result0 : Bool) (s : State) (mode : SMMode)
    (h : mode = .smm_Off ∨ s.AdLibPresent = true) :
    (SD_SetMusicMode result0 s mode).1 = true := by
  obtain ⟨_, _, k3⟩ := SD_FadeOutMusic_keeps s
  unfold SD_SetMusicMode
  cases mode
  · rfl
  · rcases h with h | h
    · cases h
    · simp only [k3, h, if_true]

theorem SDL_SetTimerSpeed_MusicMode (s : State) :
    (SDL_SetTimerSpeed s).MusicMode = s.MusicMode := by
  rw [SDL_SetTimerSpeed_eq]

/-- Counterexample to C8: at the default output rate 49716 Hz with the music
device off, `SDL_SetTimerSpeed` sets the part size to 354, while 49716 / 140,
truncated, is 355. -/
theorem samplesPerPart_140_is_354 :
    demoPC.freq = 49716 ∧ demoPC.MusicMode = .smm_Off ∧
      (SDL_SetTimerSpeed demoPC).SD_SDL_SamplesPerPart = 354 ∧ (49716 : Nat) / 140 = 355 := by
  decide

/-- C8, amended: after `SDL_SetTimerSpeed`, also as called by `SD_SetSoundMode`
and `SD_SetMusicMode`, the part size is `D * rate / 1193182` truncated, where
`rate` is the output rate and `D = 1192030 / tickrate`, truncated, is the
divisor of the emulated timer for the tick rate 560 (music device FM) or 140
(otherwise); at 49716 Hz that is 354 without music and 88 with music.  The
output rate is such that the 32-bit product does not overflow. -/
theorem SDL_SetTimerSpeed_partSize (s : State) (h0 : 0 ≤ s.freq)
    (h1 : s.freq * 8514 < 2147483648) :
    ((SDL_SetTimerSpeed s).SD_SDL_SamplesPerPart : Int) =
        partSize (timerDivisor (if s.MusicMode = .smm_AdLib then 560 else 140)) s.freq ∧
      (∀ (NUMSOUNDS : Nat) (any_sound0 : Bool) (offset0 : Int) (mode : SDMode) (r : State),
        r = (SD_SetSoundMode NUMSOUNDS any_sound0 offset0 s mode).2 →
        (r.SD_SDL_SamplesPerPart : Int) =
          partSize (timerDivisor (if r.MusicMode = .smm_AdLib then 560 else 140)) s.freq) ∧
      (∀ (result0 : Bool) (mode : SMMode) (r : State),
        r = (SD_SetMusicMode result0 s mode).2 →
        (r.SD_SDL_SamplesPerPart : Int) =
          partSize (timerDivisor (if r.MusicMode = .smm_AdLib then 560 else 140)) s.freq) ∧
      (s.freq = 49716 →
        (SDL_SetTimerSpeed s).SD_SDL_SamplesPerPart =
          (if s.MusicMode = .smm_AdLib then 88 else 354)) := by
  refine ⟨SDL_SetTimerSpeed_value s h0 h1, ?_, ?_, ?_⟩
  · intro N a o mode r hr
    obtain ⟨s2, e1, e2, e3⟩ := SD_SetSoundMode_timer N a o s mode
    rw [hr, e1, SDL_SetTimerSpeed_MusicMode, ← e2]
    exact SDL_SetTimerSpeed_value s2 (by rw [e2]; exact h0) (by rw [e2]; exact h1)
  · intro b mode r hr
    obtain ⟨s2, e1, e2, _⟩ := SD_SetMusicMode_timer b s mode
    rw [hr, e1, SDL_SetTimerSpeed_MusicMode, ← e2]
    exact SDL_SetTimerSpeed_value s2 (by rw [e2]; exact h0) (by rw [e2]; exact h1)
  · intro hf
    have h := SDL_SetTimerSpeed_value s h0 h1
    rw [hf] at h
    by_cases hm : s.MusicMode = .smm_AdLib
    · simp only [hm, if_true] at h ⊢
      have e : partSize (timerDivisor 560) 49716 = 88 := by decide
      rw [e] at h
      exact_mod_cast h
    · simp only [hm, if_false] at h ⊢
      have e : partSize (timerDivisor 140) 49716 = 354 := by decide
      rw [e] at h
      exact_mod_cast h

/-- Witness of C8, amended: the sample state at 49716 Hz, music device off. -/
theorem SDL_SetTimerSpeed_partSize_witness :
    (SDL_SetTimerSpeed demoPC).SD_SDL_SamplesPerPart = 354 :=
  (SDL_SetTimerSpeed_partSize demoPC (by decide) (by decide)).2.2.2 rfl

/-- Counterexample to C9: at 49716 Hz the part size of the 140 Hz rate is 354 and
that of the 560 Hz rate is 88.  With the music device on FM and the part size
88, `SD_StartMusic` and then `SD_MusicOff` leave the part size at 88, not at
354; with the music device off and the part size 354, `SD_StartMusic` leaves it
at 354, not at 88. -/
theorem SD_StartMusic_leaves_timer_example :
    (SDL_SetTimerSpeed demoAL).SD_SDL_SamplesPerPart = 354 ∧
      (SDL_SetTimerSpeed demoMusic).SD_SDL_SamplesPerPart = 88 ∧
      demoMusic.SD_SDL_SamplesPerPart = 88 ∧
      (SD_StartMusic demoMusic demoTrack).SD_SDL_SamplesPerPart = 88 ∧
      (SD_MusicOff (SD_StartMusic demoMusic demoTrack)).SD_SDL_SamplesPerPart = 88 ∧
      demoAL.SD_SDL_SamplesPerPart = 354 ∧
      (SD_StartMusic demoAL demoTrack).SD_SDL_SamplesPerPart = 354 := by
  decide

/-- C9, amended: `SD_StartMusic` and `SD_MusicOff` leave the part size and the
music device as they are.  The timer rate follows the music device: selecting
FM with `SD_SetMusicMode` (FM hardware present) moves the timer to the 560 Hz
rate and recomputes the part size accordingly, and selecting Off restores the
part size of the 140 Hz rate. -/
theorem music_device_sets_timer (s : State) (music : MusicGroup) (h0 : 0 ≤ s.freq)
    (h1 : s.freq * 8514 < 2147483648) :
    (SD_StartMusic s music).SD_SDL_SamplesPerPart = s.SD_SDL_SamplesPerPart ∧
      (SD_StartMusic s music).MusicMode = s.MusicMode ∧
      (SD_MusicOff s).SD_SDL_SamplesPerPart = s.SD_SDL_SamplesPerPart ∧
      (SD_MusicOff s).MusicMode = s.MusicMode ∧
      (s.AdLibPresent = true → ∀ result0 : Bool,
        (SD_SetMusicMode result0 s .smm_AdLib).2.MusicMode = .smm_AdLib ∧
        (((SD_SetMusicMode result0 s .smm_AdLib).2.SD_SDL_SamplesPerPart : Nat) : Int) =
          partSize (timerDivisor 560) s.freq) ∧
      (∀ result0 : Bool,
        (SD_SetMusicMode result0 s .smm_Off).2.MusicMode = .smm_Off ∧
        (((SD_SetMusicMode result0 s .smm_Off).2.SD_SDL_SamplesPerPart : Nat) : Int) =
          partSize (timerDivisor 140) s.freq) := by
  obtain ⟨_, a2, a3⟩ := SD_StartMusic_keeps s music
  obtain ⟨_, b2, b3, _⟩ := SD_MusicOff_keeps s
  refine ⟨a3, a2, b3, b2, ?_, ?_⟩
  · intro hp b
    obtain ⟨s2, e1, e2, e3⟩ := SD_SetMusicMode_timer b s .smm_AdLib
    rw [SD_SetMusicMode_result b s .smm_AdLib (Or.inr hp)] at e3
    simp only [if_true] at e3
    have h := SDL_SetTimerSpeed_value s2 (by rw [e2]; exact h0) (by rw [e2]; exact h1)
    rw [e3, e2] at h
    rw [e1, SDL_SetTimerSpeed_MusicMode]
    exact ⟨e3, h⟩
  · intro b
    obtain ⟨s2, e1, e2, e3⟩ := SD_SetMusicMode_timer b s .smm_Off
    rw [SD_SetMusicMode_result b s .smm_Off (Or.inl rfl)] at e3
    simp only [if_true] at e3
    have h := SDL_SetTimerSpeed_value s2 (by rw [e2]; exact h0) (by rw [e2]; exact h1)
    rw [e3, e2] at h
    rw [e1, SDL_SetTimerSpeed_MusicMode]
    exact ⟨e3, h⟩

/-- Witness of C9, amended: at 49716 Hz, selecting the FM music device gives the
part size 88 and starting a track leaves it there. -/
theorem music_device_sets_timer_witness :
    (SD_StartMusic demoAL demoTrack).SD_SDL_SamplesPerPart = 354 ∧
      (((SD_SetMusicMode false demoAL .smm_AdLib).2.SD_SDL_SamplesPerPart : Nat) : Int) =
        partSize (timerDivisor 560) 49716 :=
  ⟨(music_device_sets_timer demoAL demoTrack (by decide) (by decide)).1,
    ((music_device_sets_timer demoAL demoTrack (by decide) (by decide)).2.2.2.2.1 rfl false).2⟩

/-! ## An accepted effect runs for the length of its header -/

theorem runService_succ_last (f : State → Except Stop State) (k : Nat) (s : State) :
    runService f (k + 1) s =
      match runService f k s with
      | .error x => .error x
      | .ok t => f t := by
  induction k generalizing s with
  | zero =>
    simp only [runService]
    cases f s <;> rfl
  | succ k ih =>
    rw [runService]
    cases h : f s with
    | error x => simp [runService, h]
    | ok s1 =>
      simp only []
      rw [ih s1]
      conv_rhs => rw [runService]
      simp [h]

theorem pc_step_more (t : State) (p : BytePtr) (hm : t.SoundMode = .sdm_PC)
    (hp : t.pcSound = some p) (hb : BeepOK t) (hs : ∀ b ∈ p.buf, b < 255)
    (h2 : 2 ≤ t.pcLengthLeft) (hlt : t.pcLengthLeft < 4294967296)
    (hfit : p.pos + t.pcLengthLeft ≤ p.buf.length) :
    ∃ t1, effectsService t = .ok t1 ∧ t1.SoundMode = .sdm_PC ∧
      t1.pcSound = some ⟨p.buf, p.pos + 1⟩ ∧ t1.pcLengthLeft = t.pcLengthLeft - 1 ∧
      t1.SoundPriority = t.SoundPriority ∧ t1.SoundNumber = t.SoundNumber ∧ BeepOK t1 := by
  obtain ⟨s3, a, b, c, d, e, hr, hs3, hbe⟩ := SDL_PCService_step t p hp hb (by omega) hs
  have hlen : s3.pcLengthLeft = t.pcLengthLeft := by rw [hs3]
  rw [pcCountDown_more s3 (by omega) (by omega)] at hr
  refine ⟨_, by simp only [effectsService, hm]; exact hr, ?_, ?_, ?_, ?_, ?_, ?_⟩
  · rw [hs3]; exact hm
  · rw [hs3]
  · rw [hs3]
  · rw [hs3]
  · rw [hs3]
  · rw [hs3]; exact ⟨hb.1, hb.2.1, hb.2.2.1, hbe⟩

theorem pc_step_last (t : State) (p : BytePtr) (hm : t.SoundMode = .sdm_PC)
    (hp : t.pcSound = some p) (hb : BeepOK t) (hs : ∀ b ∈ p.buf, b < 255)
    (h1 : t.pcLengthLeft = 1) (hfit : p.pos + t.pcLengthLeft ≤ p.buf.length) :
    ∃ t1, effectsService t = .ok t1 ∧ t1.SoundMode = .sdm_PC ∧
      t1.pcSound = none ∧ t1.SoundPriority = 0 ∧ t1.SoundNumber = 0 := by
  obtain ⟨s3, a, b, c, d, e, hr, hs3, _⟩ := SDL_PCService_step t p hp hb (by omega) hs
  have hlen : s3.pcLengthLeft = 1 := by rw [hs3]; exact h1
  rw [pcCountDown_last s3 hlen] at hr
  refine ⟨_, by simp only [effectsService, hm]; exact hr, ?_, rfl, rfl, rfl⟩
  rw [hs3]; exact hm

theorem pc_run (k : Nat) : ∀ (t : State) (p : BytePtr), t.SoundMode = .sdm_PC →
    t.pcSound = some p → BeepOK t → (∀ b ∈ p.buf, b < 255) → k < t.pcLengthLeft →
    t.pcLengthLeft < 4294967296 → p.pos + t.pcLengthLeft ≤ p.buf.length →
    ∃ tk, runService effectsService k t = .ok tk ∧ tk.SoundMode = .sdm_PC ∧
      tk.pcSound = some ⟨p.buf, p.pos + k⟩ ∧ tk.pcLengthLeft = t.pcLengthLeft - k ∧
      tk.SoundPriority = t.SoundPriority ∧ tk.SoundNumber = t.SoundNumber ∧ BeepOK tk := by
  induction k with
  | zero =>
    intro t p hm hp hb _ _ _ _
    exact ⟨t, rfl, hm, by simpa using hp, rfl, rfl, rfl, hb⟩
  | succ k ih =>
    intro t p hm hp hb hs hk hlt hfit
    obtain ⟨t1, g1, g2, g3, g4, g5, g6, g7⟩ := pc_step_more t p hm hp hb hs (by omega) hlt hfit
    obtain ⟨tk, h1, h2, h3, h4, h5, h6, h7⟩ :=
      ih t1 ⟨p.buf, p.pos + 1⟩ g2 g3 g7 hs (by omega) (by omega)
        (by show p.pos + 1 + t1.pcLengthLeft ≤ p.buf.length; omega)
    refine ⟨tk, ?_, h2, ?_, ?_, ?_, ?_, h7⟩
    · rw [runService, g1]
      exact h1
    · rw [h3]
      simp only [BytePtr.mk.injEq, Option.some.injEq, true_and]
      omega
    · omega
    · rw [h5, g5]
    · rw [h6, g6]

theorem pc_run_end (t : State) (p : BytePtr) (hm : t.SoundMode = .sdm_PC)
    (hp : t.pcSound = some p) (hb : BeepOK t) (hs : ∀ b ∈ p.buf, b < 255)
    (h1 : 1 ≤ t.pcLengthLeft) (hlt : t.pcLengthLeft < 4294967296)
    (hfit : p.pos + t.pcLengthLeft ≤ p.buf.length) :
    ∃ tL, runService effectsService t.pcLengthLeft t = .ok tL ∧ tL.SoundMode = .sdm_PC ∧
      tL.pcSound = none ∧ tL.SoundPriority = 0 ∧ tL.SoundNumber = 0 := by
  obtain ⟨tk, r1, r2, r3, r4, _, _, r7⟩ :=
    pc_run (t.pcLengthLeft - 1) t p hm hp hb hs (by omega) hlt hfit
  obtain ⟨tL, g1, g2, g3, g4, g5⟩ :=
    pc_step_last tk _ r2 r3 r7 hs (by omega)
      (by show p.pos + (t.pcLengthLeft - 1) + tk.pcLengthLeft ≤ p.buf.length; omega)
  refine ⟨tL, ?_, g2, g3, g4, g5⟩
  have e : t.pcLengthLeft = (t.pcLengthLeft - 1) + 1 := by omega
  rw [e, runService_succ_last]
  have e2 : t.pcLengthLeft - 1 + 1 - 1 = t.pcLengthLeft - 1 := by omega
  simp only [e2, r1]
  exact g1

theorem al_step_more (t : State) (p : BytePtr) (hm : t.SoundMode = .sdm_AdLib)
    (hp : t.alSound = some p)
    (h2 : 2 ≤ t.alLengthLeft) (hlt : t.alLengthLeft < 4294967296)
    (hfit : p.pos + t.alLengthLeft ≤ p.buf.length) :
    ∃ t1, effectsService t = .ok t1 ∧ t1.SoundMode = .sdm_AdLib ∧
      t1.alSound = some ⟨p.buf, p.pos + 1⟩ ∧ t1.alLengthLeft = t.alLengthLeft - 1 ∧
      t1.SoundPriority = t.SoundPriority ∧ t1.SoundNumber = t.SoundNumber := by
  simp only [effectsService, hm]
  rw [SDL_ALSoundService_more t p hp (by omega) h2 hlt]
  exact ⟨_, rfl, hm, rfl, rfl, rfl, rfl⟩

theorem al_step_last (t : State) (p : BytePtr) (hm : t.SoundMode = .sdm_AdLib)
    (hp : t.alSound = some p)
    (h1 : t.alLengthLeft = 1) (hfit : p.pos + t.alLengthLeft ≤ p.buf.length) :
    ∃ t1, effectsService t = .ok t1 ∧ t1.SoundMode = .sdm_AdLib ∧
      t1.alSound = none ∧ t1.SoundPriority = 0 ∧ t1.SoundNumber = 0 := by
  simp only [effectsService, hm]
  rw [SDL_ALSoundService_last t p hp (by omega) h1]
  exact ⟨_, rfl, hm, rfl, rfl, rfl⟩

theorem al_run (k : Nat) : ∀ (t : State) (p : BytePtr), t.SoundMode = .sdm_AdLib →
    t.alSound = some p → k < t.alLengthLeft →
    t.alLengthLeft < 4294967296 → p.pos + t.alLengthLeft ≤ p.buf.length →
    ∃ tk, runService effectsService k t = .ok tk ∧ tk.SoundMode = .sdm_AdLib ∧
      tk.alSound = some ⟨p.buf, p.pos + k⟩ ∧ tk.alLengthLeft = t.alLengthLeft - k ∧
      tk.SoundPriority = t.SoundPriority ∧ tk.SoundNumber = t.SoundNumber := by
  induction k with
  | zero =>
    intro t p hm hp _ _ _
    exact ⟨t, rfl, hm, by simpa using hp, rfl, rfl, rfl⟩
  | succ k ih =>
    intro t p hm hp hk hlt hfit
    obtain ⟨t1, g1, g2, g3, g4, g5, g6⟩ := al_step_more t p hm hp (by omega) hlt hfit
    obtain ⟨tk, h1, h2, h3, h4, h5, h6⟩ :=
      ih t1 ⟨p.buf, p.pos + 1⟩ g2 g3 (by omega) (by omega)
        (by show p.pos + 1 + t1.alLengthLeft ≤ p.buf.length; omega)
    refine ⟨tk, ?_, h2, ?_, ?_, ?_, ?_⟩
    · rw [runService, g1]
      exact h1
    · rw [h3]
      simp only [BytePtr.mk.injEq, Option.some.injEq, true_and]
      omega
    · omega
    · rw [h5, g5]
    · rw [h6, g6]

theorem al_run_end (t : State) (p : BytePtr) (hm : t.SoundMode = .sdm_AdLib)
    (hp : t.alSound = some p)
    (h1 : 1 ≤ t.alLengthLeft) (hlt : t.alLengthLeft < 4294967296)
    (hfit : p.pos + t.alLengthLeft ≤ p.buf.length) :
    ∃ tL, runService effectsService t.alLengthLeft t = .ok tL ∧ tL.SoundMode = .sdm_AdLib ∧
      tL.alSound = none ∧ tL.SoundPriority = 0 ∧ tL.SoundNumber = 0 := by
  obtain ⟨tk, r1, r2, r3, r4, _, _⟩ :=
    al_run (t.alLengthLeft - 1) t p hm hp (by omega) hlt hfit
  obtain ⟨tL, g1, g2, g3, g4, g5⟩ :=
    al_step_last tk _ r2 r3 (by omega)
      (by show p.pos + (t.alLengthLeft - 1) + tk.alLengthLeft ≤ p.buf.length; omega)
  refine ⟨tL, ?_, g2, g3, g4, g5⟩
  have e : t.alLengthLeft = (t.alLengthLeft - 1) + 1 := by omega
  rw [e, runService_succ_last]
  have e2 : t.alLengthLeft - 1 + 1 - 1 = t.alLengthLeft - 1 := by omega
  simp only [e2, r1]
  exact g1

theorem SD_PlaySound_accept_PC_facts (s : State) (sound : Nat) (e : SoundEntry)
    (hm : s.SoundMode = .sdm_PC)
    (he : s.SoundTable[sound]? = some e) (hl : e.addr ≠ 0) (hn : playLength e ≠ 0)
    (hp : s.SoundPriority ≤ e.priority) :
    ∃ s1, SD_PlaySound s sound = .ok s1 ∧ s1.SoundMode = .sdm_PC ∧
      s1.pcSound = some ⟨e.data, 0⟩ ∧ s1.pcLengthLeft = e.length ∧
      s1.SoundPriority = e.priority ∧ s1.SoundNumber = sound ∧ (BeepOK s → BeepOK s1) := by
  refine ⟨_, SD_PlaySound_accept_PC s sound e hm he hl hn hp, ?_, ?_, ?_, rfl, rfl, ?_⟩
  · simp [SDL_PCPlaySound, SDL_PCPlaySound_Low, unlockIfUp_eq, lockIfUp_eq, hm]
  · simp [SDL_PCPlaySound, SDL_PCPlaySound_Low, unlockIfUp_eq, lockIfUp_eq]
  · simp [SDL_PCPlaySound, SDL_PCPlaySound_Low, unlockIfUp_eq, lockIfUp_eq]
  · intro hb
    simpa [BeepOK, SDL_PCPlaySound, SDL_PCPlaySound_Low, unlockIfUp_eq, lockIfUp_eq] using hb

theorem SD_PlaySound_accept_AL_facts (s : State) (sound : Nat) (e : SoundEntry)
    (hm : s.SoundMode = .sdm_AdLib)
    (he : s.SoundTable[sound]? = some e) (hl : e.addr ≠ 0) (hn : playLength e ≠ 0)
    (hi : (e.inst.mSus ||| e.inst.cSus) ≠ 0)
    (hp : s.SoundPriority ≤ e.priority) :
    ∃ s1, SD_PlaySound s sound = .ok s1 ∧ s1.SoundMode = .sdm_AdLib ∧
      s1.alSound = some ⟨e.data, 0⟩ ∧ s1.alLengthLeft = e.length ∧
      s1.SoundPriority = e.priority ∧ s1.SoundNumber = sound := by
  refine ⟨_, SD_PlaySound_accept_AL s sound e hm he hl hn hi hp, ?_, ?_, ?_, rfl, rfl⟩
  · simp [unlockIfUp_eq, lockIfUp_eq, SDL_AlSetFXInst, SDL_ALStopSound_Low, alOut, emit, hm]
  · simp [unlockIfUp_eq, lockIfUp_eq, SDL_AlSetFXInst, SDL_ALStopSound_Low, alOut, emit]
  · simp [unlockIfUp_eq, lockIfUp_eq, SDL_AlSetFXInst, SDL_ALStopSound_Low, alOut, emit]

theorem play_then_run (s : State) (sound : Nat) (e : SoundEntry)
    (hmode : s.SoundMode ≠ .sdm_Off)
    (he : s.SoundTable[sound]? = some e)
    (hplay : Playable s.SoundMode e)
    (hp : s.SoundPriority ≤ e.priority)
    (hL1 : 1 ≤ e.length) (hL2 : e.length ≤ e.data.length) (hL3 : e.length < 4294967296)
    (hpc : s.SoundMode = .sdm_PC → BeepOK s ∧ ∀ b ∈ e.data, b < 255) :
    ∃ s1, SD_PlaySound s sound = .ok s1 ∧
      (∀ k, k < e.length → ∃ sk, runService effectsService k s1 = .ok sk ∧
        sk.SoundMode = s.SoundMode ∧
        effectCursor sk = some ⟨e.data, k⟩ ∧ effectLengthLeft sk = e.length - k ∧
        sk.SoundPriority = e.priority ∧ sk.SoundNumber = sound) ∧
      (∃ sL, runService effectsService e.length s1 = .ok sL ∧
        sL.SoundMode = s.SoundMode ∧
        effectCursor sL = none ∧ sL.SoundPriority = 0 ∧ sL.SoundNumber = 0) := by
  obtain ⟨hl, hn, hi⟩ := hplay
  cases hm : s.SoundMode with
  | sdm_Off => exact absurd hm hmode
  | sdm_PC =>
    obtain ⟨hb, hs⟩ := hpc hm
    obtain ⟨s1, hrun, f1, f2, f3, f4, f5, f6⟩ :=
      SD_PlaySound_accept_PC_facts s sound e hm he hl hn hp
    refine ⟨s1, hrun, ?_, ?_⟩
    · intro k hk
      obtain ⟨tk, r1, r2, r3, r4, r5, r6, _⟩ :=
        pc_run k s1 ⟨e.data, 0⟩ f1 f2 (f6 hb) hs (by omega) (by omega)
          (by show 0 + s1.pcLengthLeft ≤ e.data.length; omega)
      refine ⟨tk, r1, r2, ?_, ?_, r5.trans f4, r6.trans f5⟩
      · simp only [effectCursor, r2, r3, Nat.zero_add]
      · simp only [effectLengthLeft, r2, r4, f3]
    · obtain ⟨tL, r1, r2, r3, r4, r5⟩ :=
        pc_run_end s1 ⟨e.data, 0⟩ f1 f2 (f6 hb) hs (by omega) (by omega)
          (by show 0 + s1.pcLengthLeft ≤ e.data.length; omega)
      rw [f3] at r1
      exact ⟨tL, r1, r2, by simp only [effectCursor, r2, r3], r4, r5⟩
  | sdm_AdLib =>
    obtain ⟨s1, hrun, f1, f2, f3, f4, f5⟩ :=
      SD_PlaySound_accept_AL_facts s sound e hm he hl hn (hi hm) hp
    refine ⟨s1, hrun, ?_, ?_⟩
    · intro k hk
      obtain ⟨tk, r1, r2, r3, r4, r5, r6⟩ :=
        al_run k s1 ⟨e.data, 0⟩ f1 f2 (by omega) (by omega)
          (by show 0 + s1.alLengthLeft ≤ e.data.length; omega)
      refine ⟨tk, r1, r2, ?_, ?_, r5.trans f4, r6.trans f5⟩
      · simp only [effectCursor, r2, r3, Nat.zero_add]
      · simp only [effectLengthLeft, r2, r4, f3]
    · obtain ⟨tL, r1, r2, r3, r4, r5⟩ :=
        al_run_end s1 ⟨e.data, 0⟩ f1 f2 (by omega) (by omega)
          (by show 0 + s1.alLengthLeft ≤ e.data.length; omega)
      rw [f3] at r1
      exact ⟨tL, r1, r2, by simp only [effectCursor, r2, r3], r4, r5⟩

theorem SD_SoundPlaying_of_cursor_none (s : State) (h : effectCursor s = none) :
    SD_SoundPlaying s = 0 := by
  unfold effectCursor at h
  unfold SD_SoundPlaying
  cases hm : s.SoundMode <;> simp [hm] at h ⊢ <;> simp [h]

theorem SD_SoundPlaying_of_cursor_some (s : State) (p : BytePtr) (h : effectCursor s = some p) :
    SD_SoundPlaying s = s.SoundNumber % 65536 := by
  unfold effectCursor at h
  unfold SD_SoundPlaying
  cases hm : s.SoundMode <;> simp [hm] at h ⊢ <;> simp [h]

/-- C5: an effect of header length `L ≥ 1` that `SD_PlaySound` has just
accepted, served by the routine of its device (`SDL_PCService` on the tone
device, `SDL_ALSoundService` on FM, which is what `effectsService` calls), no
other request in between.  The data hold the `L` samples of the header and, on
the tone device, the period table is set up and every sample is an index of it.
After `k < L` service calls the effect is still active, the remaining length is
`L - k` and `SoundPriority` is the priority of the effect; after `L` calls the
cursor is cleared, `SD_SoundPlaying` returns 0 and `SoundPriority` is 0. -/
theorem effect_lasts_header_length (s : State) (sound : Nat) (e : SoundEntry)
    (hmode : s.SoundMode ≠ .sdm_Off)
    (he : s.SoundTable[sound]? = some e)
    (hplay : Playable s.SoundMode e)
    (hp : s.SoundPriority ≤ e.priority)
    (hL1 : 1 ≤ e.length) (hL2 : e.length ≤ e.data.length) (hL3 : e.length < 4294967296)
    (hpc : s.SoundMode = .sdm_PC → BeepOK s ∧ ∀ b ∈ e.data, b < 255) :
    ∃ s1, SD_PlaySound s sound = .ok s1 ∧
      (∀ k, k < e.length → ∃ sk, runService effectsService k s1 = .ok sk ∧
        (effectCursor sk).isSome = true ∧ effectLengthLeft sk = e.length - k ∧
        sk.SoundPriority = s1.SoundPriority ∧ sk.SoundPriority = e.priority) ∧
      (∃ sL, runService effectsService e.length s1 = .ok sL ∧
        effectCursor sL = none ∧ SD_SoundPlaying sL = 0 ∧ sL.SoundPriority = 0) := by
  obtain ⟨s1, h1, hrun, sL, hL, _, hc, hpz, _⟩ :=
    play_then_run s sound e hmode he hplay hp hL1 hL2 hL3 hpc
  refine ⟨s1, h1, fun k hk => ?_, sL, hL, hc, SD_SoundPlaying_of_cursor_none sL hc, hpz⟩
  obtain ⟨sk, r1, _, r3, r4, r5, _⟩ := hrun k hk
  obtain ⟨s0, q1, _, _, _, q5, _⟩ := hrun 0 (by omega)
  simp only [runService, Except.ok.injEq] at q1
  subst q1
  exact ⟨sk, r1, by rw [r3]; rfl, r4, r5.trans q5.symm, r5⟩

/-- Witness of C5: effect 0 of the sample table (length 4) on the tone device
is over after four calls of the service routine. -/
theorem effect_lasts_header_length_witness :
    ∃ s1, SD_PlaySound demoPC 0 = .ok s1 ∧
      ∃ sL, runService effectsService 4 s1 = .ok sL ∧
        effectCursor sL = none ∧ SD_SoundPlaying sL = 0 ∧ sL.SoundPriority = 0 := by
  obtain ⟨s1, h1, _, h3⟩ :=
    effect_lasts_header_length demoPC 0 ⟨0x1000, 4, 5, demoInst, 3, [10, 10, 0, 20]⟩
      (by decide) rfl (by decide) (by decide) (by decide) (by decide) (by decide)
      (fun _ => ⟨⟨rfl, by decide, by decide, by decide⟩, by decide⟩)
  exact ⟨s1, h1, h3⟩

/-- Counterexample to C6: effect 0 of the sample table is accepted and active on
the tone device, and `SD_SoundPlaying` returns 0, the value it returns after
`SD_StopSound`, when nothing plays. -/
theorem SD_SoundPlaying_id0_is_none :
    ∃ s1, SD_PlaySound demoPC 0 = .ok s1 ∧ s1.SoundNumber = 0 ∧
      effectCursor s1 = some ⟨[10, 10, 0, 20], 0⟩ ∧
      SD_SoundPlaying s1 = 0 ∧ SD_SoundPlaying (SD_StopSound s1) = 0 := by
  refine ⟨_, rfl, ?_, ?_, ?_, ?_⟩ <;> decide

/-- C6, amended: for an effect id `n` (a 16-bit value) that `SD_PlaySound`
accepts, `SD_SoundPlaying` returns `n` after every `k < L` service calls, that is
for as long as the effect is active; the value differs from the one returned
when nothing plays exactly when `n` is not 0. -/
theorem SD_SoundPlaying_while_active (s : State) (sound : Nat) (e : SoundEntry)
    (hid : sound < 65536)
    (hmode : s.SoundMode ≠ .sdm_Off)
    (he : s.SoundTable[sound]? = some e)
    (hplay : Playable s.SoundMode e)
    (hp : s.SoundPriority ≤ e.priority)
    (hL1 : 1 ≤ e.length) (hL2 : e.length ≤ e.data.length) (hL3 : e.length < 4294967296)
    (hpc : s.SoundMode = .sdm_PC → BeepOK s ∧ ∀ b ∈ e.data, b < 255) :
    ∃ s1, SD_PlaySound s sound = .ok s1 ∧
      ∀ k, k < e.length → ∃ sk, runService effectsService k s1 = .ok sk ∧
        SD_SoundPlaying sk = sound ∧
        (SD_SoundPlaying sk ≠ SD_SoundPlaying (SD_StopSound sk) ↔ sound ≠ 0) := by
  obtain ⟨s1, h1, hrun, _⟩ := play_then_run s sound e hmode he hplay hp hL1 hL2 hL3 hpc
  refine ⟨s1, h1, fun k hk => ?_⟩
  obtain ⟨sk, r1, _, r3, _, _, r6⟩ := hrun k hk
  have hv : SD_SoundPlaying sk = sound := by
    rw [SD_SoundPlaying_of_cursor_some sk _ r3, r6]
    omega
  refine ⟨sk, r1, hv, ?_⟩
  rw [hv, (SD_StopSound_then_not_playing_aux sk)]

/-- Witness of C6, amended: effect 2 of the sample table on the FM device. -/
theorem SD_SoundPlaying_while_active_witness :
    ∃ s1, SD_PlaySound demoAL 2 = .ok s1 ∧
      ∃ sk, runService effectsService 1 s1 = .ok sk ∧ SD_SoundPlaying sk = 2 := by
  obtain ⟨s1, h1, h2⟩ :=
    SD_SoundPlaying_while_active demoAL 2 ⟨0x3000, 3, 5, demoInst, 1, [1, 2, 3]⟩
      (by decide) (by decide) rfl (by decide) (by decide) (by decide) (by decide) (by decide)
      (fun h => absurd h (by decide))
  obtain ⟨sk, h3, h4, _⟩ := h2 1 (by decide)
  exact ⟨s1, h1, sk, h3, h4⟩

/-! ## The audio callback -/

theorem chunksOf_append (a b : List Event) : chunksOf (a ++ b) = chunksOf a ++ chunksOf b := by
  induction a with
  | nil => rfl
  | cons e a ih =>
    cases e <;> simp [chunksOf, ih]

theorem chunksOf_calls (evs : List Event) : chunksOf (calls evs) = chunksOf evs := by
  induction evs with
  | nil => rfl
  | cons e evs ih =>
    cases e <;> simp [calls, chunksOf, Event.minor] <;> exact ih

theorem chunksOf_t0Calls (music : SMMode) (mode : SDMode) (c : Nat) :
    chunksOf (t0Calls music mode c) = [] := by
  unfold t0Calls
  cases music <;> cases mode <;> simp [effectsCall, chunksOf] <;> split <;> rfl

theorem BeepStep_of_update (s s1 : State) (c : Nat) (b : Int)
    (h : BeepStep { s with SD_SDL_BeepHalfCycleCounter := c, SD_SDL_CurrentBeepSample := b } s1) :
    BeepStep s s1 := h

theorem PCSpeakerSteps_ok (n : Nat) : ∀ s : State,
    0 < s.SD_SDL_BeepHalfCycleCounterUpperBound →
    ∃ s1, PCSpeakerSteps n s = .ok s1 ∧ BeepStep s s1 := by
  induction n with
  | zero =>
    intro s _
    refine ⟨s, rfl, ?_⟩
    cases s
    rfl
  | succ n ih =>
    intro s hb
    have hb0 : s.SD_SDL_BeepHalfCycleCounterUpperBound ≠ 0 := by omega
    by_cases hc : s.SD_SDL_BeepHalfCycleCounterUpperBound ≤
        (s.SD_SDL_BeepHalfCycleCounter + 2 * PC_PIT_RATE) % 4294967296
    · obtain ⟨s1, r1, r2⟩ :=
        ih { s with
             SD_SDL_BeepHalfCycleCounter :=
               (s.SD_SDL_BeepHalfCycleCounter + 2 * PC_PIT_RATE) % 4294967296 %
                 s.SD_SDL_BeepHalfCycleCounterUpperBound
             SD_SDL_CurrentBeepSample := toInt16 (8191 - s.SD_SDL_CurrentBeepSample) } hb
      refine ⟨s1, ?_, BeepStep_of_update s s1 _ _ r2⟩
      rw [PCSpeakerSteps]
      simp only [PCSpeakerStep, if_pos hc, if_neg hb0]
      exact r1
    · obtain ⟨s1, r1, r2⟩ :=
        ih { s with
             SD_SDL_BeepHalfCycleCounter :=
               (s.SD_SDL_BeepHalfCycleCounter + 2 * PC_PIT_RATE) % 4294967296 } hb
      refine ⟨s1, ?_, BeepStep_of_update s s1 _ s.SD_SDL_CurrentBeepSample r2⟩
      rw [PCSpeakerSteps]
      simp only [PCSpeakerStep, if_neg hc]
      exact r1

theorem BeepStep_frame {s s1 : State} (h : BeepStep s s1) :
    (WF s → WF s1) ∧ SameSetup s s1 ∧ s1.trace = s.trace := by
  unfold BeepStep at h
  rw [h]
  exact ⟨fun x => x, ⟨rfl, rfl, rfl, rfl⟩, rfl⟩

theorem generate_ok (s : State) (pos n : Nat) (h : WF s) (hn : n ≤ 512) :
    ∃ s1 evs, generate s pos n = .ok s1 ∧ WF s1 ∧ SameSetup s s1 ∧
      s1.trace = s.trace ++ evs ∧ chunksOf evs = [(pos, n)] := by
  unfold generate YM3812UpdateOne
  have hn2 : ¬ n > 512 := by omega
  simp only [if_neg hn2]
  by_cases hon : s.SD_PC_Speaker_On = true
  · have hon2 : (emit s (.oplUpdate pos n)).SD_PC_Speaker_On = true := hon
    rw [if_pos hon2]
    obtain ⟨s1, r1, r2⟩ :=
      PCSpeakerSteps_ok n (emit (emit s (.oplUpdate pos n)) (.pcUpdate pos n)) (h.2.2.1.2.2.2 hon)
    obtain ⟨f1, f2, f3⟩ := BeepStep_frame r2
    exact ⟨s1, [.oplUpdate pos n, .pcUpdate pos n], r1, f1 h, f2,
      by rw [f3]; simp [emit], rfl⟩
  · have hon2 : ¬ (emit s (.oplUpdate pos n)).SD_PC_Speaker_On = true := hon
    rw [if_neg hon2]
    exact ⟨_, [.oplUpdate pos n], rfl, h, SameSetup_refl _, rfl, rfl⟩

theorem endOfPart_full (s2 : State) :
    endOfPart { s2 with SD_SDL_SampleOffsetInSound := s2.SD_SDL_SamplesPerPart } =
      { s2 with SD_SDL_SampleOffsetInSound := 0 } := by
  simp [endOfPart]

theorem endOfPart_short (s2 : State)
    (h : s2.SD_SDL_SampleOffsetInSound < s2.SD_SDL_SamplesPerPart)
    (h2 : s2.SD_SDL_SampleOffsetInSound < 4294967296) :
    endOfPart { s2 with
      SD_SDL_SampleOffsetInSound := (s2.SD_SDL_SampleOffsetInSound + 0 / 2) % 4294967296 } = s2 := by
  have e : (s2.SD_SDL_SampleOffsetInSound + 0 / 2) % 4294967296 = s2.SD_SDL_SampleOffsetInSound := by
    omega
  rw [e]
  unfold endOfPart
  rw [if_neg (by show ¬ s2.SD_SDL_SamplesPerPart ≤ s2.SD_SDL_SampleOffsetInSound; omega)]

theorem WF_offset (s : State) (o : Nat) (h : WF s) :
    WF { s with SD_SDL_SampleOffsetInSound := o } := h

theorem loop_zero_len (fuel : Nat) (s : State) (pos : Nat) :
    SD_SDL_CallBack_loop fuel s 0 pos = .ok s := by
  cases fuel <;> simp [SD_SDL_CallBack_loop]

theorem tick_ok (s : State) (h : WF s) :
    ∃ s1 evs, (if s.SD_SDL_SampleOffsetInSound = 0 then SDL_t0Service s else .ok s) = .ok s1 ∧
      WF s1 ∧ SameSetup s s1 ∧ s1.trace = s.trace ++ evs ∧ chunksOf evs = [] := by
  by_cases h0 : s.SD_SDL_SampleOffsetInSound = 0
  · rw [if_pos h0]
    obtain ⟨s1, r1, r2, r3, _, evs, r5, r6⟩ := SDL_t0Service_ok s h
    refine ⟨s1, evs, r1, r2, r3, r5, ?_⟩
    rw [← chunksOf_calls, r6, chunksOf_t0Calls]
  · rw [if_neg h0]
    exact ⟨s, [], rfl, h, SameSetup_refl s, by simp, rfl⟩

theorem callback_loop_ok (fuel : Nat) : ∀ (s : State) (len pos : Nat), WF s →
    1 ≤ s.SD_SDL_SamplesPerPart → s.SD_SDL_SamplesPerPart ≤ 512 →
    s.SD_SDL_SampleOffsetInSound ≤ s.SD_SDL_SamplesPerPart →
    len + (if s.SD_SDL_SampleOffsetInSound = s.SD_SDL_SamplesPerPart then 1 else 0) ≤ fuel →
    ∃ s1 evs, SD_SDL_CallBack_loop fuel s len pos = .ok s1 ∧ WF s1 ∧
      s1.SD_SDL_SamplesPerPart = s.SD_SDL_SamplesPerPart ∧
      (s1.SD_SDL_SampleOffsetInSound = 0 ∨
        s1.SD_SDL_SampleOffsetInSound = s.SD_SDL_SampleOffsetInSound) ∧
      s1.trace = s.trace ++ evs ∧
      ChunksOK s.SD_SDL_SamplesPerPart s.SD_SDL_SampleOffsetInSound (len / 2) pos
        (chunksOf evs) ∧
      ((chunksOf evs).map Prod.snd).sum = len / 2 := by
  induction fuel with
  | zero =>
    intro s len pos h _ _ _ hf
    have hl : len = 0 := by omega
    subst hl
    exact ⟨s, [], loop_zero_len 0 s pos, h, rfl, Or.inr rfl, by simp, rfl, rfl⟩
  | succ fuel ih =>
    intro s len pos h hS1 hS2 hoff hf
    by_cases hl : len = 0
    · subst hl
      exact ⟨s, [], loop_zero_len _ s pos, h, rfl, Or.inr rfl, by simp, rfl, rfl⟩
    · obtain ⟨s1, evs0, t1, t2, t3, t4, t5⟩ := tick_ok s h
      have hspp : s1.SD_SDL_SamplesPerPart = s.SD_SDL_SamplesPerPart := t3.2.2.1
      have hofs : s1.SD_SDL_SampleOffsetInSound = s.SD_SDL_SampleOffsetInSound := t3.2.2.2
      have hd : (s1.SD_SDL_SamplesPerPart + 4294967296 -
          s1.SD_SDL_SampleOffsetInSound % 4294967296) % 4294967296 =
          s.SD_SDL_SamplesPerPart - s.SD_SDL_SampleOffsetInSound := by
        rw [hspp, hofs]
        omega
      rw [SD_SDL_CallBack_loop, if_neg hl, t1]
      simp only [hd]
      have h2d : 2 * (s.SD_SDL_SamplesPerPart - s.SD_SDL_SampleOffsetInSound) % 4294967296 =
          2 * (s.SD_SDL_SamplesPerPart - s.SD_SDL_SampleOffsetInSound) := by omega
      rw [h2d]
      by_cases hb : 2 * (s.SD_SDL_SamplesPerPart - s.SD_SDL_SampleOffsetInSound) ≤ len
      · rw [if_pos hb]
        rw [if_neg (by omega)]
        obtain ⟨s2, evs1, g1, g2, g3, g4, g5⟩ :=
          generate_ok s1 pos (s.SD_SDL_SamplesPerPart - s.SD_SDL_SampleOffsetInSound) t2
            (by omega)
        rw [g1]
        simp only [endOfPart_full]
        have hspp2 : s2.SD_SDL_SamplesPerPart = s.SD_SDL_SamplesPerPart := g3.2.2.1.trans hspp
        obtain ⟨s3, evs2, r1, r2, r3, r4, r5, r6, r7⟩ :=
          ih { s2 with SD_SDL_SampleOffsetInSound := 0 }
            (len - 2 * (s.SD_SDL_SamplesPerPart - s.SD_SDL_SampleOffsetInSound))
            (pos + (s.SD_SDL_SamplesPerPart - s.SD_SDL_SampleOffsetInSound))
            (WF_offset s2 0 g2)
            (by show 1 ≤ s2.SD_SDL_SamplesPerPart; omega)
            (by show s2.SD_SDL_SamplesPerPart ≤ 512; omega)
            (by show 0 ≤ s2.SD_SDL_SamplesPerPart; omega)
            (by
              have e : (0 : Nat) ≠ s2.SD_SDL_SamplesPerPart := by omega
              show _ + (if (0 : Nat) = s2.SD_SDL_SamplesPerPart then 1 else 0) ≤ fuel
              rw [if_neg e]
              split at hf <;> omega)
        refine ⟨s3, evs0 ++ evs1 ++ evs2, r1, r2, r3.trans hspp2, ?_, ?_, ?_, ?_⟩
        · rcases r4 with r4 | r4
          · exact Or.inl r4
          · exact Or.inl r4
        · rw [r5]
          show s2.trace ++ evs2 = _
          rw [g4, t4, List.append_assoc, List.append_assoc, List.append_assoc]
        · rw [chunksOf_append, chunksOf_append, t5, g5]
          simp only [List.nil_append, List.singleton_append, ChunksOK]
          refine ⟨trivial, by omega, ?_⟩
          have e1 : (s.SD_SDL_SampleOffsetInSound +
              (s.SD_SDL_SamplesPerPart - s.SD_SDL_SampleOffsetInSound)) %
              s.SD_SDL_SamplesPerPart = 0 := by
            have : s.SD_SDL_SampleOffsetInSound +
              (s.SD_SDL_SamplesPerPart - s.SD_SDL_SampleOffsetInSound) =
                s.SD_SDL_SamplesPerPart := by omega
            rw [this, Nat.mod_self]
          have e2 : len / 2 - (s.SD_SDL_SamplesPerPart - s.SD_SDL_SampleOffsetInSound) =
              (len - 2 * (s.SD_SDL_SamplesPerPart - s.SD_SDL_SampleOffsetInSound)) / 2 := by
            omega
          rw [e1, e2]
          have r6b := r6
          simp only [hspp2] at r6b
          exact r6b
        · rw [chunksOf_append, chunksOf_append, t5, g5]
          simp only [List.nil_append, List.singleton_append, List.map_cons, List.sum_cons]
          rw [r7]
          omega
      · rw [if_neg hb]
        obtain ⟨s2, evs1, g1, g2, g3, g4, g5⟩ := generate_ok s1 pos (len / 2) t2 (by omega)
        rw [g1]
        simp only []
        have hspp2 : s2.SD_SDL_SamplesPerPart = s.SD_SDL_SamplesPerPart := g3.2.2.1.trans hspp
        have hofs2 : s2.SD_SDL_SampleOffsetInSound = s.SD_SDL_SampleOffsetInSound :=
          g3.2.2.2.trans hofs
        rw [endOfPart_short s2 (by omega) (by omega), loop_zero_len]
        refine ⟨s2, evs0 ++ evs1, rfl, g2, hspp2, Or.inr hofs2, ?_, ?_, ?_⟩
        · rw [g4, t4, List.append_assoc]
        · rw [chunksOf_append, t5, g5]
          simp only [List.nil_append, ChunksOK]
          exact ⟨trivial, by omega, by omega⟩
        · rw [chunksOf_append, t5, g5]
          simp

/-- C10: from a well-formed state with a part size `S` between 1 and 512 and
the sample offset at most `S`, `SD_SDL_CallBack` returns for every byte count
`len` (a non-negative `int`).  The requests it makes to the FM chip, in order,
are chunks at consecutive positions of the output buffer, starting at 0; each
has the length `min (samples still requested) (S - sample offset in part)`;
together they make `len / 2` samples, whether or not `len` is a multiple of the
part size. -/
theorem SD_SDL_CallBack_chunks (s : State) (len : Nat) (h : WF s)
    (hS1 : 1 ≤ s.SD_SDL_SamplesPerPart) (hS2 : s.SD_SDL_SamplesPerPart ≤ 512)
    (hoff : s.SD_SDL_SampleOffsetInSound ≤ s.SD_SDL_SamplesPerPart)
    (_hlen : len < 2147483648) :
    ∃ s1 evs, SD_SDL_CallBack s len = .ok s1 ∧ s1.trace = s.trace ++ evs ∧
      ChunksOK s.SD_SDL_SamplesPerPart s.SD_SDL_SampleOffsetInSound (len / 2) 0
        (chunksOf evs) ∧
      ((chunksOf evs).map Prod.snd).sum = len / 2 := by
  obtain ⟨s1, evs, r1, _, _, _, r5, r6, r7⟩ :=
    callback_loop_ok (len + 2) s len 0 h hS1 hS2 hoff (by split <;> omega)
  exact ⟨s1, evs, r1, r5, r6, r7⟩

/-- Witness of C10: 500 bytes at the part size 88, which is 250 samples, two
parts and 74 samples of a third. -/
theorem SD_SDL_CallBack_chunks_witness :
    ∃ s1 evs, SD_SDL_CallBack demoMusic 500 = .ok s1 ∧ s1.trace = demoMusic.trace ++ evs ∧
      ChunksOK 88 0 250 0 (chunksOf evs) ∧ ((chunksOf evs).map Prod.snd).sum = 250 :=
  SD_SDL_CallBack_chunks demoMusic 500 demoMusic_WF (by decide) (by decide) (by decide)
    (by decide)

/-! ## Runs on sample states, and the remaining properties of the control surface -/

set_option maxRecDepth 100000

/-- C11, the code at the failing input: part size 88, sample offset 0, two
callbacks of 40 bytes (20 samples) each.  After the first callback the stored
offset is 0, not 20, and the second callback calls `SDL_t0Service` again: two
ticks for 40 samples, where one part (the ceiling of 40 / 88) is begun. -/
theorem SD_SDL_CallBack_offset_not_advanced :
    ∃ s1 s2, demoMusic.SD_SDL_SamplesPerPart = 88 ∧ demoMusic.SD_SDL_SampleOffsetInSound = 0 ∧
      SD_SDL_CallBack demoMusic 40 = .ok s1 ∧ chunksOf s1.trace = [(0, 20)] ∧
      s1.SD_SDL_SampleOffsetInSound = 0 ∧
      SD_SDL_CallBack s1 40 = .ok s2 ∧ chunksOf s2.trace = [(0, 20), (0, 20)] ∧
      s2.trace.count .callT0Service = 2 ∧ (20 + 20 + 88 - 1) / 88 = 1 := by
  refine ⟨_, _, rfl, rfl, rfl, ?_, ?_, rfl, ?_, ?_, ?_⟩ <;> decide

theorem writesOf_append (a b : List Event) : writesOf (a ++ b) = writesOf a ++ writesOf b := by
  induction a with
  | nil => rfl
  | cons e a ih => cases e <;> simp [writesOf, ih]

theorem regValue_append_twice (tr w : List Event) (r : Nat) :
    regValue ((tr ++ w) ++ w) r = regValue (tr ++ w) r := by
  unfold regValue
  simp only [writesOf_append, List.reverse_append, List.find?_append]
  cases List.find? (fun w => decide (w.1 = r)) (writesOf w).reverse <;> simp

theorem SD_MusicOff_eq (s : State) :
    SD_MusicOff s =
      { s with
        alFXReg := (if s.MusicMode = .smm_AdLib then 0 else s.alFXReg)
        sqActive := false
        trace := s.trace ++ musicOffWrites s.MusicMode } := by
  by_cases hm : s.MusicMode = .smm_AdLib
  · simp only [SD_MusicOff, hm, if_true, foldl_alOut_eq (fun i => alFreqH + i + 1), musicOffWrites]
    simp [alOut, emit]
  · simp [SD_MusicOff, hm, musicOffWrites]

/-- C14: from every state, the contents of every FM register after two calls
of `SD_MusicOff` in a row are those after one call, `sqActive` is false after
either, and apart from the trace the state after two calls is the state after
one call, the sequencer fields among them. -/
theorem SD_MusicOff_idempotent (s : State) :
    (∀ r, regValue (SD_MusicOff (SD_MusicOff s)).trace r = regValue (SD_MusicOff s).trace r) ∧
      (SD_MusicOff s).sqActive = false ∧ (SD_MusicOff (SD_MusicOff s)).sqActive = false ∧
      SD_MusicOff (SD_MusicOff s) =
        { SD_MusicOff s with trace := (SD_MusicOff (SD_MusicOff s)).trace } := by
  have h1 := SD_MusicOff_eq s
  have h2 := SD_MusicOff_eq (SD_MusicOff s)
  have hm : (SD_MusicOff s).MusicMode = s.MusicMode := (SD_MusicOff_keeps s).2.1
  rw [hm] at h2
  refine ⟨fun r => ?_, ?_, ?_, ?_⟩
  · rw [h2]
    show regValue ((SD_MusicOff s).trace ++ musicOffWrites s.MusicMode) r = _
    rw [h1]
    exact regValue_append_twice _ _ r
  · rw [h1]
  · rw [h2]
  · rw [h2]
    simp only []
    rw [h1]
    by_cases hmm : s.MusicMode = .smm_AdLib <;> simp [hmm]

/-- C15: on the tone or FM device, `SD_PlaySound` on a slot that holds a null
pointer ends in `Quit`, and the state in which `Quit` is called is the state
on entry: no playback field has changed and no register write is in the
trace. -/
theorem SD_PlaySound_uncached_quits (s : State) (sound : Nat) (e : SoundEntry)
    (hmode : s.SoundMode ≠ .sdm_Off) (he : s.SoundTable[sound]? = some e) (hnull : e.addr = 0) :
    SD_PlaySound s sound = .error (.quit "SD_PlaySound() - Uncached sound" s) := by
  simp [SD_PlaySound, hmode, he, hnull]

/-- Witness of C15: slot 1 of the sample table with a null pointer. -/
theorem SD_PlaySound_uncached_quits_witness :
    SD_PlaySound demoZeroLength 1 =
      .error (.quit "SD_PlaySound() - Uncached sound" demoZeroLength) :=
  SD_PlaySound_uncached_quits demoZeroLength 1 ⟨0, 0, 0, alZeroInst, 0, []⟩ (by decide) rfl rfl

/-- C16, the code at the failing input: slot 0 is loaded at address 0x1000 and
its header declares the length 0.  `SD_PlaySound` returns without `Quit`, the
effect is active with the remaining length 0, and the next call of the service
routine wraps the remaining length to 4294967295. -/
theorem SD_PlaySound_zero_length_accepted :
    ∃ s1 s2, SD_PlaySound demoZeroLength 0 = .ok s1 ∧
      s1.pcSound = some ⟨[10, 10], 0⟩ ∧ s1.pcLengthLeft = 0 ∧ s1.SoundPriority = 5 ∧
      SDL_PCService s1 = .ok s2 ∧ s2.pcLengthLeft = 4294967295 := by
  refine ⟨_, _, rfl, ?_, ?_, ?_, rfl, ?_⟩ <;> decide

/-- C19, the code at the failing input: the audio device is open and the tone
effect has one sample left.  The callback calls `SDL_t0Service`, which calls
`SDL_PCService`, which on exhaustion calls `SDL_PCStopSound`, and that takes
the audio lock. -/
theorem SD_SDL_CallBack_takes_lock :
    ∃ s1, SD_SDL_CallBack demoPCLast 2 = .ok s1 ∧
      s1.trace =
        [.callT0Service, .callPCService, .lockAudio, .unlockAudio, .oplUpdate 0 1] ∧
      Event.lockAudio ∈ s1.trace ∧ s1.pcSound = none := by
  refine ⟨_, rfl, ?_, ?_, ?_⟩ <;> decide

/-! ## Device defaults -/

/-- C17, the code at the failing input: no FM hardware, music device Off, and
`SD_Default(true, sdm_AdLib, smm_AdLib)`.  The effects device falls back to the
tone generator.  For the music device the `switch (sm)` tests the label
`sdm_AdLib`, which no `SMMode` value has, so the request stays `smm_AdLib` and
`SD_SetMusicMode` is called with it; there the local `result` is not assigned
when FM is absent, and with an initial value other than 0 the music device
becomes FM.  With the initial value 0 it stays Off. -/
theorem SD_Default_music_mode_FM :
    ∃ s1 s2, demoPC.AdLibPresent = false ∧ demoPC.MusicMode = .smm_Off ∧
      SD_Default 3 false 0 true demoPC true .sdm_AdLib .smm_AdLib = s1 ∧
      s1.AdLibPresent = false ∧ s1.SoundMode = .sdm_PC ∧ s1.MusicMode = .smm_AdLib ∧
      SD_Default 3 false 0 false demoPC true .sdm_AdLib .smm_AdLib = s2 ∧
      s2.MusicMode = .smm_Off := by
  refine ⟨_, _, rfl, rfl, rfl, ?_, ?_, ?_, rfl, ?_⟩ <;> decide

theorem SDL_SetTimerSpeed_SoundMode (s : State) :
    (SDL_SetTimerSpeed s).SoundMode = s.SoundMode ∧
      (SDL_SetTimerSpeed s).AdLibPresent = s.AdLibPresent := by
  rw [SDL_SetTimerSpeed_eq]
  exact ⟨rfl, rfl⟩

theorem SD_MusicOff_SoundMode (s : State) : (SD_MusicOff s).SoundMode = s.SoundMode := by
  rw [SD_MusicOff_eq]

theorem SD_SetMusicMode_SoundMode (result0 : Bool) (s : State) (mode : SMMode) :
    (SD_SetMusicMode result0 s mode).2.SoundMode = s.SoundMode := by
  have k : (SD_FadeOutMusic s).SoundMode = s.SoundMode := by
    unfold SD_FadeOutMusic
    split
    · exact SD_MusicOff_SoundMode s
    · rfl
  unfold SD_SetMusicMode
  simp only [(SDL_SetTimerSpeed_SoundMode _).1]
  cases mode
  · simp [k]
  · by_cases ha : (SD_FadeOutMusic s).AdLibPresent = true
    · simp [ha, k]
    · cases result0 <;> simp [ha, k]

theorem SD_StopSound_AdLibPresent (s : State) :
    (SD_StopSound s).AdLibPresent = s.AdLibPresent := by
  cases hm : s.SoundMode <;>
    simp [SD_StopSound, hm, SDL_PCStopSound, SDL_PCStopSound_Low,
      SDL_ALStopSound, SDL_ALStopSound_Low, unlockIfUp_eq, lockIfUp_eq, alOut, emit]

theorem SDL_ShutDevice_SoundMode (s : State) : (SDL_ShutDevice s).SoundMode = .sdm_Off := by
  simp [SDL_ShutDevice]

theorem SDL_StartDevice_SoundMode (s : State) : (SDL_StartDevice s).SoundMode = s.SoundMode := by
  by_cases hm : s.SoundMode = .sdm_AdLib <;>
    simp [SDL_StartDevice, hm, SDL_StartAL, SDL_AlSetFXInst, alOut, emit]

theorem SD_StopSound_SoundMode (s : State) :
    (SD_StopSound s).SoundMode = s.SoundMode := by
  cases hm : s.SoundMode <;>
    simp [SD_StopSound, hm, SDL_PCStopSound, SDL_PCStopSound_Low,
      SDL_ALStopSound, SDL_ALStopSound_Low, unlockIfUp_eq, lockIfUp_eq, alOut, emit]

theorem SD_SetSoundMode_SoundMode (NUMSOUNDS : Nat) (any_sound0 : Bool) (offset0 : Int)
    (s : State) (mode : SDMode) (hm : mode ≠ .sdm_AdLib) :
    (SD_SetSoundMode NUMSOUNDS any_sound0 offset0 s mode).2.SoundMode = mode := by
  have k := SD_StopSound_SoundMode s
  unfold SD_SetSoundMode
  simp only [(SDL_SetTimerSpeed_SoundMode _).1]
  cases mode
  · by_cases h : SDMode.sdm_Off = (SD_StopSound s).SoundMode
    · simp [← h]
    · simp [h, SDL_StartDevice_SoundMode]
  · by_cases h : SDMode.sdm_PC = (SD_StopSound s).SoundMode
    · simp [← h]
    · simp [h, SDL_StartDevice_SoundMode]
  · exact absurd rfl hm

/-- Without FM hardware the effects device is never FM after `SD_Default`. -/
theorem SD_Default_SoundMode (NUMSOUNDS : Nat) (any_sound0 : Bool) (offset0 : Int)
    (result0 : Bool) (s : State) (gotit : Bool) (sd : SDMode) (sm : SMMode)
    (h : s.AdLibPresent = false) :
    (SD_Default NUMSOUNDS any_sound0 offset0 result0 s gotit sd sm).SoundMode ≠ .sdm_AdLib := by
  unfold SD_Default
  simp only [h]
  have key : ∀ sd1 : SDMode, sd1 ≠ .sdm_AdLib →
      (if sd1 ≠ s.SoundMode then (SD_SetSoundMode NUMSOUNDS any_sound0 offset0 s sd1).2 else s).SoundMode
        ≠ .sdm_AdLib := by
    intro sd1 h1
    by_cases h2 : sd1 = s.SoundMode
    · simp only [h2, ne_eq, not_true_eq_false, if_false]
      rw [← h2]; exact h1
    · simp only [ne_eq, h2, not_false_eq_true, if_true]
      rw [SD_SetSoundMode_SoundMode _ _ _ _ _ h1]; exact h1
  have fin : ∀ (x : State) (m : SMMode),
      (if m ≠ x.MusicMode then (SD_SetMusicMode result0 x m).2 else x).SoundMode = x.SoundMode := by
    intro x m
    split
    · exact SD_SetMusicMode_SoundMode _ _ _
    · rfl
  rw [fin]
  cases gotit <;> cases sd <;> exact key _ (by decide)

/-! ## Repeated units of an effect -/

theorem regValue_snoc_write (tr : List Event) (reg val r : Nat) :
    regValue (tr ++ [.regWrite reg val]) r = if reg = r then some val else regValue tr r := by
  unfold regValue
  simp only [writesOf_append, writesOf, List.reverse_append, List.reverse_cons, List.reverse_nil,
    List.nil_append, List.singleton_append, List.find?_cons]
  by_cases h : reg = r <;> simp [h]

theorem regValue_snoc_other (tr : List Event) (e : Event) (r : Nat) (h : writesOf [e] = []) :
    regValue (tr ++ [e]) r = regValue tr r := by
  unfold regValue
  simp only [writesOf_append, h, List.append_nil]

/-- Events that write to a register only the value it holds leave every register as it is. -/
theorem regValue_append_same (tr evs : List Event) (r : Nat)
    (h : ∀ w ∈ writesOf evs, regValue tr w.1 = some w.2) :
    regValue (tr ++ evs) r = regValue tr r := by
  induction evs using List.reverseRecOn with
  | nil => simp
  | append_singleton init e ih =>
    have hi : ∀ w ∈ writesOf init, regValue tr w.1 = some w.2 := by
      intro w hw
      apply h
      rw [writesOf_append]
      exact List.mem_append_left _ hw
    rw [← List.append_assoc]
    cases e with
    | regWrite reg val =>
      rw [regValue_snoc_write]
      split
      · next hr =>
        have := h (reg, val) (by rw [writesOf_append]; exact List.mem_append_right _ (by simp [writesOf]))
        rw [← hr]
        exact this.symm
      · exact ih hi
    | _ =>
      refine Eq.trans (regValue_snoc_other _ _ _ ?_) (ih hi)
      rfl

/-- Events that do not write to the register `r` leave it as it is. -/
theorem regValue_append_other (tr evs : List Event) (r : Nat)
    (h : ∀ w ∈ writesOf evs, w.1 ≠ r) :
    regValue (tr ++ evs) r = regValue tr r := by
  induction evs using List.reverseRecOn with
  | nil => simp
  | append_singleton init e ih =>
    have hi : ∀ w ∈ writesOf init, w.1 ≠ r := by
      intro w hw
      apply h
      rw [writesOf_append]
      exact List.mem_append_left _ hw
    rw [← List.append_assoc]
    cases e with
    | regWrite reg val =>
      rw [regValue_snoc_write]
      have := h (reg, val) (by rw [writesOf_append]; exact List.mem_append_right _ (by simp [writesOf]))
      rw [if_neg this]
      exact ih hi
    | _ =>
      refine Eq.trans (regValue_snoc_other _ _ _ ?_) (ih hi)
      rfl

theorem pcNewSample_facts (s s3 : State) (u : Nat) (h : pcNewSample s u = .ok s3) :
    s3.pcLastSample = u ∧ s3.pcSound = s.pcSound ∧ s3.pcLengthLeft = s.pcLengthLeft := by
  unfold pcNewSample at h
  by_cases h1 : u = s.pcLastSample
  · simp only [h1, ne_eq, not_true_eq_false, if_false, Except.ok.injEq] at h
    rw [← h]
    exact ⟨h1.symm, rfl, rfl⟩
  · by_cases h0 : u = 0
    · subst h0
      simp only [ne_eq, h1, not_false_eq_true, if_true, not_true_eq_false, if_false,
        Except.ok.injEq] at h
      rw [← h]
      exact ⟨rfl, rfl, rfl⟩
    · simp only [ne_eq, h1, not_false_eq_true, if_true, h0] at h
      cases hl : s.pcSoundLookup[u]? with
      | none => simp [hl] at h
      | some t =>
        simp only [hl, Except.ok.injEq] at h
        rw [← h]
        exact ⟨rfl, rfl, rfl⟩

theorem pcNewSample_same (s : State) (u : Nat) (h : s.pcLastSample = u) :
    pcNewSample s u = .ok s := by
  simp [pcNewSample, h]

theorem SDL_PCService_facts (s0 s1 : State) (p : BytePtr) (u : Nat)
    (hp : s0.pcSound = some p) (hu : p.buf[p.pos]? = some u)
    (h2 : 2 ≤ s0.pcLengthLeft) (hlt : s0.pcLengthLeft < 4294967296)
    (h : SDL_PCService s0 = .ok s1) :
    s1.pcLastSample = u ∧ s1.pcSound = some ⟨p.buf, p.pos + 1⟩ ∧
      s1.pcLengthLeft = s0.pcLengthLeft - 1 := by
  simp only [SDL_PCService, emit, hp, hu] at h
  cases hn : pcNewSample { s0 with trace := s0.trace ++ [.callPCService], pcSound := some ⟨p.buf, p.pos + 1⟩ } u with
  | error e => rw [hn] at h; cases h
  | ok s3 =>
    rw [hn] at h
    obtain ⟨f1, f2, f3⟩ := pcNewSample_facts _ _ _ hn
    simp only [] at f2 f3 h
    rw [pcCountDown_more s3 (by omega) (by omega)] at h
    simp only [Except.ok.injEq] at h
    rw [← h]
    exact ⟨f1, f2, by simp only [f3]⟩

theorem SDL_PCService_repeat (s : State) (p : BytePtr) (u : Nat)
    (hp : s.pcSound = some p) (hu : p.buf[p.pos]? = some u) (hl : s.pcLastSample = u)
    (h2 : 2 ≤ s.pcLengthLeft) (hlt : s.pcLengthLeft < 4294967296) :
    SDL_PCService s =
      .ok { s with
            trace := s.trace ++ [.callPCService]
            pcSound := some ⟨p.buf, p.pos + 1⟩
            pcLengthLeft := s.pcLengthLeft - 1 } := by
  simp only [SDL_PCService, emit, hp, hu]
  rw [pcNewSample_same
    { s with trace := s.trace ++ [.callPCService], pcSound := some ⟨p.buf, p.pos + 1⟩ } u hl]
  simp only []
  rw [pcCountDown_more
    { s with trace := s.trace ++ [.callPCService], pcSound := some ⟨p.buf, p.pos + 1⟩ } h2 hlt]

theorem regValue_alSampleWrites (tr : List Event) (b u r : Nat)
    (hH : regValue tr (alFreqH + 0) = some (if u = 0 then 0 else b % 256))
    (hL : u ≠ 0 → regValue tr (alFreqL + 0) = some (u % 256)) :
    regValue (tr ++ [.callALSoundService] ++ alSampleWrites b u) r = regValue tr r := by
  have hH1 : regValue tr alFreqH = some (if u = 0 then 0 else b % 256) := hH
  have hL1 : u ≠ 0 → regValue tr alFreqL = some (u % 256) := hL
  rw [List.append_assoc]
  apply regValue_append_same
  intro w hw
  unfold alSampleWrites at hw
  by_cases h0 : u = 0
  · simp [h0, writesOf] at hw
    subst hw
    rw [hH1, if_pos h0]
  · simp [h0, writesOf] at hw
    rcases hw with hw | hw
    · subst hw; exact hL1 h0
    · subst hw; rw [hH1, if_neg h0]

theorem regValue_after_alSampleWrites (tr : List Event) (b u : Nat) :
    regValue (tr ++ [.callALSoundService] ++ alSampleWrites b u) (alFreqH + 0)
        = some (if u = 0 then 0 else b % 256) ∧
      (u ≠ 0 → regValue (tr ++ [.callALSoundService] ++ alSampleWrites b u) (alFreqL + 0)
        = some (u % 256)) := by
  unfold alSampleWrites
  by_cases h0 : u = 0
  · simp only [h0, if_true]
    refine ⟨?_, fun h => absurd rfl h⟩
    rw [regValue_snoc_write]
    simp
  · simp only [h0, if_false]
    have e : tr ++ [Event.callALSoundService] ++ [Event.regWrite (alFreqL + 0) (u % 256), Event.regWrite (alFreqH + 0) (b % 256)]
        = (tr ++ [Event.callALSoundService] ++ [Event.regWrite (alFreqL + 0) (u % 256)]) ++ [Event.regWrite (alFreqH + 0) (b % 256)] := by
      simp
    rw [e]
    refine ⟨?_, fun _ => ?_⟩
    · rw [regValue_snoc_write]; simp
    · rw [regValue_snoc_write, regValue_snoc_write]
      simp [alFreqL, alFreqH]

/-- C20, amended: a service call consumes a unit equal to the unit consumed by
the preceding service call of the same effect, and it is not the last unit.
On the tone device the call leaves the four oscillator fields as they are,
whatever happened to them between the two calls: it moves the cursor to the
next sample, takes one from the remaining length and adds nothing but its own
entry to the trace.  On the FM device the call issues the register writes of
the preceding call once more, after its own entry in the trace: `alFreqH`
gets 0 for the unit 0, and for any other unit `alFreqL` gets the unit and then
`alFreqH` gets `alBlock`; the cursor moves on and the remaining length drops
by one.  Every register of the chip holds after the call what it held before
it, provided that no write to those two registers was issued between the two
calls. -/
theorem service_repeat_unit_no_change :
    (∀ (s0 s1 : State) (p : BytePtr) (u : Nat),
      s0.pcSound = some p → p.buf[p.pos]? = some u → p.buf[p.pos + 1]? = some u →
      3 ≤ s0.pcLengthLeft → s0.pcLengthLeft < 4294967296 →
      SDL_PCService s0 = .ok s1 →
      ∀ t : State, t.pcSound = s1.pcSound → t.pcLastSample = s1.pcLastSample →
        t.pcLengthLeft = s1.pcLengthLeft →
        ∃ s2, SDL_PCService t = .ok s2 ∧ s2.pcSound.isSome = true ∧
          s2.SD_PC_Speaker_On = t.SD_PC_Speaker_On ∧
          s2.SD_SDL_CurrentBeepSample = t.SD_SDL_CurrentBeepSample ∧
          s2.SD_SDL_BeepHalfCycleCounter = t.SD_SDL_BeepHalfCycleCounter ∧
          s2.SD_SDL_BeepHalfCycleCounterUpperBound = t.SD_SDL_BeepHalfCycleCounterUpperBound ∧
          s2.pcSound = some ⟨p.buf, p.pos + 2⟩ ∧ s2.pcLengthLeft = s0.pcLengthLeft - 2 ∧
          s2.trace = t.trace ++ [Event.callPCService]) ∧
    (∀ (s0 s1 : State) (p : BytePtr) (u : Nat),
      s0.alSound = some p → p.buf[p.pos]? = some u → p.buf[p.pos + 1]? = some u →
      3 ≤ s0.alLengthLeft → s0.alLengthLeft < 4294967296 →
      SDL_ALSoundService s0 = .ok s1 →
      ∀ (t : State) (mid : List Event), t.alSound = s1.alSound → t.alBlock = s1.alBlock →
        t.alLengthLeft = s1.alLengthLeft → t.trace = s1.trace ++ mid →
        (∀ w ∈ writesOf mid, w.1 ≠ alFreqL + 0 ∧ w.1 ≠ alFreqH + 0) →
        ∃ s2, SDL_ALSoundService t = .ok s2 ∧ s2.alSound.isSome = true ∧
          (∀ r, regValue s2.trace r = regValue t.trace r) ∧
          s1.trace = s0.trace ++ [Event.callALSoundService] ++ alSampleWrites s0.alBlock u ∧
          s2.trace = t.trace ++ [Event.callALSoundService] ++ alSampleWrites s0.alBlock u ∧
          writesOf (alSampleWrites s0.alBlock u) =
            (if u = 0 then [(alFreqH, 0)]
              else [(alFreqL, u % 256), (alFreqH, s0.alBlock % 256)]) ∧
          s2.alSound = some ⟨p.buf, p.pos + 2⟩ ∧ s2.alLengthLeft = s0.alLengthLeft - 2) := by
  constructor
  · intro s0 s1 p u hp hu0 hu1 h3 hlt h1 t tp tl tn
    obtain ⟨f1, f2, f3⟩ := SDL_PCService_facts s0 s1 p u hp hu0 (by omega) hlt h1
    rw [f2] at tp
    rw [f1] at tl
    rw [f3] at tn
    rw [SDL_PCService_repeat t ⟨p.buf, p.pos + 1⟩ u tp hu1 tl (by omega) (by omega)]
    refine ⟨_, rfl, rfl, rfl, rfl, rfl, rfl, rfl, ?_, rfl⟩
    show t.pcLengthLeft - 1 = _
    omega
  · intro s0 s1 p u hp hu0 hu1 h3 hlt h1 t mid tp tb tn tt hmid
    have hpos : p.pos < p.buf.length := by
      rcases Nat.lt_or_ge p.pos p.buf.length with h | h
      · exact h
      · rw [List.getElem?_eq_none h] at hu0; cases hu0
    have hpos1 : p.pos + 1 < p.buf.length := by
      rcases Nat.lt_or_ge (p.pos + 1) p.buf.length with h | h
      · exact h
      · rw [List.getElem?_eq_none h] at hu1; cases hu1
    have e0 : p.buf[p.pos] = u := by
      rw [List.getElem?_eq_getElem hpos] at hu0
      exact Option.some.inj hu0
    have e1 : p.buf[p.pos + 1] = u := by
      rw [List.getElem?_eq_getElem hpos1] at hu1
      exact Option.some.inj hu1
    rw [SDL_ALSoundService_more s0 p hp hpos (by omega) hlt, e0] at h1
    simp only [Except.ok.injEq] at h1
    have g1 : s1.alSound = some ⟨p.buf, p.pos + 1⟩ := by rw [← h1]
    have g2 : s1.alBlock = s0.alBlock := by rw [← h1]
    have g3 : s1.alLengthLeft = s0.alLengthLeft - 1 := by rw [← h1]
    have g4 : s1.trace = s0.trace ++ [.callALSoundService] ++ alSampleWrites s0.alBlock u := by
      rw [← h1]
    rw [g1] at tp
    rw [g2] at tb
    rw [g3] at tn
    rw [g4] at tt
    rw [SDL_ALSoundService_more t ⟨p.buf, p.pos + 1⟩ tp hpos1 (by omega) (by omega)]
    refine ⟨_, rfl, rfl, fun r => ?_, g4, ?_, ?_, rfl, ?_⟩
    · show regValue (t.trace ++ [Event.callALSoundService] ++ alSampleWrites t.alBlock p.buf[p.pos + 1]) r = _
      rw [e1, tb]
      obtain ⟨k1, k2⟩ := regValue_after_alSampleWrites s0.trace s0.alBlock u
      apply regValue_alSampleWrites
      · rw [tt, regValue_append_other _ _ _ (fun w hw => (hmid w hw).2)]
        exact k1
      · intro hu
        rw [tt, regValue_append_other _ _ _ (fun w hw => (hmid w hw).1)]
        exact k2 hu
    · show t.trace ++ [Event.callALSoundService] ++ alSampleWrites t.alBlock p.buf[p.pos + 1] = _
      rw [e1, tb]
    · unfold alSampleWrites
      by_cases h0 : u = 0 <;> simp [h0, writesOf]
    · show t.alLengthLeft - 1 = _
      omega

/-! ## The music sequencer on lists of events -/

theorem sumD_append (a b : List MusEvent) : sumD (a ++ b) = sumD a + sumD b := by
  induction a with
  | nil => simp [sumD]
  | cons e a ih => simp [sumD, ih, Nat.add_assoc]

theorem sched_append (base : Nat) (a b : List MusEvent) :
    sched base (a ++ b) = sched base a ++ sched (base + sumD a) b := by
  induction a generalizing base with
  | nil => simp [sched, sumD]
  | cons e a ih => simp [sched, sumD, ih, Nat.add_assoc]

theorem dueAt_append (t base : Nat) (a b : List MusEvent) :
    dueAt t base (a ++ b) = dueAt t base a ++ dueAt t (base + sumD a) b := by
  induction a generalizing base with
  | nil => simp [dueAt, sumD]
  | cons e a ih => simp [dueAt, sumD, ih, Nat.add_assoc]

theorem dueAt_none (t base : Nat) (es : List MusEvent) (h : ∀ x ∈ sched base es, x ≠ t) :
    dueAt t base es = [] := by
  induction es generalizing base with
  | nil => rfl
  | cons e es ih =>
    have h1 : base ≠ t := h base (by simp [sched])
    have h2 : ∀ x ∈ sched (base + e.delta) es, x ≠ t := fun x hx => h x (by simp [sched, hx])
    simp [dueAt, h1, ih _ h2]

theorem sched_ge (base : Nat) (es : List MusEvent) : ∀ x ∈ sched base es, base ≤ x := by
  induction es generalizing base with
  | nil => intro x hx; simp [sched] at hx
  | cons e es ih =>
    intro x hx
    simp only [sched, List.mem_cons] at hx
    rcases hx with hx | hx
    · omega
    · have := ih _ x hx
      omega

theorem dropLast_sumD_le (es : List MusEvent) : sumD es.dropLast ≤ sumD es := by
  induction es with
  | nil => simp [sumD]
  | cons e es ih =>
    cases es with
    | nil => simp [sumD]
    | cons e2 es2 =>
      simp only [List.dropLast_cons₂, sumD] at ih ⊢
      omega

/-- What the loop does at tick `tick` when the next event is not overdue. -/
theorem seqLoop_spec (tick : Nat) (rest : List MusEvent) : ∀ time, tick ≤ time →
    rest = (seqLoop tick time rest).1 ++ (seqLoop tick time rest).2.2 ∧
      (seqLoop tick time rest).1 = dueAt tick time rest ∧
      (∀ x ∈ sched time (seqLoop tick time rest).1, x = tick) ∧
      ((seqLoop tick time rest).2.2 ≠ [] →
        (seqLoop tick time rest).2.1 = time + sumD (seqLoop tick time rest).1 ∧
          tick < (seqLoop tick time rest).2.1) ∧
      ((seqLoop tick time rest).2.2 = [] → rest ≠ [] → time + sumD rest.dropLast = tick) := by
  induction rest with
  | nil =>
    intro time _
    simp [seqLoop, dueAt, sched]
  | cons e es ih =>
    intro time ht
    by_cases hc : time ≤ tick
    · have he : time = tick := by omega
      subst he
      obtain ⟨i1, i2, i3, i4, i5⟩ := ih (time + e.delta) (by omega)
      simp only [seqLoop, hc, if_true]
      refine ⟨by rw [List.cons_append, ← i1], ?_, ?_, ?_, ?_⟩
      · simp [dueAt, ← i2]
      · intro x hx
        simp only [sched, List.mem_cons] at hx
        rcases hx with hx | hx
        · exact hx
        · exact i3 x hx
      · intro hne
        obtain ⟨j1, j2⟩ := i4 hne
        refine ⟨?_, j2⟩
        rw [j1]
        simp [sumD, Nat.add_assoc]
      · intro hnil _
        cases es with
        | nil => simp [sumD]
        | cons e2 es2 =>
          have := i5 hnil (by simp)
          simp only [List.dropLast_cons₂, sumD] at this ⊢
          -- sched of first consumed in es equals tick, so delta = 0 chain
          omega
    · simp only [seqLoop, hc, if_false]
      refine ⟨by simp, ?_, ?_, ?_, ?_⟩
      · symm
        apply dueAt_none
        intro x hx
        have := sched_ge _ _ x hx
        omega
      · intro x hx
        simp [sched] at hx
      · intro _
        simp [sumD]
        omega
      · intro h
        simp at h

theorem dropLast_append_ne (a b : List MusEvent) (h : b ≠ []) :
    (a ++ b).dropLast = a ++ b.dropLast := by
  exact List.dropLast_append_of_ne_nil a h

theorem seq_tick_pure (events done rest : List MusEvent) (tick : Nat)
    (hsplit : events = done ++ rest)
    (hbefore : ∀ x ∈ sched 0 done, x < tick)
    (hle : tick ≤ sumD done)
    (hrest : rest = [] → events = []) :
    (seqLoop tick (sumD done) rest).1 = dueAt tick 0 events ∧
      rest = (seqLoop tick (sumD done) rest).1 ++ (seqLoop tick (sumD done) rest).2.2 ∧
      ((seqLoop tick (sumD done) rest).2.2 ≠ [] →
        (seqLoop tick (sumD done) rest).2.1 = sumD (done ++ (seqLoop tick (sumD done) rest).1) ∧
        tick + 1 ≤ sumD (done ++ (seqLoop tick (sumD done) rest).1) ∧
        (∀ x ∈ sched 0 (done ++ (seqLoop tick (sumD done) rest).1), x < tick + 1) ∧
        tick + 1 < passLength events) ∧
      ((seqLoop tick (sumD done) rest).2.2 = [] → tick + 1 = passLength events) := by
  obtain ⟨i1, i2, i3, i4, i5⟩ := seqLoop_spec tick rest (sumD done) hle
  generalize seqLoop tick (sumD done) rest = r at i1 i2 i3 i4 i5 ⊢
  refine ⟨?_, i1, ?_, ?_⟩
  · rw [hsplit, dueAt_append, Nat.zero_add, ← i2]
    have : dueAt tick 0 done = [] := by
      apply dueAt_none
      intro x hx
      have := hbefore x hx
      omega
    rw [this, List.nil_append]
  · intro hne
    obtain ⟨j1, j2⟩ := i4 hne
    have e1 : sumD (done ++ r.1) = sumD done + sumD r.1 := sumD_append _ _
    refine ⟨by rw [e1]; exact j1, by omega, ?_, ?_⟩
    · intro x hx
      rw [sched_append, Nat.zero_add, List.mem_append] at hx
      rcases hx with hx | hx
      · have := hbefore x hx
        omega
      · have := i3 x hx
        omega
    · have e2 : events.dropLast = (done ++ r.1) ++ r.2.2.dropLast := by
        rw [hsplit, i1, ← List.append_assoc]
        exact dropLast_append_ne _ _ hne
      unfold passLength
      rw [e2, sumD_append, e1]
      omega
  · intro hnil
    by_cases hr : rest = []
    · have he := hrest hr
      have hd : done = [] := by
        rw [he] at hsplit
        have := congrArg List.length hsplit
        simp only [List.length_nil, List.length_append] at this
        exact List.eq_nil_of_length_eq_zero (by omega)
      subst hd
      simp only [sumD] at hle
      rw [he]
      simp [passLength, sumD]
      omega
    · have := i5 hnil hr
      unfold passLength
      rw [hsplit, dropLast_append_ne _ _ hr, sumD_append]
      omega

theorem decodeEvent_little (b0 b1 b2 b3 : Nat) (h0 : b0 < 256) :
    decodeEvent false b0 b1 b2 b3 = (b0, b1, b2 + 256 * b3) := by
  simp only [decodeEvent, loadU16, byteOfU16, Bool.false_eq_true, if_false, if_true,
    Nat.one_ne_zero]
  have e1 : (b0 + 256 * b1) % 256 = b0 := by omega
  have e2 : (b0 + 256 * b1) / 256 = b1 := by omega
  rw [e1, e2]

theorem decodeEvent_big (b0 b1 b2 b3 : Nat) (h1 : b1 < 256) :
    decodeEvent true b0 b1 b2 b3 = (b0, b1, 256 * b2 + b3) := by
  simp only [decodeEvent, loadU16, byteOfU16, if_true, Nat.one_ne_zero, if_false]
  have e1 : (256 * b0 + b1) % 256 = b1 := by omega
  have e2 : (256 * b0 + b1) / 256 = b0 := by omega
  rw [e1, e2]

theorem readU16_eq_loadU16 (buf : List Nat) (i b0 b1 : Nat)
    (h0 : buf[2 * i]? = some b0) (h1 : buf[2 * i + 1]? = some b1) :
    readU16 buf i = some (loadU16 false b0 b1) := by
  simp [readU16, h0, h1, loadU16]

/-- One pass of the loop, in terms of `decodeEvent` on the little-endian host. -/
theorem SDL_ALService_loop_step (fuel : Nat) (s : State) (p : BytePtr) (b0 b1 b2 b3 : Nat)
    (hc : s.sqHackLen ≠ 0 ∧ s.sqHackTime ≤ s.alTimeCount)
    (hp : s.sqHackPtr = some p)
    (h0 : p.buf[2 * p.pos]? = some b0) (h1 : p.buf[2 * p.pos + 1]? = some b1)
    (h2 : p.buf[2 * p.pos + 2]? = some b2) (h3 : p.buf[2 * p.pos + 3]? = some b3) :
    SDL_ALService_loop (fuel + 1) s =
      SDL_ALService_loop fuel
        { s with
          sqHackPtr := some ⟨p.buf, p.pos + 2⟩
          sqHackTime := (s.alTimeCount + (decodeEvent false b0 b1 b2 b3).2.2) % 4294967296
          trace := s.trace ++ [.regWrite (decodeEvent false b0 b1 b2 b3).1
            ((decodeEvent false b0 b1 b2 b3).2.1 % 256)]
          sqHackLen := (s.sqHackLen + 65532) % 65536 } := by
  have r0 := readU16_eq_loadU16 p.buf p.pos b0 b1 h0 h1
  have r1 := readU16_eq_loadU16 p.buf (p.pos + 1) b2 b3 (by rw [← h2]; congr 1) (by rw [← h3]; congr 1)
  rw [SDL_ALService_loop, if_pos hc]
  simp only [hp, r0, r1, alOut, emit]
  rfl

theorem encodeEvents_length (es : List MusEvent) : (encodeEvents es).length = 4 * es.length := by
  induction es with
  | nil => rfl
  | cons e es ih => simp [encodeEvents, ih]; omega

theorem encodeEvents_append (a b : List MusEvent) :
    encodeEvents (a ++ b) = encodeEvents a ++ encodeEvents b := by
  induction a with
  | nil => rfl
  | cons e a ih => simp [encodeEvents, ih]

theorem encodeEvents_get (done : List MusEvent) (e : MusEvent) (es : List MusEvent) :
    (encodeEvents (done ++ e :: es))[2 * (2 * done.length)]? = some e.reg ∧
      (encodeEvents (done ++ e :: es))[2 * (2 * done.length) + 1]? = some e.val ∧
      (encodeEvents (done ++ e :: es))[2 * (2 * done.length) + 2]? = some (e.delta % 256) ∧
      (encodeEvents (done ++ e :: es))[2 * (2 * done.length) + 3]? = some (e.delta / 256) := by
  have hl := encodeEvents_length done
  rw [encodeEvents_append]
  refine ⟨?_, ?_, ?_, ?_⟩
  · rw [List.getElem?_append_right (by omega)]
    have : 2 * (2 * done.length) - (encodeEvents done).length = 0 := by omega
    rw [this]; rfl
  · rw [List.getElem?_append_right (by omega)]
    have : 2 * (2 * done.length) + 1 - (encodeEvents done).length = 1 := by omega
    rw [this]; rfl
  · rw [List.getElem?_append_right (by omega)]
    have : 2 * (2 * done.length) + 2 - (encodeEvents done).length = 2 := by omega
    rw [this]; rfl
  · rw [List.getElem?_append_right (by omega)]
    have : 2 * (2 * done.length) + 3 - (encodeEvents done).length = 3 := by omega
    rw [this]; simp [encodeEvents]

theorem SDL_ALService_loop_refines (events : List MusEvent) (hok : EventsOK events) (tick : Nat)
    (htick : tick + 65536 ≤ 4294967296) :
    ∀ (rest done : List MusEvent) (time fuel : Nat) (s : State),
      events = done ++ rest → rest.length ≤ fuel →
      s.sqHackPtr = some ⟨encodeEvents events, 2 * done.length⟩ →
      s.sqHackLen = 4 * rest.length → s.sqHackTime = time → s.alTimeCount = tick →
      ∃ s1, SDL_ALService_loop fuel s = .ok s1 ∧
        s1.sqHackPtr =
          some ⟨encodeEvents events, 2 * (done ++ (seqLoop tick time rest).1).length⟩ ∧
        s1.sqHackLen = 4 * (seqLoop tick time rest).2.2.length ∧
        s1.sqHackTime = (seqLoop tick time rest).2.1 ∧
        s1.trace = s.trace ++ writesOfEvents (seqLoop tick time rest).1 ∧
        s1.alTimeCount = s.alTimeCount ∧ s1.sqActive = s.sqActive ∧
        s1.sqHack = s.sqHack ∧ s1.sqHackSeqLen = s.sqHackSeqLen := by
  intro rest
  induction rest with
  | nil =>
    intro done time fuel s _ _ hp hl ht _
    have hl0 : s.sqHackLen = 0 := by rw [hl]; rfl
    have hr : SDL_ALService_loop fuel s = .ok s := by
      cases fuel <;> simp [SDL_ALService_loop, hl0]
    refine ⟨s, hr, ?_, hl, ht, ?_, rfl, rfl, rfl, rfl⟩
    · rw [hp]; simp [seqLoop]
    · simp [seqLoop, writesOfEvents]
  | cons e es ih =>
    intro done time fuel s hsplit hfuel hp hl ht hk
    by_cases hc : time ≤ tick
    · cases fuel with
      | zero => simp at hfuel
      | succ f =>
        have hmem : e ∈ events := by rw [hsplit]; simp
        obtain ⟨hreg, hval, hdelta⟩ := hok.1 e hmem
        have hn : 4 * events.length < 65536 := hok.2
        have hlen : events.length = done.length + (es.length + 1) := by
          rw [hsplit]; simp
        obtain ⟨g0, g1, g2, g3⟩ := encodeEvents_get done e es
        rw [← hsplit] at g0 g1 g2 g3
        have hcond : s.sqHackLen ≠ 0 ∧ s.sqHackTime ≤ s.alTimeCount := by
          rw [hl, ht, hk]
          simp only [List.length_cons]
          exact ⟨by omega, hc⟩
        have st := SDL_ALService_loop_step f s ⟨encodeEvents events, 2 * done.length⟩
          e.reg e.val (e.delta % 256) (e.delta / 256) hcond hp g0 g1 g2 g3
        rw [decodeEvent_little _ _ _ _ hreg] at st
        have e1 : e.delta % 256 + 256 * (e.delta / 256) = e.delta := Nat.mod_add_div _ _
        have e2 : e.val % 256 = e.val := Nat.mod_eq_of_lt hval
        have e3 : (s.alTimeCount + e.delta) % 4294967296 = tick + e.delta := by
          rw [hk]; omega
        have e4 : (s.sqHackLen + 65532) % 65536 = 4 * es.length := by
          rw [hl]; simp only [List.length_cons]; omega
        simp only [e1, e2, e3, e4] at st
        obtain ⟨s1, r1, r2, r3, r4, r5, r6, r7, r8, r9⟩ :=
          ih (done ++ [e]) (tick + e.delta) f
            { s with
              sqHackPtr := some ⟨encodeEvents events, 2 * done.length + 2⟩
              sqHackTime := tick + e.delta
              trace := s.trace ++ [.regWrite e.reg e.val]
              sqHackLen := 4 * es.length }
            (by rw [hsplit]; simp) (by simp at hfuel; omega)
            (by simp only [List.length_append, List.length_singleton]
                have : 2 * (done.length + 1) = 2 * done.length + 2 := by omega
                rw [this])
            rfl rfl hk
        refine ⟨s1, by rw [st]; exact r1, ?_, ?_, ?_, ?_, r6, r7, r8, r9⟩
        · rw [r2]; simp [seqLoop, hc]
        · rw [r3]; simp [seqLoop, hc]
        · rw [r4]; simp [seqLoop, hc]
        · rw [r5]; simp [seqLoop, hc, writesOfEvents]
    · have hcond : ¬ (s.sqHackLen ≠ 0 ∧ s.sqHackTime ≤ s.alTimeCount) := by
        rw [ht, hk]
        intro h
        exact hc h.2
      have hr : SDL_ALService_loop fuel s = .ok s := by
        cases fuel with
        | zero => rw [SDL_ALService_loop, if_neg hcond]
        | succ f => rw [SDL_ALService_loop, if_neg hcond]
      refine ⟨s, hr, ?_, ?_, ?_, ?_, rfl, rfl, rfl, rfl⟩
      · rw [hp]; simp [seqLoop, hc]
      · rw [hl]; simp [seqLoop, hc]
      · rw [ht]; simp [seqLoop, hc]
      · simp [seqLoop, hc, writesOfEvents]

theorem SDL_ALService_tick (events done rest : List MusEvent) (time tick : Nat) (s : State)
    (hok : EventsOK events) (htick : tick + 65536 ≤ 4294967296)
    (hsplit : events = done ++ rest) (h : SeqAt events done rest time tick s) :
    ∃ s1, SDL_ALService s = .ok s1 ∧
      s1.trace = s.trace ++ Event.callALService :: writesOfEvents (seqLoop tick time rest).1 ∧
      ((seqLoop tick time rest).2.2 = [] → SeqAt events [] events 0 0 s1) ∧
      ((seqLoop tick time rest).2.2 ≠ [] →
        SeqAt events (done ++ (seqLoop tick time rest).1) (seqLoop tick time rest).2.2
          (seqLoop tick time rest).2.1 (tick + 1) s1) := by
  obtain ⟨ha, hq, hql, hp, hl, ht, hk⟩ := h
  have hfuel : rest.length ≤ (encodeEvents events).length := by
    rw [encodeEvents_length, hsplit]
    simp only [List.length_append]
    omega
  obtain ⟨s1, r1, r2, r3, r4, r5, r6, r7, r8, r9⟩ :=
    SDL_ALService_loop_refines events hok tick htick rest done time (encodeEvents events).length
      (emit s .callALService) hsplit hfuel hp hl ht hk
  have r5b : s1.trace = s.trace ++ Event.callALService :: writesOfEvents (seqLoop tick time rest).1 := by
    rw [r5]
    show (s.trace ++ [Event.callALService]) ++ _ = _
    simp
  have r6b : s1.alTimeCount = tick := r6.trans hk
  have r7b : s1.sqActive = true := r7.trans ha
  have r8b : s1.sqHack = some ⟨encodeEvents events, 0⟩ := r8.trans hq
  have r9b : s1.sqHackSeqLen = 4 * events.length := r9.trans hql
  have ha2 : ((emit s .callALService).sqActive = false) ↔ False := by
    show s.sqActive = false ↔ False
    simp [ha]
  have hp2 : (emit s .callALService).sqHackPtr = some ⟨encodeEvents events, 2 * done.length⟩ := hp
  have e1 : (s1.alTimeCount + 1) % 4294967296 = tick + 1 := by
    rw [r6b]; omega
  unfold SDL_ALService
  simp only [ha2, if_false, hp2, r1, e1]
  by_cases hz : (seqLoop tick time rest).2.2 = []
  · have hz2 : s1.sqHackLen = 0 := by rw [r3, hz]; rfl
    simp only [hz2, if_true]
    refine ⟨_, rfl, r5b, fun _ => ?_, fun hne => absurd hz hne⟩
    exact ⟨r7b, r8b, r9b, r8b, r9b, rfl, rfl⟩
  · have hz2 : s1.sqHackLen ≠ 0 := by
      rw [r3]
      have : (seqLoop tick time rest).2.2.length ≠ 0 := fun h => hz (List.eq_nil_of_length_eq_zero h)
      omega
    simp only [hz2, if_false]
    refine ⟨_, rfl, r5b, fun h => absurd h hz, fun _ => ?_⟩
    exact ⟨r7b, r8b, r9b, r2, r3, r4, rfl⟩

theorem sumD_le (es : List MusEvent) (h : ∀ e ∈ es, e.delta < 65536) :
    sumD es ≤ 65535 * es.length := by
  induction es with
  | nil => simp [sumD]
  | cons e es ih =>
    have h1 := h e (by simp)
    have h2 := ih (fun x hx => h x (by simp [hx]))
    simp only [sumD, List.length_cons]
    omega

theorem passLength_le (events : List MusEvent) (hok : EventsOK events) :
    passLength events + 65536 ≤ 4294967296 ∧ 0 < passLength events := by
  have h1 := sumD_le events (fun e he => (hok.1 e he).2.2)
  have h2 := dropLast_sumD_le events
  have h3 := hok.2
  unfold passLength
  omega

theorem SD_StartMusic_SeqAt (s : State) (events : List MusEvent) (hok : EventsOK events)
    (hm : s.MusicMode = .smm_AdLib) :
    SeqAt events [] events 0 0 (SD_StartMusic s (trackOf events)) := by
  have hm2 : (SD_MusicOff s).MusicMode = .smm_AdLib := (SD_MusicOff_keeps s).2.1.trans hm
  have e : (4 * events.length) % 65536 = 4 * events.length := Nat.mod_eq_of_lt hok.2
  unfold SD_StartMusic
  simp only [hm2, if_true, SD_MusicOn, trackOf, e]
  exact ⟨rfl, rfl, rfl, rfl, rfl, rfl, rfl⟩

theorem succ_mod_eq (j P : Nat) : (j + 1) % P = (j % P + 1) % P := by
  conv_lhs => rw [← Nat.div_add_mod j P]
  rw [Nat.add_assoc, Nat.mul_add_mod]

theorem seq_run (events : List MusEvent) (hok : EventsOK events) (s0 : State)
    (h0 : SeqAt events [] events 0 0 s0) :
    ∀ j, ∃ sj done rest, runService SDL_ALService j s0 = .ok sj ∧ events = done ++ rest ∧
      SeqAt events done rest (sumD done) (j % passLength events) sj ∧
      (∀ x ∈ sched 0 done, x < j % passLength events) ∧
      j % passLength events ≤ sumD done ∧ (rest = [] → events = []) := by
  obtain ⟨hP, hP0⟩ := passLength_le events hok
  intro j
  induction j with
  | zero =>
    refine ⟨s0, [], events, rfl, rfl, ?_, ?_, ?_, fun h => h⟩
    · simpa [sumD] using h0
    · intro x hx; simp [sched] at hx
    · simp
  | succ j ih =>
    obtain ⟨sj, done, rest, i1, i2, i3, i4, i5, i6⟩ := ih
    have hlt : j % passLength events < passLength events := Nat.mod_lt _ hP0
    obtain ⟨s1, t1, _, t3, t4⟩ :=
      SDL_ALService_tick events done rest (sumD done) (j % passLength events) sj hok
        (by omega) i2 i3
    obtain ⟨p1, p2, p3, p4⟩ := seq_tick_pure events done rest (j % passLength events) i2 i4 i5 i6
    have hrun : runService SDL_ALService (j + 1) s0 = .ok s1 := by
      rw [runService_succ_last, i1]
      exact t1
    by_cases hz : (seqLoop (j % passLength events) (sumD done) rest).2.2 = []
    · have hq := p4 hz
      have hmod : (j + 1) % passLength events = 0 := by
        rw [succ_mod_eq, hq, Nat.mod_self]
      rw [hmod]
      refine ⟨s1, [], events, hrun, rfl, ?_, ?_, Nat.zero_le _, fun h => h⟩
      · simpa [sumD] using t3 hz
      · intro x hx; simp [sched] at hx
    · obtain ⟨q1, q2, q3, q4⟩ := p3 hz
      have hmod : (j + 1) % passLength events = j % passLength events + 1 := by
        rw [succ_mod_eq, Nat.mod_eq_of_lt q4]
      rw [hmod]
      refine ⟨s1, done ++ (seqLoop (j % passLength events) (sumD done) rest).1,
        (seqLoop (j % passLength events) (sumD done) rest).2.2, hrun, ?_, ?_, q3, q2,
        fun h => absurd h hz⟩
      · rw [List.append_assoc, ← p2]; exact i2
      · rw [← q1]; exact t4 hz

theorem sched_nil_of_lt_zero (done : List MusEvent) (h : ∀ x ∈ sched 0 done, x < 0) : done = [] := by
  cases done with
  | nil => rfl
  | cons e es => exact absurd (h 0 (by simp [sched])) (Nat.lt_irrefl 0)

theorem seq_tick_writes (events : List MusEvent) (hok : EventsOK events) (s0 : State)
    (h0 : SeqAt events [] events 0 0 s0) (j : Nat) :
    ∃ sj sj1, runService SDL_ALService j s0 = .ok sj ∧ SDL_ALService sj = .ok sj1 ∧
      runService SDL_ALService (j + 1) s0 = .ok sj1 ∧
      sj.alTimeCount = j % passLength events ∧
      sj1.trace = sj.trace ++
        Event.callALService :: writesOfEvents (dueAt (j % passLength events) 0 events) ∧
      sj1.alTimeCount =
        (if j % passLength events + 1 < passLength events then j % passLength events + 1 else 0) := by
  obtain ⟨hP, hP0⟩ := passLength_le events hok
  obtain ⟨sj, done, rest, i1, i2, i3, i4, i5, i6⟩ := seq_run events hok s0 h0 j
  have hlt : j % passLength events < passLength events := Nat.mod_lt _ hP0
  obtain ⟨s1, t1, t2, t3, t4⟩ :=
    SDL_ALService_tick events done rest (sumD done) (j % passLength events) sj hok
      (by omega) i2 i3
  obtain ⟨p1, p2, p3, p4⟩ := seq_tick_pure events done rest (j % passLength events) i2 i4 i5 i6
  have hrun : runService SDL_ALService (j + 1) s0 = .ok s1 := by
    rw [runService_succ_last, i1]
    exact t1
  refine ⟨sj, s1, i1, t1, hrun, i3.2.2.2.2.2.2, by rw [t2, p1], ?_⟩
  by_cases hz : (seqLoop (j % passLength events) (sumD done) rest).2.2 = []
  · have hq := p4 hz
    rw [if_neg (by omega)]
    exact (t3 hz).2.2.2.2.2.2
  · rw [if_pos (p3 hz).2.2.2]
    exact (t4 hz).2.2.2.2.2.2

theorem seq_run_period (events : List MusEvent) (hok : EventsOK events) (s0 : State)
    (h0 : SeqAt events [] events 0 0 s0) :
    ∃ sP, runService SDL_ALService (passLength events) s0 = .ok sP ∧
      SeqAt events [] events 0 0 sP := by
  obtain ⟨sj, done, rest, i1, i2, i3, i4, _, _⟩ := seq_run events hok s0 h0 (passLength events)
  rw [Nat.mod_self] at i3 i4
  have hd := sched_nil_of_lt_zero done i4
  subst hd
  rw [List.nil_append] at i2
  subst i2
  exact ⟨sj, i1, by simpa [sumD] using i3⟩

theorem dueAt_last (events : List MusEvent) (hn : events ≠ []) :
    ∃ pre, dueAt (passLength events - 1) 0 events = pre ++ [events.getLast hn] := by
  have e := List.dropLast_append_getLast hn
  refine ⟨dueAt (passLength events - 1) 0 events.dropLast, ?_⟩
  conv_lhs => rw [← e]
  rw [dueAt_append]
  simp [dueAt, passLength]

/-- The scheduled time of the event of index `k` is `base` plus the deltas of the
events before it. -/
theorem sched_getElem (es : List MusEvent) : ∀ (base k : Nat), k < es.length →
    (sched base es)[k]? = some (base + sumD (es.take k)) := by
  induction es with
  | nil => intro base k hk; simp at hk
  | cons e es ih =>
    intro base k hk
    cases k with
    | zero => simp [sched, sumD]
    | succ k =>
      simp only [List.length_cons] at hk
      simp only [sched, List.getElem?_cons_succ, List.take_succ_cons, sumD]
      rw [ih (base + e.delta) k (by omega)]
      simp [Nat.add_assoc]

/-- The events due at `t` are the events whose scheduled time is `t`, in the
order of the list. -/
theorem dueAt_eq_filter (t : Nat) (es : List MusEvent) : ∀ base,
    dueAt t base es =
      ((es.zip (sched base es)).filter (fun p => decide (p.2 = t))).map Prod.fst := by
  induction es with
  | nil => intro base; rfl
  | cons e es ih =>
    intro base
    by_cases h : base = t <;> simp [dueAt, sched, h, ih]

/-- C12: the music device is FM and `SD_StartMusic` starts a track of `n`
events with byte registers and values, 16-bit deltas and a length `4n` that
fits 16 bits.  For every tick `t` of the first pass (`t` at most the scheduled
time of the last event) the first `t` calls of `SDL_ALService` return, the tick
accumulator is then `t`, and the next call returns having appended to the
trace, after the mark of its entry, exactly one register write per event whose
scheduled time is `t`, in buffer order; the accumulator is `t + 1` after it,
except that the call which consumes the last event leaves it rewound to 0.
With the sequencer inactive the call returns the state it was given, the mark
of its entry added to the trace and no register write. -/
theorem SDL_ALService_schedule (s : State) (events : List MusEvent) (t : Nat)
    (hm : s.MusicMode = .smm_AdLib) (hok : EventsOK events) (ht : t < passLength events) :
    (∃ st st1, runService SDL_ALService t (SD_StartMusic s (trackOf events)) = .ok st ∧
        SDL_ALService st = .ok st1 ∧ st.alTimeCount = t ∧
        st1.trace = st.trace ++ Event.callALService :: writesOfEvents (dueAt t 0 events) ∧
        st1.alTimeCount = (if t + 1 < passLength events then t + 1 else 0)) ∧
      ∀ x : State, x.sqActive = false →
        SDL_ALService x = .ok { x with trace := x.trace ++ [Event.callALService] } ∧
          writesOf [Event.callALService] = [] := by
  constructor
  · obtain ⟨sj, sj1, a1, a2, _, a4, a5, a6⟩ :=
      seq_tick_writes events hok _ (SD_StartMusic_SeqAt s events hok hm) t
    rw [Nat.mod_eq_of_lt ht] at a4 a5 a6
    exact ⟨sj, sj1, a1, a2, a4, a5, a6⟩
  · intro x hx
    refine ⟨?_, rfl⟩
    simp [SDL_ALService, emit, hx]

/-- Witness of C12: `demoTrack` on the FM music device, tick 1, at which the
second event is due and the pass ends. -/
theorem SDL_ALService_schedule_witness :
    ∃ st st1, runService SDL_ALService 1 (SD_StartMusic demoMusic demoTrack) = .ok st ∧
      SDL_ALService st = .ok st1 ∧
      st1.trace = st.trace ++ [Event.callALService, Event.regWrite 0xB0 0x2A] ∧
      st1.alTimeCount = 0 := by
  obtain ⟨st, st1, h1, h2, _, h4, h5⟩ :=
    (SDL_ALService_schedule demoMusic demoEvents 1 rfl (by decide) (by decide)).1
  exact ⟨st, st1, h1, h2, h4, h5⟩

/-- C13: the music device is FM and `SD_StartMusic` starts a track of at least
one event.  With `P = 1 + (d_0 + ... + d_(n-2))`, the call of index `P - 1`
writes the last event of the track, after `P` calls of `SDL_ALService` the read
pointer, the remaining length, the tick accumulator and the time of the next
event are those `SD_StartMusic` left, the sequencer still active, and for every
`t` the calls of index `t` and `t + P` both return and append the same register
writes to the trace. -/
theorem sequencer_periodic (s : State) (events : List MusEvent)
    (hm : s.MusicMode = .smm_AdLib) (hok : EventsOK events) (hn : events ≠ []) :
    (∃ pre, dueAt (passLength events - 1) 0 events = pre ++ [events.getLast hn]) ∧
      (∃ sP, runService SDL_ALService (passLength events) (SD_StartMusic s (trackOf events))
          = .ok sP ∧
        sP.sqHackPtr = (SD_StartMusic s (trackOf events)).sqHackPtr ∧
        sP.sqHackLen = (SD_StartMusic s (trackOf events)).sqHackLen ∧
        sP.alTimeCount = (SD_StartMusic s (trackOf events)).alTimeCount ∧
        sP.sqHackTime = (SD_StartMusic s (trackOf events)).sqHackTime ∧
        sP.sqActive = true) ∧
      ∀ t, ∃ sa sa1 sb sb1 w,
        runService SDL_ALService t (SD_StartMusic s (trackOf events)) = .ok sa ∧
        SDL_ALService sa = .ok sa1 ∧
        runService SDL_ALService (t + passLength events) (SD_StartMusic s (trackOf events))
          = .ok sb ∧
        SDL_ALService sb = .ok sb1 ∧
        sa1.trace = sa.trace ++ Event.callALService :: w ∧
        sb1.trace = sb.trace ++ Event.callALService :: w ∧
        w = writesOfEvents (dueAt (t % passLength events) 0 events) := by
  have h0 := SD_StartMusic_SeqAt s events hok hm
  refine ⟨dueAt_last events hn, ?_, fun t => ?_⟩
  · obtain ⟨sP, r1, r2⟩ := seq_run_period events hok _ h0
    obtain ⟨a1, _, _, a4, a5, a6, a7⟩ := h0
    obtain ⟨b1, _, _, b4, b5, b6, b7⟩ := r2
    exact ⟨sP, r1, b4.trans a4.symm, b5.trans a5.symm, b7.trans a7.symm, b6.trans a6.symm, b1⟩
  · obtain ⟨sa, sa1, a1, a2, _, _, a5, _⟩ := seq_tick_writes events hok _ h0 t
    obtain ⟨sb, sb1, b1, b2, _, _, b5, _⟩ := seq_tick_writes events hok _ h0 (t + passLength events)
    rw [Nat.add_mod_right] at b5
    exact ⟨sa, sa1, sb, sb1, _, a1, a2, b1, b2, a5, b5, rfl⟩

/-- Witness of C13: `demoTrack` on the FM music device, whose pass has two
ticks. -/
theorem sequencer_periodic_witness :
    ∃ sP, runService SDL_ALService 2 (SD_StartMusic demoMusic demoTrack) = .ok sP ∧
      sP.sqHackPtr = some ⟨demoTrack.values, 0⟩ ∧ sP.sqHackLen = 8 ∧
      sP.alTimeCount = 0 ∧ sP.sqHackTime = 0 := by
  obtain ⟨sP, h1, h2, h3, h4, h5, _⟩ :=
    (sequencer_periodic demoMusic demoEvents rfl (by decide) (by decide)).2.1
  exact ⟨sP, h1, h2, h3, h4, h5⟩

/-! ## Byte order of a music event -/

/-- C18, the code at the failing input: the event bytes A0 57 01 00, which are
register 0xA0, value 0x57 and the little-endian delta 1.  On a little-endian
host the loop decodes the delta 1; on a big-endian host register and value are
the same and the delta, loaded as a host-order `uint16_t` with no swap, is
256. -/
theorem decodeEvent_big_endian_delta :
    decodeEvent false 0xA0 0x57 1 0 = (0xA0, 0x57, 1) ∧
      decodeEvent true 0xA0 0x57 1 0 = (0xA0, 0x57, 256) := by
  decide

/-! ## Repeated units of an effect: sample runs -/

/-- Counterexample to C20: effect 0 of the sample table on the FM device, music
on FM.  The first service call consumes the sample 10 and writes it to the
register `alFreqL`; the sequencer then writes 0x57 to that register; the second
service call consumes the second sample, 10 again and not the last, and
changes the register from 0x57 to 10. -/
theorem SDL_ALSoundService_restores_register :
    ∃ s1 t s2, SDL_ALSoundService demoALPlaying = .ok s1 ∧ SDL_ALService s1 = .ok t ∧
      SDL_ALSoundService t = .ok s2 ∧
      s1.alSound = some ⟨[10, 10, 0, 20], 1⟩ ∧ t.alSound = s1.alSound ∧
      s2.alSound = some ⟨[10, 10, 0, 20], 2⟩ ∧
      regValue s1.trace alFreqL = some 10 ∧ regValue t.trace alFreqL = some 0x57 ∧
      regValue s2.trace alFreqL = some 10 ∧
      regValue s2.trace alFreqL ≠ regValue t.trace alFreqL := by
  refine ⟨_, _, _, rfl, rfl, rfl, ?_, ?_, ?_, ?_, ?_, ?_, ?_⟩ <;> decide

/-- Witness of C20, amended: effect 0 of the sample table, whose first two
samples are both 10, on the tone device and on the FM device; the second FM
call writes 10 to register 0xA0 and 0x2C to register 0xB0, as the first did. -/
theorem service_repeat_unit_no_change_witness :
    (∃ s1 s2, SDL_PCService demoPCPlaying = .ok s1 ∧ SDL_PCService s1 = .ok s2 ∧
        s2.pcSound.isSome = true ∧
        s2.SD_PC_Speaker_On = s1.SD_PC_Speaker_On ∧
        s2.SD_SDL_CurrentBeepSample = s1.SD_SDL_CurrentBeepSample ∧
        s2.SD_SDL_BeepHalfCycleCounter = s1.SD_SDL_BeepHalfCycleCounter ∧
        s2.SD_SDL_BeepHalfCycleCounterUpperBound = s1.SD_SDL_BeepHalfCycleCounterUpperBound ∧
        s2.pcSound = some ⟨[10, 10, 0, 20], 2⟩ ∧ s2.pcLengthLeft = 2) ∧
      (∃ s1 s2, SDL_ALSoundService demoALPlaying = .ok s1 ∧ SDL_ALSoundService s1 = .ok s2 ∧
        s2.alSound.isSome = true ∧ (∀ r, regValue s2.trace r = regValue s1.trace r) ∧
        s2.trace = s1.trace ++
          [Event.callALSoundService, Event.regWrite 0xA0 10, Event.regWrite 0xB0 0x2C]) := by
  constructor
  · have h := service_repeat_unit_no_change.1 demoPCPlaying _ ⟨[10, 10, 0, 20], 0⟩ 10 rfl rfl rfl
      (by decide) (by decide) rfl
    obtain ⟨s2, h1, h2, h3, h4, h5, h6, h7, h8, _⟩ := h _ rfl rfl rfl
    exact ⟨_, s2, rfl, h1, h2, h3, h4, h5, h6, h7, h8⟩
  · have h := service_repeat_unit_no_change.2 demoALPlaying _ ⟨[10, 10, 0, 20], 0⟩ 10 rfl rfl rfl
      (by decide) (by decide) rfl
    obtain ⟨s2, h1, h2, h3, _, h5, _⟩ := h _ [] rfl rfl rfl (List.append_nil _).symm
      (fun w hw => absurd hw (List.not_mem_nil w))
    rw [List.append_assoc] at h5
    exact ⟨_, s2, rfl, h1, h2, h3, h5⟩

/-! ## Register writes of the FM service routine -/

theorem pcCountDown_keeps (s : State) :
    (pcCountDown s).SD_SDL_CurrentBeepSample = s.SD_SDL_CurrentBeepSample ∧
      (pcCountDown s).SD_SDL_BeepHalfCycleCounter = s.SD_SDL_BeepHalfCycleCounter ∧
      (pcCountDown s).SD_SDL_BeepHalfCycleCounterUpperBound =
        s.SD_SDL_BeepHalfCycleCounterUpperBound ∧
      (pcCountDown s).pcLastSample = s.pcLastSample ∧
      ((s.pcLengthLeft + 4294967295) % 4294967296 ≠ 0 →
        (pcCountDown s).SD_PC_Speaker_On = s.SD_PC_Speaker_On) ∧
      ((s.pcLengthLeft + 4294967295) % 4294967296 = 0 →
        (pcCountDown s).SD_PC_Speaker_On = false) := by
  by_cases hl : (s.pcLengthLeft + 4294967295) % 4294967296 = 0
  · simp only [pcCountDown, if_pos hl, SDL_PCStopSound, SDL_PCStopSound_Low, unlockIfUp_eq,
      lockIfUp_eq]
    exact ⟨trivial, trivial, trivial, trivial, fun h => absurd hl h, fun _ => trivial⟩
  · simp only [pcCountDown, if_neg hl]
    exact ⟨trivial, trivial, trivial, trivial, fun _ => trivial, fun h => absurd h hl⟩

/-- C22: `SDL_PCService` consumes a sample `smp` below 255 that differs from
`pcLastSample`, the period table being the one `SD_Startup` fills and the
output rate 49716 Hz.  The call returns.  For `smp = 0` the speaker is off and
level, counter and bound are as before.  For `smp` not 0 the level and the
counter are 0, the bound is `49716 * pcSoundLookup[smp]` with
`pcSoundLookup[smp] = 60 * smp`, a 16-bit value whose product with the rate
fits a 32-bit `int`, and the speaker is on, unless the sample was the last of
the effect and the stop that follows has turned it off. -/
theorem SDL_PCService_new_sample (s : State) (p : BytePtr) (smp : Nat)
    (hp : s.pcSound = some p) (hu : p.buf[p.pos]? = some smp)
    (hd : smp ≠ s.pcLastSample) (hs : smp < 255)
    (ht : s.pcSoundLookup = SD_Startup_pcSoundLookup) (hf : s.freq = 49716) :
    ∃ s1, SDL_PCService s = .ok s1 ∧ s1.pcLastSample = smp ∧
      (smp = 0 →
        s1.SD_PC_Speaker_On = false ∧
        s1.SD_SDL_CurrentBeepSample = s.SD_SDL_CurrentBeepSample ∧
        s1.SD_SDL_BeepHalfCycleCounter = s.SD_SDL_BeepHalfCycleCounter ∧
        s1.SD_SDL_BeepHalfCycleCounterUpperBound = s.SD_SDL_BeepHalfCycleCounterUpperBound) ∧
      (smp ≠ 0 →
        s1.SD_PC_Speaker_On = decide ((s.pcLengthLeft + 4294967295) % 4294967296 ≠ 0) ∧
        s1.SD_SDL_CurrentBeepSample = 0 ∧ s1.SD_SDL_BeepHalfCycleCounter = 0 ∧
        s1.SD_SDL_BeepHalfCycleCounterUpperBound = 49716 * (60 * smp) ∧
        s.pcSoundLookup[smp]? = some (60 * smp) ∧
        60 * smp < 65536 ∧ 49716 * (60 * smp) < 2147483648) := by
  have hlk : s.pcSoundLookup[smp]? = some (smp * 60) := by rw [ht]; exact lookup_get smp hs
  by_cases h0 : smp = 0
  · subst h0
    have hn : pcNewSample
        { s with trace := s.trace ++ [.callPCService], pcSound := some ⟨p.buf, p.pos + 1⟩ } 0 =
        .ok { s with
          trace := s.trace ++ [.callPCService]
          pcSound := some ⟨p.buf, p.pos + 1⟩
          pcLastSample := 0
          SD_PC_Speaker_On := false } := by
      simp [pcNewSample, hd]
    simp only [SDL_PCService, emit, hp, hu, hn]
    obtain ⟨k1, k2, k3, k4, k5, k6⟩ := pcCountDown_keeps
      { s with
          trace := s.trace ++ [.callPCService]
          pcSound := some ⟨p.buf, p.pos + 1⟩
          pcLastSample := 0
          SD_PC_Speaker_On := false }
    refine ⟨_, rfl, k4, fun _ => ⟨?_, k1, k2, k3⟩, fun h => absurd rfl h⟩
    by_cases hl : (s.pcLengthLeft + 4294967295) % 4294967296 = 0
    · exact k6 hl
    · exact k5 hl
  · have e1 : ((49716 : Int) * ((smp * 60 : Nat) : Int) % 4294967296).toNat = 49716 * (60 * smp) := by
      omega
    have hn : pcNewSample
        { s with trace := s.trace ++ [.callPCService], pcSound := some ⟨p.buf, p.pos + 1⟩ } smp =
        .ok { s with
          trace := s.trace ++ [.callPCService]
          pcSound := some ⟨p.buf, p.pos + 1⟩
          pcLastSample := smp
          SD_PC_Speaker_On := true
          SD_SDL_CurrentBeepSample := 0
          SD_SDL_BeepHalfCycleCounter := 0
          SD_SDL_BeepHalfCycleCounterUpperBound := 49716 * (60 * smp) } := by
      simp only [pcNewSample, ne_eq, hd, not_false_eq_true, if_true, h0, hlk, hf, e1]
    simp only [SDL_PCService, emit, hp, hu, hn]
    obtain ⟨k1, k2, k3, k4, k5, k6⟩ := pcCountDown_keeps
      { s with
          trace := s.trace ++ [.callPCService]
          pcSound := some ⟨p.buf, p.pos + 1⟩
          pcLastSample := smp
          SD_PC_Speaker_On := true
          SD_SDL_CurrentBeepSample := 0
          SD_SDL_BeepHalfCycleCounter := 0
          SD_SDL_BeepHalfCycleCounterUpperBound := 49716 * (60 * smp) }
    refine ⟨_, rfl, k4, fun h => absurd h h0, fun _ => ⟨?_, k1, k2, k3, ?_, by omega, by omega⟩⟩
    · by_cases hl : (s.pcLengthLeft + 4294967295) % 4294967296 = 0
      · rw [k6 hl]
        exact (decide_eq_false (fun h => h hl)).symm
      · rw [k5 hl]
        exact (decide_eq_true hl).symm
    · rw [hlk, Nat.mul_comm]

/-- Witness of C22: the first sample, 10, of effect 0 of the sample table. -/
theorem SDL_PCService_new_sample_witness :
    ∃ s1, SDL_PCService demoPCPlaying = .ok s1 ∧ s1.SD_PC_Speaker_On = true ∧
      s1.SD_SDL_BeepHalfCycleCounterUpperBound = 29829600 := by
  obtain ⟨s1, h1, _, _, h4⟩ :=
    SDL_PCService_new_sample demoPCPlaying ⟨[10, 10, 0, 20], 0⟩ 10 rfl rfl (by decide)
      (by decide) rfl rfl
  obtain ⟨k1, _, _, k4, _⟩ := h4 (by decide)
  exact ⟨s1, h1, k1, k4⟩

/-- C23, the code at the failing input: a tone effect of the two samples 10 and
255.  `SD_PlaySound` accepts it, the first service call consumes 10, and the
second consumes 255, which differs from the last sample and is not 0, and
looks up `pcSoundLookup[255]` in the table of 255 entries: a read outside the
table. -/
theorem SDL_PCService_lookup_outside_table :
    ∃ s0 s1, SD_PlaySound demoSample255 0 = .ok s0 ∧
      s0.pcSound = some ⟨[10, 255], 0⟩ ∧ s0.pcLengthLeft = 2 ∧
      SDL_PCService s0 = .ok s1 ∧ s1.pcLastSample = 10 ∧ s1.pcSound = some ⟨[10, 255], 1⟩ ∧
      s1.pcSoundLookup = SD_Startup_pcSoundLookup ∧
      SDL_PCService s1 = .error .fault := by
  refine ⟨_, _, rfl, ?_, ?_, rfl, ?_, ?_, ?_, ?_⟩
  · decide
  · decide
  · decide
  · decide
  · rfl
  · rfl

/-! ## The register writes of a whole FM effect -/

theorem alBlock_lt (b : Nat) : (((b &&& 7) <<< 2) ||| 0x20) < 256 := by
  have h : b &&& 7 ≤ 7 := Nat.and_le_right
  generalize b &&& 7 = x at h
  interval_cases x <;> decide

theorem writesOf_alSampleWrites_eq (b smp : Nat) (hs : smp < 256) :
    writesOf (alSampleWrites (((b &&& 7) <<< 2) ||| 0x20) smp) = alUnitWrites b smp := by
  have hb := alBlock_lt b
  unfold alSampleWrites alUnitWrites
  by_cases h0 : smp = 0
  · simp [h0, writesOf]
  · simp [h0, writesOf, Nat.mod_eq_of_lt hs, Nat.mod_eq_of_lt hb]

/-- After `k` service calls, not the last, the writes of the first `k` units. -/
theorem al_run_writes (b : Nat) (k : Nat) : ∀ (t : State) (p : BytePtr),
    t.alSound = some p → t.alBlock = (((b &&& 7) <<< 2) ||| 0x20) → k < t.alLengthLeft →
    t.alLengthLeft < 4294967296 → p.pos + t.alLengthLeft ≤ p.buf.length →
    (∀ x ∈ p.buf, x < 256) →
    ∃ tk, runService SDL_ALSoundService k t = .ok tk ∧
      tk.alSound = some ⟨p.buf, p.pos + k⟩ ∧ tk.alLengthLeft = t.alLengthLeft - k ∧
      tk.alBlock = t.alBlock ∧
      writesOf tk.trace =
        writesOf t.trace ++ ((p.buf.drop p.pos).take k).flatMap (alUnitWrites b) := by
  induction k with
  | zero =>
    intro t p hp _ _ _ _ _
    exact ⟨t, rfl, by simpa using hp, rfl, rfl, by simp⟩
  | succ k ih =>
    intro t p hp hb hk hlt hfit hbytes
    obtain ⟨tk, r1, r2, r3, r4, r5⟩ := ih t p hp hb (by omega) hlt hfit hbytes
    have hpos : p.pos + k < p.buf.length := by omega
    have hstep := SDL_ALSoundService_more tk ⟨p.buf, p.pos + k⟩ r2 hpos (by omega) (by omega)
    have hrun : runService SDL_ALSoundService (k + 1) t =
        SDL_ALSoundService tk := by
      rw [runService_succ_last, r1]
    rw [hrun, hstep]
    refine ⟨_, rfl, rfl, ?_, r4, ?_⟩
    · show tk.alLengthLeft - 1 = _
      omega
    · show writesOf (tk.trace ++ [Event.callALSoundService] ++
        alSampleWrites tk.alBlock p.buf[p.pos + k]) = _
      rw [writesOf_append, writesOf_append, r5, r4, hb,
        writesOf_alSampleWrites_eq b _ (hbytes _ (List.getElem_mem hpos))]
      have e : (p.buf.drop p.pos).take (k + 1) =
          (p.buf.drop p.pos).take k ++ [p.buf[p.pos + k]] := by
        rw [List.take_succ]
        congr 1
        rw [List.getElem?_drop, List.getElem?_eq_getElem hpos]
        rfl
      rw [e, List.flatMap_append]
      simp [writesOf]

theorem SDL_ALPlaySound_Low_facts (s : State) (e : SoundEntry)
    (hi : (e.inst.mSus ||| e.inst.cSus) ≠ 0) :
    ∃ s1, SDL_ALPlaySound_Low s e = .ok s1 ∧
      s1.alSound = some ⟨e.data, 0⟩ ∧ s1.alLengthLeft = e.length ∧
      s1.alBlock = (((e.block &&& 7) <<< 2) ||| 0x20) ∧
      writesOf s1.trace =
        writesOf s.trace ++ (alFreqH, 0) :: fxInstWrites s.quiet_sfx e.inst := by
  simp only [SDL_ALPlaySound_Low, if_neg hi]
  refine ⟨_, rfl, ?_, ?_, ?_, ?_⟩
  · simp [SDL_AlSetFXInst, SDL_ALStopSound_Low, alOut, emit]
  · simp [SDL_AlSetFXInst, SDL_ALStopSound_Low, alOut, emit]
  · simp [SDL_AlSetFXInst, SDL_ALStopSound_Low, alOut, emit]
  · simp only [SDL_AlSetFXInst, SDL_ALStopSound_Low, alOut, emit, List.append_assoc,
      writesOf_append, writesOf, List.cons_append, List.nil_append, Nat.add_zero]
    rfl

/-- C24: an FM effect of `L` samples, `L` at least 1, all of them bytes, whose
instrument passes the test of `SDL_ALPlaySound_Low`.  The play step writes the
key-off and the ten instrument registers; the `L` service calls that follow
return and write, for every sample in order, `alUnitWrites` of it, and the
last call then writes the key-off `(alFreqH, 0)`.  After `k < L` calls the
writes are those of the first `k` samples. -/
theorem FM_effect_write_trace (s : State) (e : SoundEntry)
    (hL : 1 ≤ e.length) (hlt : e.length < 4294967296) (hdata : e.data.length = e.length)
    (hbytes : ∀ x ∈ e.data, x < 256) (hi : (e.inst.mSus ||| e.inst.cSus) ≠ 0) :
    ∃ s1 sL, SDL_ALPlaySound_Low s e = .ok s1 ∧
      writesOf s1.trace =
        writesOf s.trace ++ (alFreqH, 0) :: fxInstWrites s.quiet_sfx e.inst ∧
      runService SDL_ALSoundService e.length s1 = .ok sL ∧
      writesOf sL.trace =
        writesOf s1.trace ++ e.data.flatMap (alUnitWrites e.block) ++ [(alFreqH, 0)] ∧
      ∀ k, k < e.length → ∃ sk, runService SDL_ALSoundService k s1 = .ok sk ∧
        writesOf sk.trace = writesOf s1.trace ++ (e.data.take k).flatMap (alUnitWrites e.block) := by
  obtain ⟨s1, h1, h2, h3, h4, h5⟩ := SDL_ALPlaySound_Low_facts s e hi
  have hrun : ∀ k, k < e.length → ∃ tk, runService SDL_ALSoundService k s1 = .ok tk ∧
      tk.alSound = some ⟨e.data, k⟩ ∧ tk.alLengthLeft = e.length - k ∧
      tk.alBlock = (((e.block &&& 7) <<< 2) ||| 0x20) ∧
      writesOf tk.trace = writesOf s1.trace ++ (e.data.take k).flatMap (alUnitWrites e.block) := by
    intro k hk
    obtain ⟨tk, r1, r2, r3, r4, r5⟩ :=
      al_run_writes e.block k s1 ⟨e.data, 0⟩ h2 h4 (by omega) (by omega)
        (by show 0 + s1.alLengthLeft ≤ e.data.length; omega) hbytes
    refine ⟨tk, r1, by simpa using r2, by rw [r3, h3], r4.trans h4, ?_⟩
    simpa using r5
  obtain ⟨tk, r1, r2, r3, r4, r5⟩ := hrun (e.length - 1) (by omega)
  have hpos : e.length - 1 < e.data.length := by omega
  have hlast := SDL_ALSoundService_last tk ⟨e.data, e.length - 1⟩ r2 hpos (by omega)
  have hrunL : runService SDL_ALSoundService e.length s1 = SDL_ALSoundService tk := by
    have e1 : e.length = (e.length - 1) + 1 := by omega
    rw [e1, runService_succ_last]
    have e2 : e.length - 1 + 1 - 1 = e.length - 1 := by omega
    simp only [e2, r1]
  refine ⟨s1, _, h1, h5, hrunL.trans hlast, ?_, fun k hk => ?_⟩
  · show writesOf (tk.trace ++ [Event.callALSoundService] ++
        alSampleWrites tk.alBlock e.data[e.length - 1] ++ [Event.regWrite (alFreqH + 0) 0]) = _
    rw [writesOf_append, writesOf_append, writesOf_append, r5, r4,
      writesOf_alSampleWrites_eq e.block _ (hbytes _ (List.getElem_mem hpos))]
    have e3 : e.data = e.data.take (e.length - 1) ++ [e.data[e.length - 1]] := by
      have := List.take_append_drop (e.length - 1) e.data
      conv_lhs => rw [← this]
      congr 1
      rw [List.drop_eq_getElem_cons hpos]
      congr 1
      apply List.drop_eq_nil_of_le
      omega
    conv_rhs => rw [e3]
    rw [List.flatMap_append]
    simp [writesOf]
  · obtain ⟨tk, r1, _, _, _, r5⟩ := hrun k hk
    exact ⟨tk, r1, r5⟩

/-- Witness of C24: effect 0 of the sample table, samples 10, 10, 0, 20 and
block 3. -/
theorem FM_effect_write_trace_witness :
    ∃ s1 sL, SDL_ALPlaySound_Low demoAL ⟨0x1000, 4, 5, demoInst, 3, [10, 10, 0, 20]⟩ = .ok s1 ∧
      runService SDL_ALSoundService 4 s1 = .ok sL ∧
      writesOf sL.trace = writesOf s1.trace ++
        [(0xA0, 10), (0xB0, 0x2C), (0xA0, 10), (0xB0, 0x2C), (0xB0, 0), (0xA0, 20), (0xB0, 0x2C),
          (0xB0, 0)] := by
  obtain ⟨s1, sL, h1, _, h3, h4, _⟩ :=
    FM_effect_write_trace demoAL ⟨0x1000, 4, 5, demoInst, 3, [10, 10, 0, 20]⟩
      (by decide) (by decide) rfl (by decide) (by decide)
  rw [List.append_assoc] at h4
  exact ⟨s1, sL, h1, h3, h4⟩

/-! ## The sequencer stays inside its track -/

theorem SDL_ALService_loop_step_facts (fuel : Nat) (s : State) (buf : List Nat) (pos : Nat)
    (hc : s.sqHackLen ≠ 0 ∧ s.sqHackTime ≤ s.alTimeCount)
    (hp : s.sqHackPtr = some ⟨buf, pos⟩) (h3 : 2 * pos + 3 < buf.length) :
    ∃ t, SDL_ALService_loop (fuel + 1) s = SDL_ALService_loop fuel t ∧
      t.sqHackPtr = some ⟨buf, pos + 2⟩ ∧ t.sqHackLen = (s.sqHackLen + 65532) % 65536 ∧
      t.sqActive = s.sqActive ∧ t.sqHack = s.sqHack ∧ t.sqHackSeqLen = s.sqHackSeqLen := by
  have g0 : 2 * pos < buf.length := by omega
  have g1 : 2 * pos + 1 < buf.length := by omega
  have g2 : 2 * pos + 2 < buf.length := by omega
  exact ⟨_, SDL_ALService_loop_step fuel s ⟨buf, pos⟩ _ _ _ _ hc hp
      (List.getElem?_eq_getElem g0) (List.getElem?_eq_getElem g1)
      (List.getElem?_eq_getElem g2) (List.getElem?_eq_getElem h3),
    rfl, rfl, rfl, rfl, rfl⟩

theorem SDL_ALService_loop_inv (buf : List Nat) (L : Nat) (hfit : L ≤ buf.length)
    (hLlt : L < 65536) (fuel : Nat) :
    ∀ (s : State) (pos : Nat), s.sqHackPtr = some ⟨buf, pos⟩ → s.sqHackLen % 4 = 0 →
      2 * pos + s.sqHackLen = L → s.sqHackLen ≤ 4 * fuel →
      ∃ s1 pos1, SDL_ALService_loop fuel s = .ok s1 ∧ s1.sqHackPtr = some ⟨buf, pos1⟩ ∧
        s1.sqHackLen % 4 = 0 ∧ 2 * pos1 + s1.sqHackLen = L ∧
        s1.sqActive = s.sqActive ∧ s1.sqHack = s.sqHack ∧ s1.sqHackSeqLen = s.sqHackSeqLen := by
  induction fuel with
  | zero =>
    intro s pos hp h4 heq hf
    have h0 : s.sqHackLen = 0 := by omega
    exact ⟨s, pos, by simp [SDL_ALService_loop, h0], hp, h4, heq, rfl, rfl, rfl⟩
  | succ fuel ih =>
    intro s pos hp h4 heq hf
    by_cases hc : s.sqHackLen ≠ 0 ∧ s.sqHackTime ≤ s.alTimeCount
    · have hc1 := hc.1
      obtain ⟨t, st, t1, t2, t3, t4, t5⟩ :=
        SDL_ALService_loop_step_facts fuel s buf pos hc hp (by omega)
      have e4 : (s.sqHackLen + 65532) % 65536 = s.sqHackLen - 4 := by omega
      rw [e4] at t2
      obtain ⟨s1, pos1, r1, r2, r3, r4, r5, r6, r7⟩ :=
        ih t (pos + 2) t1 (by omega) (by omega) (by omega)
      exact ⟨s1, pos1, st.trans r1, r2, r3, r4, r5.trans t3, r6.trans t4, r7.trans t5⟩
    · exact ⟨s, pos, by rw [SDL_ALService_loop, if_neg hc], hp, h4, heq, rfl, rfl, rfl⟩

theorem SDL_ALService_SeqIn (buf : List Nat) (L : Nat) (hfit : L ≤ buf.length)
    (hL4 : L % 4 = 0) (hLlt : L < 65536) (s : State) (h : SeqIn buf L s) :
    ∃ s1, SDL_ALService s = .ok s1 ∧ SeqIn buf L s1 := by
  obtain ⟨ha, hq, hql, h4, pos, hp, heq⟩ := h
  obtain ⟨s1, pos1, r1, r2, r3, r4, r5, r6, r7⟩ :=
    SDL_ALService_loop_inv buf L hfit hLlt buf.length (emit s .callALService) pos hp h4 heq
      (by show s.sqHackLen ≤ 4 * buf.length; omega)
  have ha2 : ((emit s .callALService).sqActive = false) ↔ False := by
    show s.sqActive = false ↔ False
    simp [ha]
  have hp2 : (emit s .callALService).sqHackPtr = some ⟨buf, pos⟩ := hp
  have r5b : s1.sqActive = true := r5.trans ha
  have r6b : s1.sqHack = some ⟨buf, 0⟩ := r6.trans hq
  have r7b : s1.sqHackSeqLen = L := r7.trans hql
  unfold SDL_ALService
  simp only [ha2, if_false, hp2, r1]
  by_cases hz : s1.sqHackLen = 0
  · simp only [hz, if_true]
    exact ⟨_, rfl, r5b, r6b, r7b, by show s1.sqHackSeqLen % 4 = 0; rw [r7b]; exact hL4,
      0, r6b, by show 2 * 0 + s1.sqHackSeqLen = L; rw [r7b]; omega⟩
  · simp only [hz, if_false]
    exact ⟨_, rfl, r5b, r6b, r7b, r3, pos1, r2, r4⟩

/-- C27: the music device is FM and `SD_StartMusic` starts a track whose length
is a multiple of 4, fits 16 bits and is the number of bytes of its buffer at
most.  Then any number `n` of calls of `SDL_ALService` return, none reads
outside the buffer, and after them `sqHackLen` is a multiple of 4 and twice the
number of 16-bit words between `sqHack` and `sqHackPtr` plus `sqHackLen` is the
length of the track. -/
theorem sequencer_stays_in_track (s : State) (music : MusicGroup) (hm : s.MusicMode = .smm_AdLib)
    (h4 : music.length % 4 = 0) (hlt : music.length < 65536)
    (hfit : music.length ≤ music.values.length) (n : Nat) :
    ∃ sn pos, runService SDL_ALService n (SD_StartMusic s music) = .ok sn ∧
      sn.sqHack = some ⟨music.values, 0⟩ ∧ sn.sqHackPtr = some ⟨music.values, pos⟩ ∧
      sn.sqHackLen % 4 = 0 ∧ 2 * pos + sn.sqHackLen = music.length ∧
      2 * pos + sn.sqHackLen ≤ music.values.length := by
  have hm2 : (SD_MusicOff s).MusicMode = .smm_AdLib := (SD_MusicOff_keeps s).2.1.trans hm
  have e : music.length % 65536 = music.length := Nat.mod_eq_of_lt hlt
  have h0 : SeqIn music.values music.length (SD_StartMusic s music) := by
    unfold SD_StartMusic
    simp only [hm2, if_true, SD_MusicOn, e]
    exact ⟨rfl, rfl, rfl, h4, 0, rfl, by show 2 * 0 + music.length = music.length; omega⟩
  have hrun : ∀ k, ∃ sk, runService SDL_ALService k (SD_StartMusic s music) = .ok sk ∧
      SeqIn music.values music.length sk := by
    intro k
    induction k with
    | zero => exact ⟨_, rfl, h0⟩
    | succ k ih =>
      obtain ⟨sk, r1, r2⟩ := ih
      obtain ⟨s1, t1, t2⟩ := SDL_ALService_SeqIn music.values music.length hfit h4 hlt sk r2
      exact ⟨s1, by rw [runService_succ_last, r1]; exact t1, t2⟩
  obtain ⟨sn, r1, _, r3, _, r5, pos, r6, r7⟩ := hrun n
  exact ⟨sn, pos, r1, r3, r6, r5, r7, by omega⟩

/-- Witness of C27: `demoTrack`, eight bytes, after three calls. -/
theorem sequencer_stays_in_track_witness :
    ∃ sn pos, runService SDL_ALService 3 (SD_StartMusic demoMusic demoTrack) = .ok sn ∧
      sn.sqHackPtr = some ⟨demoTrack.values, pos⟩ ∧ sn.sqHackLen % 4 = 0 ∧
      2 * pos + sn.sqHackLen = 8 := by
  obtain ⟨sn, pos, h1, _, h3, h4, h5, _⟩ :=
    sequencer_stays_in_track demoMusic demoTrack rfl (by decide) (by decide) (by decide) 3
  exact ⟨sn, pos, h1, h3, h4, h5⟩

/-! ## The token reader of `ck_act.c`: a comment at the end of the file -/

/-- Once no newline is left between the read position and the end of the data,
the comment loop never ends: whatever the fuel, it is used up with the
condition of the loop still true.  At the end of the data
`CK_ACT_PeekCharacter` returns 0, which is not a newline, and
`CK_ACT_GetCharacter` leaves the state as it is. -/
theorem CK_ACT_SkipComment_spins (fuel : Nat) : ∀ ps : CK_ACT_ParserState,
    ps.datasize ≤ ps.data.length →
    (∀ i, ps.dataindex ≤ i → i < ps.datasize → ps.data[i]? ≠ some 10) →
    CK_ACT_SkipComment fuel ps = .error .spin := by
  induction fuel with
  | zero =>
    intro ps hsz hno
    by_cases hend : ps.datasize ≤ ps.dataindex
    · simp [CK_ACT_SkipComment, CK_ACT_PeekCharacter, hend]
    · have hlt : ps.dataindex < ps.data.length := by omega
      have hc := hno ps.dataindex (Nat.le_refl _) (by omega)
      rw [List.getElem?_eq_getElem hlt] at hc
      have hc2 : ps.data[ps.dataindex] ≠ 10 := fun h => hc (by rw [h])
      simp [CK_ACT_SkipComment, CK_ACT_PeekCharacter, hend, List.getElem?_eq_getElem hlt, hc2]
  | succ fuel ih =>
    intro ps hsz hno
    by_cases hend : ps.datasize ≤ ps.dataindex
    · simp only [CK_ACT_SkipComment, CK_ACT_PeekCharacter, CK_ACT_GetCharacter, hend, if_true]
      simpa using ih ps hsz hno
    · have hlt : ps.dataindex < ps.data.length := by omega
      have hc := hno ps.dataindex (Nat.le_refl _) (by omega)
      rw [List.getElem?_eq_getElem hlt] at hc
      have hc2 : ps.data[ps.dataindex] ≠ 10 := fun h => hc (by rw [h])
      simp only [CK_ACT_SkipComment, CK_ACT_PeekCharacter, CK_ACT_GetCharacter, hend, if_false,
        List.getElem?_eq_getElem hlt, ne_eq, hc2, not_false_eq_true, if_true]
      exact ih _ hsz (fun i hi hi2 => hno i (by show ps.dataindex ≤ i; exact Nat.le_of_succ_le hi) hi2)

/-- C28, the code at the failing input: the file `%a # note`, read position 2,
so that the blank and then the comment are next and the file ends inside the
comment.  For every fuel `CK_ACT_SkipWhitespace` and `CK_ACT_GetToken` end with
the fuel used up inside the comment loop, while on the same file with a
newline after the comment 12 passes are enough and the next token is read. -/
theorem CK_ACT_SkipWhitespace_never_ends :
    (∀ fuel, CK_ACT_SkipWhitespace fuel demoComment = .error .spin) ∧
      (∀ fuel, CK_ACT_GetToken fuel demoComment = .error .spin) ∧
      CK_ACT_GetToken 12 demoCommentLine =
        .ok ([120], ⟨demoCommentLine.data, 11, 11, 1⟩) := by
  have hspin : ∀ fuel, CK_ACT_SkipWhitespace fuel demoComment = .error .spin := by
    intro fuel
    cases fuel with
    | zero => rfl
    | succ f =>
      cases f with
      | zero => rfl
      | succ g =>
        have h := CK_ACT_SkipComment_spins (g + 2) ⟨demoComment.data, 3, 9, 0⟩ (by decide)
          (by
            intro i h1 h2
            have h1 : 3 ≤ i := h1
            have h2 : i < 9 := h2
            interval_cases i <;> decide)
        have h1 : CK_ACT_SkipWhitespace_loop (g + 2) (g + 2) demoComment =
            CK_ACT_SkipWhitespace_loop (g + 2) (g + 1) ⟨demoComment.data, 3, 9, 0⟩ := rfl
        have h2 : CK_ACT_SkipWhitespace_loop (g + 2) (g + 1) ⟨demoComment.data, 3, 9, 0⟩ =
            (match CK_ACT_SkipComment (g + 2) ⟨demoComment.data, 3, 9, 0⟩ with
              | .error e => .error e
              | .ok ps1 => CK_ACT_SkipWhitespace_loop (g + 2) g ps1) := by
          rw [CK_ACT_SkipWhitespace_loop]
          cases CK_ACT_SkipComment (g + 2) ⟨demoComment.data, 3, 9, 0⟩ <;> rfl
        rw [CK_ACT_SkipWhitespace, h1, h2, h]
  refine ⟨hspin, fun fuel => ?_, rfl⟩
  simp only [CK_ACT_GetToken, hspin]

/-! ## The square wave of the tone generator -/

theorem add_div_mod_step (U m c : Nat) (hU : 0 < U) (hc : c < U) :
    (m % U + c < U → (m + c) % U = m % U + c ∧ (m + c) / U = m / U) ∧
      (U ≤ m % U + c →
        (m + c) % U = m % U + c - U ∧ (m + c) / U = m / U + 1 ∧
          (m % U + c) % U = m % U + c - U) := by
  have hr : m % U < U := Nat.mod_lt _ hU
  have e : m + c = U * (m / U) + (m % U + c) := by
    have := Nat.div_add_mod m U
    omega
  constructor
  · intro h
    rw [e, Nat.mul_add_mod, Nat.mul_add_div hU, Nat.mod_eq_of_lt h, Nat.div_eq_of_lt h]
    exact ⟨rfl, rfl⟩
  · intro h
    have h2 : m % U + c - U < U := by omega
    have e2 : (m % U + c) % U = m % U + c - U := by
      rw [Nat.mod_eq_sub_mod h, Nat.mod_eq_of_lt h2]
    have e3 : (m % U + c) / U = 1 := by
      rw [Nat.div_eq_sub_div hU h, Nat.div_eq_of_lt h2]
    rw [e, Nat.mul_add_mod, Nat.mul_add_div hU, e2, e3]
    exact ⟨rfl, rfl, rfl⟩

theorem toInt16_id (y : Int) (h1 : -32768 ≤ y) (h2 : y ≤ 32767) : toInt16 y = y := by
  unfold toInt16
  simp only []
  split <;> omega

theorem mixSample_eq (x level : Int) (hx1 : -32768 ≤ x) (hx2 : x ≤ 32767)
    (hl : level = 0 ∨ level = 8191) :
    mixSample x level = Int.tdiv (x + level) 2 ∧
      -32768 ≤ Int.tdiv (x + level) 2 ∧ Int.tdiv (x + level) 2 ≤ 32767 := by
  have hb : -32768 ≤ Int.tdiv (x + level) 2 ∧ Int.tdiv (x + level) 2 ≤ 32767 := by
    rcases Int.le_total 0 (x + level) with h | h
    · rw [Int.tdiv_eq_ediv h (by decide)]
      rcases hl with hl | hl <;> omega
    · have e : Int.tdiv (x + level) 2 = -Int.tdiv (-(x + level)) 2 := by
        rw [Int.neg_tdiv, Int.neg_neg]
      rw [e, Int.tdiv_eq_ediv (by omega) (by decide)]
      rcases hl with hl | hl <;> omega
  exact ⟨toInt16_id _ hb.1 hb.2, hb⟩

theorem beepLevelAt_cases (U k : Nat) : beepLevelAt U k = 0 ∨ beepLevelAt U k = 8191 := by
  unfold beepLevelAt
  split
  · exact Or.inl rfl
  · exact Or.inr rfl

theorem PCSpeakerStep_inv (U k : Nat) (s : State) (hU1 : 2386364 < U)
    (hU2 : U + 2386364 ≤ 4294967296)
    (hb : s.SD_SDL_BeepHalfCycleCounterUpperBound = U)
    (hc : s.SD_SDL_BeepHalfCycleCounter = (k * 2386364) % U)
    (hl : s.SD_SDL_CurrentBeepSample = beepLevelAt U k) :
    ∃ s1, PCSpeakerStep s = .ok s1 ∧ s1.SD_SDL_BeepHalfCycleCounterUpperBound = U ∧
      s1.SD_SDL_BeepHalfCycleCounter = ((k + 1) * 2386364) % U ∧
      s1.SD_SDL_CurrentBeepSample = beepLevelAt U (k + 1) ∧
      (if s.SD_SDL_BeepHalfCycleCounterUpperBound ≤
          (s.SD_SDL_BeepHalfCycleCounter + 2 * PC_PIT_RATE) % 4294967296 then 1 else 0) +
        k * 2386364 / U = (k + 1) * 2386364 / U ∧
      (k * 2386364) % U + 2386364 < 4294967296 := by
  have hU : 0 < U := by omega
  have hr : (k * 2386364) % U < U := Nat.mod_lt _ hU
  have e1 : (k + 1) * 2386364 = k * 2386364 + 2386364 := by rw [Nat.succ_mul]
  obtain ⟨ha, hbb⟩ := add_div_mod_step U (k * 2386364) 2386364 hU hU1
  have ecnt : (s.SD_SDL_BeepHalfCycleCounter + 2 * PC_PIT_RATE) % 4294967296 =
      (k * 2386364) % U + 2386364 := by
    rw [hc]
    show ((k * 2386364) % U + 2386364) % 4294967296 = _
    omega
  rw [e1]
  unfold PCSpeakerStep
  simp only [ecnt, hb]
  by_cases hw : U ≤ (k * 2386364) % U + 2386364
  · obtain ⟨b1, b2, b3⟩ := hbb hw
    have hU0 : U ≠ 0 := by omega
    simp only [if_pos hw, if_neg hU0]
    refine ⟨_, rfl, rfl, ?_, ?_, ?_, by omega⟩
    · show ((k * 2386364) % U + 2386364) % U = _
      rw [b3, b1]
    · show toInt16 (8191 - s.SD_SDL_CurrentBeepSample) = _
      rw [hl]
      unfold beepLevelAt
      rw [e1, b2]
      by_cases hp : (k * 2386364 / U) % 2 = 0
      · have hp2 : ¬ (k * 2386364 / U + 1) % 2 = 0 := by omega
        rw [if_pos hp, if_neg hp2]
        decide
      · have hp2 : (k * 2386364 / U + 1) % 2 = 0 := by omega
        rw [if_neg hp, if_pos hp2]
        decide
    · rw [b2]; omega
  · obtain ⟨a1, a2⟩ := ha (by omega)
    simp only [if_neg hw]
    refine ⟨_, rfl, rfl, ?_, ?_, ?_, by omega⟩
    · show (k * 2386364) % U + 2386364 = _
      rw [a1]
    · show s.SD_SDL_CurrentBeepSample = _
      rw [hl]
      unfold beepLevelAt
      rw [e1, a2]
    · rw [a2]; omega

theorem PCSpeakerMix_inv (U : Nat) (hU1 : 2386364 < U) (hU2 : U + 2386364 ≤ 4294967296)
    (xs : List Int) : ∀ (k : Nat) (s : State),
    s.SD_SDL_BeepHalfCycleCounterUpperBound = U →
    s.SD_SDL_BeepHalfCycleCounter = (k * 2386364) % U →
    s.SD_SDL_CurrentBeepSample = beepLevelAt U k →
    (∀ x ∈ xs, -32768 ≤ x ∧ x ≤ 32767) →
    ∃ s1 out, PCSpeakerMix s xs = .ok (s1, out) ∧
      PCSpeakerSteps xs.length s = .ok s1 ∧
      s1.SD_SDL_BeepHalfCycleCounterUpperBound = U ∧
      s1.SD_SDL_BeepHalfCycleCounter = ((k + xs.length) * 2386364) % U ∧
      s1.SD_SDL_CurrentBeepSample = beepLevelAt U (k + xs.length) ∧
      PCSpeakerToggles xs.length s + k * 2386364 / U = (k + xs.length) * 2386364 / U ∧
      out.length = xs.length ∧
      (∀ j, j < xs.length →
        out[j]? = (xs[j]?).map (fun x => Int.tdiv (x + beepLevelAt U (k + j)) 2)) ∧
      (∀ j, j < xs.length → ((k + j) * 2386364) % U + 2386364 < 4294967296) := by
  induction xs with
  | nil =>
    intro k s hb hc hl _
    exact ⟨s, [], rfl, rfl, hb, hc, hl, by simp [PCSpeakerToggles], rfl,
      fun j hj => absurd hj (Nat.not_lt_zero j), fun j hj => absurd hj (Nat.not_lt_zero j)⟩
  | cons x xs ih =>
    intro k s hb hc hl hx
    obtain ⟨s1, t1, t2, t3, t4, t5, t6⟩ := PCSpeakerStep_inv U k s hU1 hU2 hb hc hl
    obtain ⟨s2, out, r1, r2, r3, r4, r5, r6, r7, r8, r9⟩ :=
      ih (k + 1) s1 t2 t3 t4 (fun y hy => hx y (List.mem_cons_of_mem _ hy))
    have hx0 := hx x (List.mem_cons_self _ _)
    have hmix := (mixSample_eq x s.SD_SDL_CurrentBeepSample hx0.1 hx0.2
      (by rw [hl]; exact beepLevelAt_cases U k)).1
    have elen : k + (x :: xs).length = k + 1 + xs.length := by
      simp only [List.length_cons]; omega
    refine ⟨s2, mixSample x s.SD_SDL_CurrentBeepSample :: out, ?_, ?_, r3, ?_, ?_, ?_, ?_, ?_, ?_⟩
    · simp only [PCSpeakerMix, t1, r1]
    · simp only [List.length_cons, PCSpeakerSteps, t1]
      exact r2
    · rw [elen]; exact r4
    · rw [elen]; exact r5
    · rw [elen, ← r6]
      simp only [List.length_cons, PCSpeakerToggles, t1]
      omega
    · simp [r7]
    · intro j hj
      cases j with
      | zero =>
        simp only [List.getElem?_cons_zero, Option.map_some', Nat.add_zero]
        rw [hmix, hl]
      | succ j =>
        simp only [List.length_cons] at hj
        simp only [List.getElem?_cons_succ]
        rw [r8 j (by omega)]
        have : k + 1 + j = k + (j + 1) := by omega
        rw [this]
    · intro j hj
      cases j with
      | zero => exact t6
      | succ j =>
        simp only [List.length_cons] at hj
        have := r9 j (by omega)
        have e : k + 1 + j = k + (j + 1) := by omega
        rw [e] at this
        exact this

theorem PCSpeakerMix_append (xs ys : List Int) : ∀ s : State,
    PCSpeakerMix s (xs ++ ys) =
      match PCSpeakerMix s xs with
      | .error e => .error e
      | .ok r =>
        match PCSpeakerMix r.1 ys with
        | .error e => .error e
        | .ok q => .ok (q.1, r.2 ++ q.2) := by
  induction xs with
  | nil =>
    intro s
    simp only [List.nil_append, PCSpeakerMix]
    cases PCSpeakerMix s ys <;> simp
  | cons x xs ih =>
    intro s
    simp only [List.cons_append, PCSpeakerMix, List.append_eq]
    cases PCSpeakerStep s with
    | error e => rfl
    | ok s1 =>
      simp only [ih s1]
      cases PCSpeakerMix s1 xs with
      | error e => rfl
      | ok r =>
        simp only []
        cases PCSpeakerMix r.1 ys with
        | error e => rfl
        | ok q => simp

/-- C25: the tone generator starts at level 0 and counter 0 with the bound
`U = 49716 * t`, `t` from 60 to 15240, and `PCSpeakerUpdateOne` processes the
`n` incoming 16-bit samples `xs`.  The run returns; the counter is then
`(n * 2 * 1193182) mod U`; the toggle branch has been taken
`n * 2 * 1193182 / U` times; the level is 0 or 8191; the output sample of index
`j` is the truncating quotient `(x_j + level_j) / 2` with the level as it was
after `j` samples, before the toggle of that pass; every output sample fits 16
bits and the counter plus its increment stays below `2^32` in every pass. -/
theorem PCSpeakerUpdateOne_square_wave (s : State) (t : Nat) (xs : List Int) (ht1 : 60 ≤ t) (ht2 : t ≤ 15240)
    (hl : s.SD_SDL_CurrentBeepSample = 0) (hc : s.SD_SDL_BeepHalfCycleCounter = 0)
    (hb : s.SD_SDL_BeepHalfCycleCounterUpperBound = 49716 * t)
    (hx : ∀ x ∈ xs, -32768 ≤ x ∧ x ≤ 32767) :
    ∃ s1 out, PCSpeakerMix s xs = .ok (s1, out) ∧ PCSpeakerSteps xs.length s = .ok s1 ∧
      s1.SD_SDL_BeepHalfCycleCounter = (xs.length * (2 * 1193182)) % (49716 * t) ∧
      PCSpeakerToggles xs.length s = xs.length * (2 * 1193182) / (49716 * t) ∧
      s1.SD_SDL_CurrentBeepSample = beepLevelAt (49716 * t) xs.length ∧
      (s1.SD_SDL_CurrentBeepSample = 0 ∨ s1.SD_SDL_CurrentBeepSample = 8191) ∧
      out.length = xs.length ∧
      (∀ j, j < xs.length →
        out[j]? = (xs[j]?).map (fun x => Int.tdiv (x + beepLevelAt (49716 * t) j) 2)) ∧
      (∀ y ∈ out, -32768 ≤ y ∧ y ≤ 32767) ∧
      (∀ j, j < xs.length → (j * (2 * 1193182)) % (49716 * t) + 2 * 1193182 < 4294967296) := by
  have hU1 : 2386364 < 49716 * t := by omega
  have hU2 : 49716 * t + 2386364 ≤ 4294967296 := by omega
  obtain ⟨s1, out, r1, r2, _, r4, r5, r6, r7, r8, r9⟩ :=
    PCSpeakerMix_inv (49716 * t) hU1 hU2 xs 0 s hb (by rw [hc]; simp)
      (by rw [hl]; simp [beepLevelAt]) hx
  simp only [Nat.zero_add, Nat.zero_mul, Nat.zero_div, Nat.add_zero] at r4 r5 r6 r8 r9
  refine ⟨s1, out, r1, r2, r4, r6, r5, ?_, r7, r8, ?_, r9⟩
  · rw [r5]; exact beepLevelAt_cases _ _
  · intro y hy
    obtain ⟨j, hj⟩ := List.mem_iff_getElem?.mp hy
    have hjl : j < xs.length := by
      rcases Nat.lt_or_ge j out.length with h | h
      · omega
      · rw [List.getElem?_eq_none h] at hj; cases hj
    rw [r8 j hjl, List.getElem?_eq_getElem hjl] at hj
    simp only [Option.map_some', Option.some.injEq] at hj
    have hxj := hx _ (List.getElem_mem hjl)
    rw [← hj]
    exact (mixSample_eq _ _ hxj.1 hxj.2 (beepLevelAt_cases _ _)).2

/-- Witness of C25: table period 60 and the three incoming samples 100, -7,
300; the level toggles in the second and in the third pass. -/
theorem PCSpeakerUpdateOne_square_wave_witness :
    ∃ s1 out, PCSpeakerMix demoBeep [100, -7, 300] = .ok (s1, out) ∧
      s1.SD_SDL_BeepHalfCycleCounter = 1193172 ∧ PCSpeakerToggles 3 demoBeep = 2 ∧
      s1.SD_SDL_CurrentBeepSample = 0 ∧ out[2]? = some 4245 := by
  obtain ⟨s1, out, h1, _, h3, h4, h5, _, _, h8, _⟩ :=
    PCSpeakerUpdateOne_square_wave demoBeep 60 [100, -7, 300] (by decide) (by decide) rfl rfl rfl (by decide)
  exact ⟨s1, out, h1, h3, h4, h5, h8 2 (by decide)⟩

/-! ## The sample offset at every evaluation of the difference -/

theorem SD_SDL_CallBack_loop_obs_run (fuel : Nat) : ∀ (s : State) (len pos : Nat),
    (SD_SDL_CallBack_loop_obs fuel s len pos).2 = SD_SDL_CallBack_loop fuel s len pos := by
  induction fuel with
  | zero => intro s len pos; rfl
  | succ fuel ih =>
    intro s len pos
    rw [SD_SDL_CallBack_loop_obs, SD_SDL_CallBack_loop]
    by_cases hl : len = 0
    · simp only [hl, if_true]
    · simp only [hl, if_false]
      cases (if s.SD_SDL_SampleOffsetInSound = 0 then SDL_t0Service s else .ok s) with
      | error x => rfl
      | ok s1 =>
        simp only []
        split
        · split
          · rfl
          · cases generate s1 pos ((s1.SD_SDL_SamplesPerPart + 4294967296 - s1.SD_SDL_SampleOffsetInSound % 4294967296) % 4294967296) with
            | error x => rfl
            | ok s2 => exact ih _ _ _
        · cases generate s1 pos (len / 2) with
          | error x => rfl
          | ok s2 => exact ih _ _ _

theorem pcNewSample_offset (s s3 : State) (u : Nat) (h : pcNewSample s u = .ok s3) :
    s3.SD_SDL_SampleOffsetInSound = s.SD_SDL_SampleOffsetInSound := by
  unfold pcNewSample at h
  by_cases h1 : u = s.pcLastSample
  · simp only [h1, ne_eq, not_true_eq_false, if_false, Except.ok.injEq] at h
    rw [← h]
  · by_cases h0 : u = 0
    · subst h0
      simp only [ne_eq, h1, not_false_eq_true, if_true, not_true_eq_false, if_false,
        Except.ok.injEq] at h
      rw [← h]
    · simp only [ne_eq, h1, not_false_eq_true, if_true, h0] at h
      cases hl : s.pcSoundLookup[u]? with
      | none => simp [hl] at h
      | some t =>
        simp only [hl, Except.ok.injEq] at h
        rw [← h]

theorem pcCountDown_offset (s : State) :
    (pcCountDown s).SD_SDL_SampleOffsetInSound = s.SD_SDL_SampleOffsetInSound := by
  by_cases hl : (s.pcLengthLeft + 4294967295) % 4294967296 = 0
  · simp only [pcCountDown, if_pos hl, SDL_PCStopSound, SDL_PCStopSound_Low, unlockIfUp_eq,
      lockIfUp_eq]
  · simp only [pcCountDown, if_neg hl]

theorem SDL_PCService_offset (s s1 : State) (h : SDL_PCService s = .ok s1) :
    s1.SD_SDL_SampleOffsetInSound = s.SD_SDL_SampleOffsetInSound := by
  unfold SDL_PCService at h
  simp only [emit] at h
  cases hp : s.pcSound with
  | none =>
    simp only [hp, Except.ok.injEq] at h
    rw [← h]
  | some p =>
    simp only [hp] at h
    cases hu : p.buf[p.pos]? with
    | none => simp [hu] at h
    | some u =>
      simp only [hu] at h
      cases hn : pcNewSample
          { s with trace := s.trace ++ [.callPCService], pcSound := some ⟨p.buf, p.pos + 1⟩ } u with
      | error e => rw [hn] at h; cases h
      | ok s3 =>
        rw [hn] at h
        simp only [Except.ok.injEq] at h
        rw [← h, pcCountDown_offset]
        exact (pcNewSample_offset _ _ _ hn :)

theorem SDL_ALSoundService_offset (s s1 : State) (h : SDL_ALSoundService s = .ok s1) :
    s1.SD_SDL_SampleOffsetInSound = s.SD_SDL_SampleOffsetInSound := by
  unfold SDL_ALSoundService at h
  simp only [emit] at h
  cases hp : s.alSound with
  | none =>
    simp only [hp, Except.ok.injEq] at h
    rw [← h]
  | some p =>
    simp only [hp] at h
    cases hu : p.buf[p.pos]? with
    | none => simp [hu] at h
    | some u =>
      simp only [hu, alOut, emit] at h
      by_cases hl : (s.alLengthLeft + 4294967295) % 4294967296 = 0
      · by_cases h0 : u = 0
        · simp only [h0, if_true, if_pos hl, Except.ok.injEq] at h
          rw [← h]
        · simp only [h0, if_false, if_pos hl, Except.ok.injEq] at h
          rw [← h]
      · by_cases h0 : u = 0
        · simp only [h0, if_true, if_neg hl, Except.ok.injEq] at h
          rw [← h]
        · simp only [h0, if_false, if_neg hl, Except.ok.injEq] at h
          rw [← h]

theorem SDL_ALService_loop_offset (fuel : Nat) : ∀ (s s1 : State),
    SDL_ALService_loop fuel s = .ok s1 →
    s1.SD_SDL_SampleOffsetInSound = s.SD_SDL_SampleOffsetInSound := by
  induction fuel with
  | zero =>
    intro s s1 h
    rw [SDL_ALService_loop] at h
    split at h
    · cases h
    · simp only [Except.ok.injEq] at h
      rw [← h]
  | succ fuel ih =>
    intro s s1 h
    rw [SDL_ALService_loop] at h
    split at h
    · cases hp : s.sqHackPtr with
      | none => simp [hp] at h
      | some p =>
        simp only [hp] at h
        cases hw : readU16 p.buf p.pos with
        | none => simp [hw] at h
        | some w =>
          cases hd : readU16 p.buf (p.pos + 1) with
          | none => simp [hw, hd] at h
          | some d =>
            simp only [hw, hd, alOut, emit] at h
            exact (ih _ _ h :)
    · simp only [Except.ok.injEq] at h
      rw [← h]

theorem SDL_ALService_offset (s s1 : State) (h : SDL_ALService s = .ok s1) :
    s1.SD_SDL_SampleOffsetInSound = s.SD_SDL_SampleOffsetInSound := by
  unfold SDL_ALService at h
  simp only [emit] at h
  split at h
  · simp only [Except.ok.injEq] at h
    rw [← h]
  · split at h
    · cases h
    · next s2 hs2 =>
      have k := SDL_ALService_loop_offset _ _ _ hs2
      split at h
      · simp only [Except.ok.injEq] at h
        rw [← h]
        exact k
      · simp only [Except.ok.injEq] at h
        rw [← h]
        exact k

theorem effectsService_offset (s s1 : State) (h : effectsService s = .ok s1) :
    s1.SD_SDL_SampleOffsetInSound = s.SD_SDL_SampleOffsetInSound := by
  unfold effectsService at h
  cases hm : s.SoundMode with
  | sdm_Off =>
    simp only [hm, Except.ok.injEq] at h
    rw [← h]
  | sdm_PC =>
    simp only [hm] at h
    exact SDL_PCService_offset _ _ h
  | sdm_AdLib =>
    simp only [hm] at h
    exact SDL_ALSoundService_offset _ _ h

theorem SDL_t0Service_offset (s s1 : State) (h : SDL_t0Service s = .ok s1) :
    s1.SD_SDL_SampleOffsetInSound = s.SD_SDL_SampleOffsetInSound := by
  unfold SDL_t0Service at h
  simp only [emit] at h
  split at h
  · split at h
    · cases h
    · next s2 hs2 =>
      have k := SDL_ALService_offset _ _ hs2
      split at h
      · exact ((effectsService_offset _ _ h :)).trans k
      · simp only [Except.ok.injEq] at h
        rw [← h]
        exact k
  · exact (effectsService_offset _ _ h :)

theorem PCSpeakerSteps_offset (n : Nat) : ∀ (s s1 : State), PCSpeakerSteps n s = .ok s1 →
    s1.SD_SDL_SampleOffsetInSound = s.SD_SDL_SampleOffsetInSound ∧
      s1.SD_SDL_SamplesPerPart = s.SD_SDL_SamplesPerPart := by
  induction n with
  | zero =>
    intro s s1 h
    simp only [PCSpeakerSteps, Except.ok.injEq] at h
    rw [← h]
    exact ⟨rfl, rfl⟩
  | succ n ih =>
    intro s s1 h
    rw [PCSpeakerSteps] at h
    cases hs : PCSpeakerStep s with
    | error e => rw [hs] at h; cases h
    | ok s2 =>
      rw [hs] at h
      have k := ih _ _ h
      unfold PCSpeakerStep at hs
      simp only [] at hs
      split at hs
      · split at hs
        · cases hs
        · simp only [Except.ok.injEq] at hs
          rw [← hs] at k
          exact k
      · simp only [Except.ok.injEq] at hs
        rw [← hs] at k
        exact k

theorem generate_offset (s s1 : State) (pos d : Nat) (h : generate s pos d = .ok s1) :
    s1.SD_SDL_SampleOffsetInSound = s.SD_SDL_SampleOffsetInSound ∧
      s1.SD_SDL_SamplesPerPart = s.SD_SDL_SamplesPerPart := by
  unfold generate at h
  simp only [YM3812UpdateOne, emit] at h
  split at h
  · exact (PCSpeakerSteps_offset _ _ _ h :)
  · simp only [Except.ok.injEq] at h
    rw [← h]
    exact ⟨rfl, rfl⟩

theorem endOfPart_offset (s : State) :
    (endOfPart s).SD_SDL_SampleOffsetInSound =
      (if s.SD_SDL_SamplesPerPart ≤ s.SD_SDL_SampleOffsetInSound then 0
        else s.SD_SDL_SampleOffsetInSound) := by
  unfold endOfPart
  split <;> rfl

theorem SD_SDL_CallBack_loop_obs_zero (fuel : Nat) : ∀ (s : State) (len pos : Nat),
    s.SD_SDL_SampleOffsetInSound = 0 →
    (∀ o ∈ (SD_SDL_CallBack_loop_obs fuel s len pos).1, o.1 = 0) ∧
      ∀ s1, (SD_SDL_CallBack_loop_obs fuel s len pos).2 = .ok s1 →
        s1.SD_SDL_SampleOffsetInSound = 0 := by
  induction fuel with
  | zero =>
    intro s len pos h0
    rw [SD_SDL_CallBack_loop_obs]
    refine ⟨fun o ho => absurd ho (List.not_mem_nil o), fun s1 h => ?_⟩
    simp only [] at h
    split at h
    · simp only [Except.ok.injEq] at h
      rw [← h]; exact h0
    · cases h
  | succ fuel ih =>
    intro s len pos h0
    rw [SD_SDL_CallBack_loop_obs]
    by_cases hl : len = 0
    · simp only [hl, if_true]
      refine ⟨fun o ho => absurd ho (List.not_mem_nil o), fun s1 h => ?_⟩
      simp only [Except.ok.injEq] at h
      rw [← h]; exact h0
    · simp only [hl, if_false, h0, if_true]
      cases ht : SDL_t0Service s with
      | error x =>
        exact ⟨fun o ho => absurd ho (List.not_mem_nil o), fun s1 h => by cases h⟩
      | ok s1 =>
        have k1 : s1.SD_SDL_SampleOffsetInSound = 0 := (SDL_t0Service_offset _ _ ht).trans h0
        simp only [k1]
        split
        · split
          · exact ⟨fun o ho => by simp at ho; rw [ho], fun s1 h => by cases h⟩
          · cases hg : generate s1 pos ((s1.SD_SDL_SamplesPerPart + 4294967296 - 0 % 4294967296) % 4294967296) with
            | error x => exact ⟨fun o ho => by simp at ho; rw [ho], fun s1 h => by cases h⟩
            | ok s2 =>
              have e : (endOfPart { s2 with SD_SDL_SampleOffsetInSound := s2.SD_SDL_SamplesPerPart }).SD_SDL_SampleOffsetInSound = 0 := by
                rw [endOfPart_offset]
                simp
              obtain ⟨i1, i2⟩ := ih _ (len - (2 * ((s1.SD_SDL_SamplesPerPart + 4294967296 - 0 % 4294967296) % 4294967296)) % 4294967296)
                (pos + (s1.SD_SDL_SamplesPerPart + 4294967296 - 0 % 4294967296) % 4294967296) e
              refine ⟨fun o ho => ?_, fun s1 h => i2 s1 h⟩
              simp only [List.mem_cons] at ho
              rcases ho with ho | ho
              · rw [ho]
              · exact i1 o ho
        · cases hg : generate s1 pos (len / 2) with
          | error x => exact ⟨fun o ho => by simp at ho; rw [ho], fun s1 h => by cases h⟩
          | ok s2 =>
            have k2 : s2.SD_SDL_SampleOffsetInSound = 0 := (generate_offset _ _ _ _ hg).1.trans k1
            have e : (endOfPart { s2 with SD_SDL_SampleOffsetInSound :=
                (s2.SD_SDL_SampleOffsetInSound + 0 / 2) % 4294967296 }).SD_SDL_SampleOffsetInSound = 0 := by
              rw [endOfPart_offset]
              simp [k2]
            obtain ⟨i1, i2⟩ := ih _ 0 (pos + len / 2) e
            refine ⟨fun o ho => ?_, fun s1 h => i2 s1 h⟩
            simp only [List.mem_cons] at ho
            rcases ho with ho | ho
            · rw [ho]
            · exact i1 o ho

/-- The callback with the record returns what the callback returns. -/
theorem SD_SDL_CallBack_obs_run (s : State) (len : Nat) :
    (SD_SDL_CallBack_obs s len).2 = SD_SDL_CallBack s len :=
  SD_SDL_CallBack_loop_obs_run (len + 2) s len 0

theorem SDL_SetTimerSpeed_offset (s : State) :
    (SDL_SetTimerSpeed s).SD_SDL_SampleOffsetInSound = s.SD_SDL_SampleOffsetInSound := by
  rw [SDL_SetTimerSpeed_eq]

theorem SD_SetMusicMode_offset (result0 : Bool) (s : State) (mode : SMMode) :
    (SD_SetMusicMode result0 s mode).2.SD_SDL_SampleOffsetInSound =
      s.SD_SDL_SampleOffsetInSound := by
  have k : (SD_FadeOutMusic s).SD_SDL_SampleOffsetInSound = s.SD_SDL_SampleOffsetInSound := by
    unfold SD_FadeOutMusic
    split
    · rw [SD_MusicOff_eq]
    · rfl
  unfold SD_SetMusicMode
  simp only [SDL_SetTimerSpeed_offset]
  cases mode
  · simp [k]
  · by_cases ha : (SD_FadeOutMusic s).AdLibPresent = true
    · simp [ha, k]
    · cases result0 <;> simp [ha, k]

theorem SD_StopSound_offset (s : State) :
    (SD_StopSound s).SD_SDL_SampleOffsetInSound = s.SD_SDL_SampleOffsetInSound := by
  cases hm : s.SoundMode <;>
    simp [SD_StopSound, hm, SDL_PCStopSound, SDL_PCStopSound_Low,
      SDL_ALStopSound, SDL_ALStopSound_Low, unlockIfUp_eq, lockIfUp_eq, alOut, emit]

theorem SDL_ShutDevice_offset (s : State) :
    (SDL_ShutDevice s).SD_SDL_SampleOffsetInSound = s.SD_SDL_SampleOffsetInSound := by
  cases hm : s.SoundMode <;>
    simp [SDL_ShutDevice, hm, SDL_ShutPC, SDL_ShutPC_Low, SDL_ShutAL, SDL_ShutAL_Low,
      SDL_AlSetFXInst, unlockIfUp_eq, lockIfUp_eq, alOut, emit]

theorem SDL_StartDevice_offset (s : State) :
    (SDL_StartDevice s).SD_SDL_SampleOffsetInSound = s.SD_SDL_SampleOffsetInSound := by
  by_cases hm : s.SoundMode = .sdm_AdLib <;>
    simp [SDL_StartDevice, hm, SDL_StartAL, SDL_AlSetFXInst, alOut, emit]

theorem SD_SetSoundMode_offset (NUMSOUNDS : Nat) (any_sound0 : Bool) (offset0 : Int)
    (s : State) (mode : SDMode) :
    (SD_SetSoundMode NUMSOUNDS any_sound0 offset0 s mode).2.SD_SDL_SampleOffsetInSound =
      s.SD_SDL_SampleOffsetInSound := by
  have k := SD_StopSound_offset s
  have fin : ∀ (r : Bool × Int × State),
      r.2.2.SD_SDL_SampleOffsetInSound = s.SD_SDL_SampleOffsetInSound →
      (if r.1 = true ∧ mode ≠ r.2.2.SoundMode then
        SDL_StartDevice
          { SDL_ShutDevice r.2.2 with
            SoundMode := mode, SoundTable := tableAt (SDL_ShutDevice r.2.2).CA_audio r.2.1 }
        else r.2.2).SD_SDL_SampleOffsetInSound = s.SD_SDL_SampleOffsetInSound := by
    intro r hr
    split
    · rw [SDL_StartDevice_offset]
      show (SDL_ShutDevice r.2.2).SD_SDL_SampleOffsetInSound = _
      rw [SDL_ShutDevice_offset, hr]
    · exact hr
  unfold SD_SetSoundMode
  simp only [SDL_SetTimerSpeed_offset]
  apply fin
  cases mode
  · exact k
  · exact k
  · by_cases ha : (SD_StopSound s).AdLibPresent = false
    · simp only [ha, if_true]; exact k
    · simp only [ha, if_false]; exact k

theorem runTimerOps_zero (ops : List TimerOp) : ∀ s : State,
    s.SD_SDL_SampleOffsetInSound = 0 → ∀ o ∈ (runTimerOps s ops).1, o.1 = 0 := by
  induction ops with
  | nil =>
    intro s _ o ho
    simp [runTimerOps] at ho
  | cons op rest ih =>
    intro s h0 o ho
    cases op with
    | callback len =>
      obtain ⟨i1, i2⟩ := SD_SDL_CallBack_loop_obs_zero (len + 2) s len 0 h0
      rw [runTimerOps] at ho
      unfold SD_SDL_CallBack_obs at ho
      generalize SD_SDL_CallBack_loop_obs (len + 2) s len 0 = r at i1 i2 ho
      obtain ⟨obs, res⟩ := r
      cases res with
      | error e => exact i1 o ho
      | ok s1 =>
        simp only [List.mem_append] at ho
        rcases ho with ho | ho
        · exact i1 o ho
        · exact ih s1 (i2 s1 rfl) o ho
    | setMusicMode result0 mode =>
      rw [runTimerOps] at ho
      exact ih _ ((SD_SetMusicMode_offset result0 s mode).trans h0) o ho
    | setSoundMode n a off mode =>
      rw [runTimerOps] at ho
      exact ih _ ((SD_SetSoundMode_offset n a off s mode).trans h0) o ho

/-- C26: from a state with sample offset 0, in every sequence of callbacks of
any byte counts and of timer-speed changes, the stored sample offset is at
most the part size whenever a callback evaluates the unsigned difference of
the two, and the difference is the part size itself: the subtraction does not
wrap.  The offset is 0 at each of these evaluations. -/
theorem sample_offset_never_exceeds_part (s : State) (ops : List TimerOp)
    (h0 : s.SD_SDL_SampleOffsetInSound = 0) :
    ∀ o ∈ (runTimerOps s ops).1,
      o.1 ≤ o.2 ∧ (o.2 + 4294967296 - o.1 % 4294967296) % 4294967296 = o.2 % 4294967296 := by
  intro o ho
  have h := runTimerOps_zero ops s h0 o ho
  rw [h]
  exact ⟨Nat.zero_le _, by omega⟩

/-- Witness of C26: a callback of 40 bytes at the part size 88, the music device
switched off, which sets the part size 354, and a callback of 1500 bytes. -/
theorem sample_offset_never_exceeds_part_witness :
    (runTimerOps demoMusic
        [.callback 40, .setMusicMode false .smm_Off, .callback 1500]).1 =
        [(0, 88), (0, 354), (0, 354), (0, 354)] ∧
      ∀ o ∈ (runTimerOps demoMusic
          [.callback 40, .setMusicMode false .smm_Off, .callback 1500]).1,
        o.1 ≤ o.2 ∧ (o.2 + 4294967296 - o.1 % 4294967296) % 4294967296 = o.2 % 4294967296 :=
  ⟨by decide, sample_offset_never_exceeds_part demoMusic _ rfl⟩

/-! ## Requests that end in `Quit` -/

/-- C1, the code at the failing input: the tone device with nothing playing
(`SoundPriority = 0`), slot 0 loaded at address 0x100000000 with header length
4 and priority 5.  The request is not accepted: `SD_PlaySound` reads the word it
tests as length from the table slot, finds the low 32 bits of the pointer, which
are zero, and ends in `Quit("SD_PlaySound() - Zero length sound")`.  The same
effect loaded at address 0x1000 (`demoTable`) is accepted, with `SoundNumber`
0, `SoundPriority` 5 and a remaining length of 4. -/
theorem SD_PlaySound_loaded_effect_quits :
    demoPCHigh.SoundMode = .sdm_PC ∧ demoPCHigh.SoundPriority = 0 ∧
    demoPCHigh.SoundTable[0]? = some ⟨0x100000000, 4, 5, demoInst, 3, [10, 10, 0, 20]⟩ ∧
    SD_PlaySound demoPCHigh 0 =
      .error (.quit "SD_PlaySound() - Zero length sound" demoPCHigh) ∧
    (∀ s1, SD_PlaySound demoPCHigh 0 ≠ .ok s1) ∧
    (∃ s1, SD_PlaySound { demoPCHigh with SoundTable := demoTable } 0 = .ok s1 ∧
      s1.SoundNumber = 0 ∧ s1.SoundPriority = 5 ∧ s1.pcLengthLeft = 4) := by
  refine ⟨rfl, rfl, rfl, rfl, ?_, ⟨_, rfl, ?_, ?_, ?_⟩⟩
  · intro s1 h
    have h2 : SD_PlaySound demoPCHigh 0 =
      .error (.quit "SD_PlaySound() - Zero length sound" demoPCHigh) := rfl
    rw [h2] at h
    cases h
  all_goals decide

/-- C2, the code at the failing input: the tone device playing effect 0 at
priority 5, slot 1 loaded at address 0x200000000 with header length 2 and
priority 3.  The request does not return the state unchanged: `SD_PlaySound`
ends in `Quit("SD_PlaySound() - Zero length sound")`, for the low 32 bits of
the pointer, which it tests as length, are zero. -/
theorem SD_PlaySound_lower_priority_quits :
    demoPCPlayingHigh.SoundMode = .sdm_PC ∧ demoPCPlayingHigh.SoundPriority = 5 ∧
    demoPCPlayingHigh.pcSound = some ⟨[10, 10, 0, 20], 0⟩ ∧
    demoPCPlayingHigh.SoundTable[1]? = some ⟨0x200000000, 2, 3, demoInst, 2, [7, 9]⟩ ∧
    SD_PlaySound demoPCPlayingHigh 1 =
      .error (.quit "SD_PlaySound() - Zero length sound" demoPCPlayingHigh) ∧
    SD_PlaySound demoPCPlayingHigh 1 ≠ .ok demoPCPlayingHigh := by
  refine ⟨rfl, rfl, rfl, rfl, rfl, ?_⟩
  intro h
  have h2 : SD_PlaySound demoPCPlayingHigh 1 =
    .error (.quit "SD_PlaySound() - Zero length sound" demoPCPlayingHigh) := rfl
  rw [h2] at h
  cases h

/-- Counterexample to C3: the FM device with nothing playing, slot 0 loaded at
address 0x1000 with header length 2, priority 5 and an instrument whose two
sustain bytes are zero.  The single request for it ends in
`Quit("SDL_ALPlaySound() - Bad instrument")`: no state follows the request, so
`SoundPriority` does not become 5. -/
theorem playAll_bad_instrument_quits :
    demoALBadInst.SoundMode = .sdm_AdLib ∧ demoALBadInst.SoundPriority = 0 ∧
    demoALBadInst.SoundTable[0]? = some ⟨0x1000, 2, 5, alZeroInst, 3, [10, 10]⟩ ∧
    (∃ s, playAll demoALBadInst [0] =
      .error (.quit "SDL_ALPlaySound() - Bad instrument" s)) ∧
    ∀ s1, playAll demoALBadInst [0] ≠ .ok s1 := by
  have h2 : ∃ s, playAll demoALBadInst [0] =
      .error (.quit "SDL_ALPlaySound() - Bad instrument" s) := ⟨_, rfl⟩
  refine ⟨rfl, rfl, rfl, h2, ?_⟩
  intro s1 h
  obtain ⟨s, h3⟩ := h2
  rw [h3] at h
  cases h

end IdSd
